import Mathlib

set_option maxHeartbeats 1000000

/-!
Verification development for the `migrate-converged-pkg` generator
(`src/tools/generators/migrate-converged-pkg/index.ts`).

The generator is a synchronous file-tree transformer.  We embed it shallowly:

* A file path is a list of path fragments (`FsPath`); `joinPathFragments`
  becomes list append and `splitPathFragments` is the identity on the
  fragment list (fragments are slash-free, so joining and re-splitting by
  `path.sep` round-trips).
* The tree is an association list from path to file content.  JSON files that
  the generator reads or updates structurally (`package.json`,
  `tsconfig.json`, `tsconfig.base.json`, the root jest config) are modelled
  as structured values; per the spec (§3) JSON writes round-trip through a
  canonical serializer, so holding the parsed value is faithful.  Fields the
  generator never touches are collapsed into an opaque `rest` string that
  updates preserve.
* Thrown exceptions become `Except Err` where `Err` pairs the message with
  the tree as it stood at the throw site (the host keeps the mutable tree in
  exactly that state when an exception propagates).
* JavaScript string operations are reproduced on character lists, including
  the first-occurrence-only semantics of `String.prototype.replace` with a
  string pattern, and the insertion-order de-duplication of
  `Array.from(new Set(...))`.
* The shallow copy `{ ...templates.tsconfig }` shares its `compilerOptions`
  object with the template, so assigning `.types` mutates the template
  in place; we thread that mutable template state as `MigState.tmplTypes`.
-/

/-! ## JavaScript string primitives -/

/-- `s.startsWith(p)` of JavaScript, on character lists. -/
def jsStartsWith (s p : String) : Bool :=
  p.data.isPrefixOf s.data

/-- `s.endsWith(p)` of JavaScript, on character lists. -/
def jsEndsWith (s p : String) : Bool :=
  p.data.isSuffixOf s.data

/-- Replace the first occurrence of `pat` (scanning left to right) by `rep`;
this is the semantics of JavaScript `String.prototype.replace` with a string
pattern (only the first match is replaced). -/
def jsReplaceFirstAux (pat rep : List Char) : List Char → List Char
  | [] => if pat.isEmpty then rep else []
  | c :: rest =>
    if pat.isPrefixOf (c :: rest) then rep ++ (c :: rest).drop pat.length
    else c :: jsReplaceFirstAux pat rep rest

/-- JavaScript `s.replace(pat, rep)` with a string pattern. -/
def jsReplaceFirst (s pat rep : String) : String :=
  ⟨jsReplaceFirstAux pat.data rep.data s.data⟩

/-- Does `pat` occur as a contiguous run inside `s`? -/
def listInfix (pat : List Char) : List Char → Bool
  | [] => pat.isEmpty
  | c :: rest => pat.isPrefixOf (c :: rest) || listInfix pat rest

/-- JavaScript `hay.includes(pat)`. -/
def strContains (hay pat : String) : Bool :=
  listInfix pat.data hay.data

/-- Insertion-order de-duplication with an accumulator of already seen
elements; keeps the first occurrence of each element. -/
def jsUniqueGo (seen : List String) : List String → List String
  | [] => []
  | a :: l => if a ∈ seen then jsUniqueGo seen l else a :: jsUniqueGo (a :: seen) l

/-- `uniqueArray` from the generator: `Array.from(new Set(value))`, which
keeps the first occurrence of each element in insertion order. -/
def uniqueArray (l : List String) : List String :=
  jsUniqueGo [] l

/-! ## JavaScript object maps (JSON objects)

JSON objects are association lists in key-insertion order; parsed JSON
objects have pairwise distinct keys.  Assigning an existing key updates it
in place, assigning a fresh key appends it, `delete` removes the binding. -/

/-- `obj[k]` — the value bound to `k`, if any. -/
def getKey {α : Type} (m : List (String × α)) (k : String) : Option α :=
  (m.find? (fun e => e.1 == k)).map (·.2)

/-- `obj[k] = v` — update in place when the key is present, append otherwise. -/
def setKey {α : Type} : List (String × α) → String → α → List (String × α)
  | [], k, v => [(k, v)]
  | e :: rest, k, v => if e.1 == k then (k, v) :: rest else e :: setKey rest k v

/-- `delete obj[k]` (JSON object keys are unique, so removing every binding of
`k` coincides with removing its sole binding). -/
def delKey {α : Type} (m : List (String × α)) (k : String) : List (String × α) :=
  m.filter (fun e => e.1 != k)

/-! ## Paths and the project tree -/

/-- A repository-relative path, as its list of path fragments. -/
abbrev FsPath := List String

/-- Join path fragments with `path.sep`. -/
def pathToString (p : FsPath) : String :=
  String.intercalate "/" p

/-- `pathSegments[pathSegments.length - 1]` — the path's base name. -/
def lastSegment (p : FsPath) : String :=
  p.getLastD ""

/-- `package.json`, keeping only the fields the generator touches; everything
else is the opaque `rest`, preserved by every update. -/
structure PackageJson where
  version : String
  scripts : Option (List (String × String))
  dependencies : Option (List (String × String))
  rest : String
deriving DecidableEq

/-- A file's content.  Structured constructors model the JSON files the
generator reads or rewrites structurally; all other files are `text`. -/
inductive FileContent where
  /-- Plain text (story sources, generated configs, ignore files …). -/
  | text : String → FileContent
  /-- A parsed `package.json`. -/
  | packageJson : PackageJson → FileContent
  /-- A local `tsconfig.json`: its `compilerOptions.types` array (if any) and
  the canonical serialization of everything else. -/
  | localTsConfig : Option (List String) → String → FileContent
  /-- The root `tsconfig.base.json`: its `compilerOptions.paths` map (if any)
  and the canonical serialization of everything else. -/
  | baseTsConfig : Option (List (String × List String)) → String → FileContent
  /-- The root jest config, reduced to its list of registered projects
  (see `updateJestConfigUtil`). -/
  | rootJestConfig : List String → FileContent
deriving DecidableEq

/-- `buffer.toString('utf-8')` — every file read yields a string; for the
structured kinds this is their (abstracted, non-empty) canonical
serialization. -/
def FileContent.asString : FileContent → String
  | .text s => s
  | .packageJson pj => "package.json " ++ pj.version ++ " " ++ pj.rest
  | .localTsConfig _ rest => "tsconfig.json " ++ rest
  | .baseTsConfig _ rest => "tsconfig.base.json " ++ rest
  | .rootJestConfig _ => "jest.config.js"

/-- The mutable project tree: an association list from path to content. -/
abbrev FsTree := List (FsPath × FileContent)

/-- `tree.read(p)` — the content stored at `p`. -/
def FsTree.readPath (t : FsTree) (p : FsPath) : Option FileContent :=
  (t.find? (fun e => e.1 == p)).map (·.2)

/-- `tree.write(p, c)` — total-file replace; keys stay unique and ordered. -/
def FsTree.writePath : FsTree → FsPath → FileContent → FsTree
  | [], p, c => [(p, c)]
  | e :: rest, p, c => if e.1 == p then (p, c) :: rest else e :: FsTree.writePath rest p c

/-- `tree.delete(p)` — removes the file at `p`, or the whole subtree when `p`
is a directory. -/
def FsTree.deletePath (t : FsTree) (p : FsPath) : FsTree :=
  t.filter (fun e => !(p.isPrefixOf e.1))

/-- `tree.exists(p)` — true when `p` is a file or a non-empty directory. -/
def FsTree.existsPath (t : FsTree) (p : FsPath) : Bool :=
  t.any (fun e => p.isPrefixOf e.1)

/-- The files at or below `dir`, in tree order — the traversal order of
`visitNotIgnoredFiles` (ignore files are not modelled; nothing is ignored). -/
def FsTree.filesUnder (t : FsTree) (dir : FsPath) : FsTree :=
  t.filter (fun e => dir.isPrefixOf e.1)

/-! ## Workspace registry, log, and generator state -/

/-- One project's configuration in the workspace registry. -/
structure ProjectConfig where
  root : FsPath
  sourceRoot : Option FsPath := none
  tags : Option (List String) := none
deriving DecidableEq

/-- The workspace project registry (`getProjects`), in registration order. -/
abbrev Registry := List (String × ProjectConfig)

/-- Severities of `@nrwl/devkit`'s `logger` used by the generator. -/
inductive LogType where
  | log
  | info
  | warn
  | error
deriving DecidableEq

/-- One `userLog` entry: `{ type: keyof typeof logger; message: string }`. -/
structure LogEntry where
  type : LogType
  message : String
deriving DecidableEq

/-- The append-only user log. -/
abbrev UserLog := List LogEntry

/-- The full mutable state a generator invocation runs against: the file
tree, the project registry, the workspace `npmScope`, the (mutated in place,
see module comment) `templates.tsconfig.compilerOptions.types` array, and
the user log. -/
structure MigState where
  tree : FsTree
  registry : Registry
  npmScope : String
  tmplTypes : List String
  log : UserLog
deriving DecidableEq

/-- A thrown error: its message and the tree at the throw site. -/
abbrev Err := String × FsTree

instance {ε σ : Type} [DecidableEq ε] [DecidableEq σ] : DecidableEq (Except ε σ)
  | .ok a, .ok b => if h : a = b then .isTrue (by rw [h]) else .isFalse (by simp [h])
  | .ok _, .error _ => .isFalse (by simp)
  | .error _, .ok _ => .isFalse (by simp)
  | .error a, .error b => if h : a = b then .isTrue (by rw [h]) else .isFalse (by simp [h])

/-! ## Templates (`templates` constant of the generator) -/

/-- `templates.tsconfig.compilerOptions.types`. -/
def tsconfigTemplateTypes : List String :=
  ["jest", "custom-global", "inline-style-expand-shorthand", "storybook__addons"]

/-- The canonical serialization of `templates.tsconfig` minus its `types`
array (extends, include, and the fixed compiler options). -/
def tsconfigTemplateRest : String :=
  "extends ../../tsconfig.base.json; include [src]; target ES2020; module CommonJS; lib [ES2020, dom]; outDir dist; jsx react; declaration; experimentalDecorators; importHelpers; noUnusedLocals; preserveConstEnums"

/-- `templates.jestSetup` after `stripIndents`. -/
def jestSetupTemplate : String :=
  "/** Jest test setup file. */"

/-- `templates.jest(options)` after `stripIndents`: the generated local jest
config text, parameterized exactly by the display name, the conditional
snapshot-serializers entry, and the setup file path. -/
def jestConfigTemplate (pkgName : String) (addSnapshotSerializers : Bool)
    (testSetupFilePath : String) : String :=
  "// @ts-check\n\n/**\n* @type \x7bjest.InitialOptions\x7d\n*/\nmodule.exports = \x7b\ndisplayName: '"
    ++ pkgName
    ++ "',\npreset: '../../jest.preset.js',\nglobals: \x7b\n'ts-jest': \x7b\ntsConfig: '<rootDir>/tsconfig.json',\ndiagnostics: false,\n\x7d,\n\x7d,\ntransform: \x7b\n'^.+\\.tsx?$': 'ts-jest',\n\x7d,\ncoverageDirectory: './coverage',\nsetupFilesAfterEnv: ['"
    ++ testSetupFilePath
    ++ "'],\n"
    ++ (if addSnapshotSerializers then "snapshotSerializers: ['@fluentui/jest-serializer-make-styles'],\n" else "\n")
    ++ "\x7d;"

/-- `templates.storybook.main` after `stripIndents`. -/
def storybookMainTemplate : String :=
  "const rootMain = require('../../../.storybook/main');\n\nmodule.exports = /** @type \x7bPick<import('../../../.storybook/main').StorybookConfig,'addons'|'stories'|'webpackFinal'>\x7d */ (\x7b\nstories: [...rootMain.stories, '../src/**/*.stories.mdx', '../src/**/*.stories.@(ts|tsx)'],\naddons: [...rootMain.addons],\nwebpackFinal: (config, options) => \x7b\nconst localConfig = \x7b ...rootMain.webpackFinal(config, options) \x7d;\n\nreturn localConfig;\n\x7d,\n\x7d);"

/-- `templates.storybook.preview` after `stripIndents`. -/
def storybookPreviewTemplate : String :=
  "import * as rootPreview from '../../../.storybook/preview';\n\n/** @type \x7btypeof rootPreview.decorators\x7d */\nexport const decorators = [...rootPreview.decorators];\n\n/** @type \x7btypeof rootPreview.parameters\x7d */\nexport const parameters = \x7b ...rootPreview.parameters \x7d;"

/-- The canonical serialization of `templates.storybook.tsconfig`. -/
def storybookTsconfigTemplate : String :=
  "extends ../tsconfig.json; allowJs; checkJs; exclude [../**/*.test.ts, ../**/*.test.js, ../**/*.test.tsx, ../**/*.test.jsx]; include [../src/**/*, *.js]"

/-- The canonical serialization of `templates.apiExtractorLocal`. -/
def apiExtractorLocalTemplate : String :=
  "$schema https://developer.microsoft.com/json-schemas/api-extractor/v7/api-extractor.schema.json; extends ./api-extractor.json; mainEntryPointFilePath <projectFolder>/dist/<unscopedPackageName>/src/index.d.ts"

/-- The canonical serialization of `templates.apiExtractor`. -/
def apiExtractorTemplate : String :=
  "$schema https://developer.microsoft.com/json-schemas/api-extractor/v7/api-extractor.schema.json; extends @fluentui/scripts/api-extractor/api-extractor.common.json"

/-- `templates.npmIgnoreConfig` after `stripIndents`. -/
def npmIgnoreTemplate : String :=
  ".cache/\n.storybook/\n.vscode/\nbundle-size/\nconfig/\ncoverage/\ne2e/\netc/\nnode_modules/\nsrc/\ntemp/\n__fixtures__\n__mocks__\n__tests__\n\n*.api.json\n*.log\n*.spec.*\n*.stories.*\n*.test.*\n*.yml\n\n# config files\n*config.*\n*rc.*\n.editorconfig\n.eslint*\n.git*\n.prettierignore"

/-- The fixed `docs` script command written by `updateNpmScripts`. -/
def docsScriptCmd : String :=
  "api-extractor run --config=config/api-extractor.local.json --local"

/-- The fixed `build:local` script command (embeds the normalized package
name). -/
def buildLocalScriptCmd (normalizedPkgName : String) : String :=
  "tsc -p . --module esnext --emitDeclarationOnly && node ../../scripts/typescript/normalize-import --output dist/"
    ++ normalizedPkgName ++ "/src && yarn docs"

/-- The appended default-export block of `moveStorybookFromReactExamples`
(after `stripIndents`), naming the component. -/
def storyExportBlock (componentName : String) : String :=
  "export default \x7b\ntitle: 'Components/" ++ componentName ++ "',\ncomponent: " ++ componentName ++ ",\n\x7d"

/-- `fileName.replace(/\.stories\.tsx?$/, '')` — strip a trailing
`.stories.tsx` or `.stories.ts`; other file names are left unchanged. -/
def stripStoriesExt (fileName : String) : String :=
  if jsEndsWith fileName ".stories.tsx" then fileName.dropRight 12
  else if jsEndsWith fileName ".stories.ts" then fileName.dropRight 11
  else fileName

/-- The full content written for one relocated story file: the original
content with the first occurrence of the package name replaced by `./index`,
then the appended default-export block. -/
def storyTransformed (contents pkgName componentName : String) : String :=
  jsReplaceFirst contents pkgName "./index" ++ "\n\n" ++ storyExportBlock componentName

/-! ## Schema and validation -/

/-- `MigrateConvergedPkgGeneratorSchema`: the operation request.  `name` is
absent or a string (the empty string is falsy in JavaScript); `all` and
`stats` are booleans. -/
structure MigrateSchema where
  name : Option String := none
  all : Bool := false
  stats : Bool := false
deriving DecidableEq

/-- Truthiness of `schema.name` (absent and the empty string are falsy). -/
def nameTruthy (sch : MigrateSchema) : Bool :=
  sch.name.getD "" != ""

/-- Modelled from the spec: `arePromptsEnabled` and `prompt` come from the
shared tools utilities, whose source is not under `src/`.  Per spec §4.1 the
interactive prompt is an externally injected capability, invoked at most once
and answered synchronously; we model the capability flag and the operator's
answer as an environment value. -/
structure PromptEnv where
  promptsEnabled : Bool
  promptAnswer : String
deriving DecidableEq

/-- The three explicit pairwise mutual-exclusivity checks that open
`validateSchema`, in source order; returns the thrown message, if any. -/
def checkConflictingModes (sch : MigrateSchema) : Option String :=
  if nameTruthy sch && sch.stats then some "--name and --stats are mutually exclusive"
  else if nameTruthy sch && sch.all then some "--name and --all are mutually exclusive"
  else if sch.stats && sch.all then some "--stats and --all are mutually exclusive"
  else none

/-- `shouldValidateNameInput()`. -/
def shouldValidateNameInput (sch : MigrateSchema) : Bool :=
  !(nameTruthy sch) && !(sch.all || sch.stats)

/-- The schema after the optional dynamic prompt (`triggerDynamicPrompts`
merges the prompt response into the schema). -/
def resolvedSchema (env : PromptEnv) (sch : MigrateSchema) : MigrateSchema :=
  if env.promptsEnabled && shouldValidateNameInput sch then
    { sch with name := some env.promptAnswer }
  else sch

/-- `readProjectConfiguration` — resolves a project name in the registry or
throws. -/
def readProjectConfiguration (s : MigState) (name : String) : Except Err ProjectConfig :=
  match getKey s.registry name with
  | some cfg => .ok cfg
  | none => .error ("Cannot find configuration for '" ++ name ++ "'", s.tree)

/-- `readJson` of a project's `package.json`. -/
def readPackageJson (t : FsTree) (p : FsPath) : Option PackageJson :=
  match FsTree.readPath t p with
  | some (.packageJson pj) => some pj
  | _ => none

/-- `isPackageConverged`: reads the project's manifest (throwing when it is
absent) and tests whether its version starts with the literal `"9."`. -/
def isPackageConverged (t : FsTree) (project : ProjectConfig) : Except Err Bool :=
  match readPackageJson t (project.root ++ ["package.json"]) with
  | some pj => .ok (jsStartsWith pj.version "9.")
  | none => .error ("Cannot read " ++ pathToString (project.root ++ ["package.json"]), t)

/-- `isProjectMigrated`: `sourceRoot` is set and the tags contain the
sentinel `vNext`. -/
def isProjectMigrated (project : ProjectConfig) : Bool :=
  project.sourceRoot.isSome && (project.tags.getD []).contains "vNext"

/-- `validateSchema`: the conflicting-mode checks, the optional prompt, the
missing-name check, and the converged-package check, in source order. -/
def validateSchema (env : PromptEnv) (s : MigState) (sch : MigrateSchema) :
    Except Err MigrateSchema :=
  match checkConflictingModes sch with
  | some msg => .error (msg, s.tree)
  | none =>
    let ns := resolvedSchema env sch
    if shouldValidateNameInput ns then
      .error ("--name cannot be empty. Please provide name of the package.", s.tree)
    else if nameTruthy ns then
      match readProjectConfiguration s (ns.name.getD "") with
      | .error e => .error e
      | .ok cfg =>
        match isPackageConverged s.tree cfg with
        | .error e => .error e
        | .ok true => .ok ns
        | .ok false =>
          .error (ns.name.getD ""
            ++ " is not converged package. Make sure to run the migration on packages with version 9.x.x", s.tree)
    else .ok ns

/-! ## Stats mode -/

/-- The loop body of `printStats`: partition the registry's converged
projects into migrated / not migrated, in registration order; a missing
manifest throws at its visit. -/
def printStatsGo (t : FsTree) :
    Registry → Except Err (List (String × ProjectConfig) × List (String × ProjectConfig))
  | [] => .ok ([], [])
  | (projectName, project) :: rest =>
    match isPackageConverged t project with
    | .error e => .error e
    | .ok false => printStatsGo t rest
    | .ok true =>
      match printStatsGo t rest with
      | .error e => .error e
      | .ok (migrated, notMigrated) =>
        if isProjectMigrated project then .ok ((projectName, project) :: migrated, notMigrated)
        else .ok (migrated, (projectName, project) :: notMigrated)

/-- `printStats`: read-only reporting; returns the state unchanged together
with the migrated / not-migrated partition (the emitted `logger` lines go to
the console, not to the tree or user log). -/
def printStats (s : MigState) :
    Except Err (MigState × (List (String × ProjectConfig) × List (String × ProjectConfig))) :=
  match printStatsGo s.tree s.registry with
  | .error e => .error e
  | .ok stats => .ok (s, stats)

/-! ## Normalized options -/

/-- `normalizeOptions`' result: the resolved project configuration, the
package name without the npm scope, and the precomputed paths record. -/
structure NormalizedSchema where
  name : String
  projectConfig : ProjectConfig
  normalizedPkgName : String
  configRoot : FsPath
  packageJsonPath : FsPath
  tsconfigPath : FsPath
  jestConfigPath : FsPath
  npmConfigPath : FsPath
  rootTsconfigPath : FsPath
  rootJestConfigPath : FsPath
  storybookTsconfigPath : FsPath
  storybookMainPath : FsPath
  storybookPreviewPath : FsPath
deriving DecidableEq

/-- The normalized options record built from the workspace scope, the
requested name and the resolved project configuration. -/
def mkNormalizedOptions (npmScope name : String) (cfg : ProjectConfig) : NormalizedSchema :=
  { name := name
    projectConfig := cfg
    normalizedPkgName := jsReplaceFirst name ("@" ++ npmScope ++ "/") ""
    configRoot := cfg.root ++ ["config"]
    packageJsonPath := cfg.root ++ ["package.json"]
    tsconfigPath := cfg.root ++ ["tsconfig.json"]
    jestConfigPath := cfg.root ++ ["jest.config.js"]
    npmConfigPath := cfg.root ++ [".npmignore"]
    rootTsconfigPath := ["tsconfig.base.json"]
    rootJestConfigPath := ["jest.config.js"]
    storybookTsconfigPath := cfg.root ++ [".storybook", "tsconfig.json"]
    storybookMainPath := cfg.root ++ [".storybook", "main.js"]
    storybookPreviewPath := cfg.root ++ [".storybook", "preview.js"] }

/-- `normalizeOptions`: resolve the project configuration (throwing when the
project is unknown) and precompute the paths record.  `normalizedPkgName`
strips the `@<npmScope>/` prefix via JavaScript `String.replace`. -/
def normalizeOptions (s : MigState) (name : String) : Except Err NormalizedSchema :=
  match readProjectConfiguration s name with
  | .error e => .error e
  | .ok cfg => .ok (mkNormalizedOptions s.npmScope name cfg)

/-! ## Transform steps -/

/-- Step `updatedLocalTsConfig`: merge the tsconfig template into the local
`tsconfig.json` — the `types` arrays are concatenated template-first and
de-duplicated; every other field is replaced by the template.  The merged
`types` array is also stored back into the (shared, mutated in place)
template. -/
def updatedLocalTsConfig (s : MigState) (o : NormalizedSchema) : Except Err MigState :=
  match FsTree.readPath s.tree o.tsconfigPath with
  | some (.localTsConfig oldTypes _) =>
    let updatedTypes := uniqueArray (s.tmplTypes ++ oldTypes.getD [])
    .ok { s with
          tree := FsTree.writePath s.tree o.tsconfigPath
            (.localTsConfig (some updatedTypes) tsconfigTemplateRest)
          tmplTypes := updatedTypes }
  | _ => .error ("Cannot read " ++ pathToString o.tsconfigPath, s.tree)

/-- The path-alias value for a dependency: the registered project's root (or
the JavaScript string `"undefined"` when the dependency is not a registered
project) joined with `src/index.ts`. -/
def aliasEntry (reg : Registry) (pkgName : String) : List String :=
  [(match getKey reg pkgName with
    | some c => pathToString c.root
    | none => "undefined") ++ "/src/index.ts"]

/-- `Object.keys(projectPkgJson.dependencies ?? {}).filter(pkgName =>
pkgName.startsWith(`@<npmScope>`))` — the dependencies registered as
aliases. -/
def scopedDependencies (npmScope : String) (pj : PackageJson) : List String :=
  ((pj.dependencies.getD []).map (·.1)).filter (fun d => jsStartsWith d ("@" ++ npmScope))

/-- The new `compilerOptions.paths` map: the project's own entry, then
`Object.assign` of the alias entry of every scoped dependency. -/
def updatedPathsMap (s : MigState) (o : NormalizedSchema) (pj : PackageJson)
    (paths : List (String × List String)) : List (String × List String) :=
  (scopedDependencies s.npmScope pj).foldl
    (fun m d => setKey m d (aliasEntry s.registry d))
    (setKey paths o.name [pathToString o.projectConfig.root ++ "/src/index.ts"])

/-- Step `updatedBaseTsConfig`: register the project and every dependency
whose name starts with `@<npmScope>` as compiler path aliases in the shared
root `tsconfig.base.json`. -/
def updatedBaseTsConfig (s : MigState) (o : NormalizedSchema) : Except Err MigState :=
  match readPackageJson s.tree o.packageJsonPath with
  | none => .error ("Cannot read " ++ pathToString o.packageJsonPath, s.tree)
  | some pj =>
    match FsTree.readPath s.tree o.rootTsconfigPath with
    | some (.baseTsConfig pathsOpt rest) =>
      let t := FsTree.writePath s.tree o.rootTsconfigPath
        (.baseTsConfig (some (updatedPathsMap s o pj (pathsOpt.getD []))) rest)
      .ok { s with tree := t }
    | _ => .error ("Cannot read " ++ pathToString o.rootTsconfigPath, s.tree)

/-- The tree produced by `updateLocalJestConfig`: write the generated local
jest config, then create the setup file only when absent. -/
def localJestTree (s : MigState) (o : NormalizedSchema) (pj : PackageJson) : FsTree :=
  let addSnapshotSerializers := ((pj.dependencies.getD []).map (·.1)).any
    (fun d => d == "@" ++ s.npmScope ++ "/react-make-styles")
  let jestSetupFilePath := o.configRoot ++ ["tests.js"]
  let t1 := FsTree.writePath s.tree o.jestConfigPath
    (.text (jestConfigTemplate o.normalizedPkgName addSnapshotSerializers
      ("./" ++ lastSegment o.configRoot ++ "/tests.js")))
  if FsTree.existsPath t1 jestSetupFilePath then t1
  else FsTree.writePath t1 jestSetupFilePath (.text jestSetupTemplate)

/-- Step `updateLocalJestConfig`: regenerate `jest.config.js` from the jest
template (snapshot serializers are added when a declared dependency is in the
fixed allow-list), and create the jest setup file only when absent. -/
def updateLocalJestConfig (s : MigState) (o : NormalizedSchema) : Except Err MigState :=
  match readPackageJson s.tree o.packageJsonPath with
  | none => .error ("Cannot read " ++ pathToString o.packageJsonPath, s.tree)
  | some pj => .ok { s with tree := localJestTree s o pj }

/-- Modelled from the spec: `updateJestConfig` is imported from the shared
tools utilities, whose source is not under `src/`.  Per spec §4.3 the
test-runner config rewrite also registers the project in the root test-runner
configuration and must be idempotent; we model it as a deduplicated insertion
of the project name into the root jest config's project list. -/
def updateJestConfigUtil (t : FsTree) (projectName : String) : Except Err FsTree :=
  match FsTree.readPath t ["jest.config.js"] with
  | some (.rootJestConfig projects) =>
    .ok (FsTree.writePath t ["jest.config.js"]
      (.rootJestConfig (if projects.contains projectName then projects
                        else projects ++ [projectName])))
  | _ => .error ("Cannot read jest.config.js", t)

/-- Step `updateRootJestConfig`: delegate to the shared `updateJestConfig`
utility for this project. -/
def updateRootJestConfig (s : MigState) (o : NormalizedSchema) : Except Err MigState :=
  match updateJestConfigUtil s.tree o.name with
  | .error e => .error e
  | .ok t => .ok { s with tree := t }

/-- Step `setupStorybook`: write the three fixed storybook bootstrap files. -/
def setupStorybook (s : MigState) (o : NormalizedSchema) : Except Err MigState :=
  let t :=
    FsTree.writePath
      (FsTree.writePath
        (FsTree.writePath s.tree o.storybookTsconfigPath (.text storybookTsconfigTemplate))
        o.storybookMainPath (.text storybookMainTemplate))
      o.storybookPreviewPath (.text storybookPreviewTemplate)
  .ok { s with tree := t }

/-- `getReactExamplesProjectConfig`: the `@<npmScope>/react-examples`
project's configuration, if registered. -/
def getReactExamplesProjectConfig (s : MigState) : Option ProjectConfig :=
  getKey s.registry ("@" ++ s.npmScope ++ "/react-examples")

/-- The examples project's per-package stories subdirectory
`<examples-root>/src/<normalizedPkgName>`. -/
def storiesSubdir (examplesRoot : FsPath) (normalizedPkgName : String) : FsPath :=
  examplesRoot ++ ["src", normalizedPkgName]

/-- The loop body of `moveStorybookFromReactExamples`: for each collected
story path, read it from the current tree (throwing when the content is
absent or empty, both falsy), replace the first occurrence of the package
name by `./index`, append the default-export block naming the component, and
write the result into the destination project's `src` directory under the
file's base name. -/
def moveStoriesGo (o : NormalizedSchema) : MigState → List FsPath → Except Err MigState
  | s, [] => .ok s
  | s, originPath :: rest =>
    let fileName := lastSegment originPath
    let componentName := stripStoriesExt fileName
    match FsTree.readPath s.tree originPath with
    | none => .error ("Error moving " ++ fileName ++ " from react-examples", s.tree)
    | some c =>
      let contents := c.asString
      if contents = "" then
        .error ("Error moving " ++ fileName ++ " from react-examples", s.tree)
      else
        let t := FsTree.writePath s.tree (o.projectConfig.root ++ ["src", fileName])
          (.text (storyTransformed contents o.name componentName))
        moveStoriesGo o { s with tree := t } rest

/-- The warning logged when no package stories are found. -/
def noStoriesMessage : String :=
  "No package stories found within react-examples. Skipping storybook stories migration..."

/-- The story paths collected by `visitNotIgnoredFiles`: every file at or
below `subdir` whose path contains `.stories.`, in tree order. -/
def storyPathsOf (s : MigState) (subdir : FsPath) : List FsPath :=
  ((FsTree.filesUnder s.tree subdir).map (·.1)).filter
    (fun p => strContains (pathToString p) ".stories.")

/-- Step `moveStorybookFromReactExamples`: collect every file under the
examples project's package subdirectory whose path contains `.stories.`;
when none are found, log a warning and skip; otherwise relocate each one. -/
def moveStorybookFromReactExamples (s : MigState) (o : NormalizedSchema) :
    Except Err MigState :=
  match getReactExamplesProjectConfig s with
  | none => .error ("Cannot find configuration for '@" ++ s.npmScope ++ "/react-examples'", s.tree)
  | some reactExamplesConfig =>
    let storyPaths := storyPathsOf s (storiesSubdir reactExamplesConfig.root o.normalizedPkgName)
    if storyPaths.length = 0 then
      .ok { s with log := s.log ++ [⟨.warn, noStoriesMessage⟩] }
    else
      moveStoriesGo o s storyPaths

/-- Step `removeMigratedPackageFromReactExamples`: when the examples
project's package subdirectory exists, delete it, log two warnings, and drop
this package from the examples project's manifest dependencies. -/
def removeMigratedPackageFromReactExamples (s : MigState) (o : NormalizedSchema) :
    Except Err MigState :=
  match getReactExamplesProjectConfig s with
  | none => .error ("Cannot find configuration for '@" ++ s.npmScope ++ "/react-examples'", s.tree)
  | some reactExamplesConfig =>
    let subdir := storiesSubdir reactExamplesConfig.root o.normalizedPkgName
    if FsTree.existsPath s.tree subdir then
      let t := FsTree.deletePath s.tree subdir
      let log := s.log ++
        [⟨.warn, "NOTE: Deleting " ++ pathToString reactExamplesConfig.root ++ "/src/"
            ++ o.normalizedPkgName⟩,
         ⟨.warn, "      - Please update your moved stories to follow standard storybook format\n"⟩]
      match readPackageJson t (reactExamplesConfig.root ++ ["package.json"]) with
      | none =>
        .error ("Cannot read " ++ pathToString (reactExamplesConfig.root ++ ["package.json"]), t)
      | some pj =>
        let t2 := FsTree.writePath t (reactExamplesConfig.root ++ ["package.json"])
          (.packageJson { pj with
            dependencies := pj.dependencies.map (fun deps => delKey deps o.name) })
        .ok { s with tree := t2, log := log }
    else
      .ok s

/-- The script-map rewrite of `updateNpmScripts`, in source order: the three
`delete` statements, then the five fixed assignments. -/
def rewrittenScripts (normalizedPkgName : String) (scripts : List (String × String)) :
    List (String × String) :=
  let scripts := delKey (delKey (delKey scripts "update-snapshots") "start-test") "test:watch"
  let scripts := setKey scripts "docs" docsScriptCmd
  let scripts := setKey scripts "build:local" (buildLocalScriptCmd normalizedPkgName)
  let scripts := setKey scripts "storybook" "start-storybook"
  let scripts := setKey scripts "start" "yarn storybook"
  setKey scripts "test" "jest"

/-- Step `updateNpmScripts`: delete the three legacy script entries and
overwrite the five fixed ones (a manifest without a `scripts` map makes the
JavaScript `delete` expressions throw a `TypeError`). -/
def updateNpmScripts (s : MigState) (o : NormalizedSchema) : Except Err MigState :=
  match readPackageJson s.tree o.packageJsonPath with
  | none => .error ("Cannot read " ++ pathToString o.packageJsonPath, s.tree)
  | some pj =>
    match pj.scripts with
    | none => .error ("TypeError: cannot delete properties of undefined", s.tree)
    | some scripts =>
      let t := FsTree.writePath s.tree o.packageJsonPath
        (.packageJson { pj with scripts := some (rewrittenScripts o.normalizedPkgName scripts) })
      .ok { s with tree := t }

/-- Step `updateApiExtractorForLocalBuilds`: write the two fixed
api-extractor JSON configs into the config subdirectory. -/
def updateApiExtractorForLocalBuilds (s : MigState) (o : NormalizedSchema) :
    Except Err MigState :=
  let t :=
    FsTree.writePath
      (FsTree.writePath s.tree (o.configRoot ++ ["api-extractor.local.json"])
        (.text apiExtractorLocalTemplate))
      (o.configRoot ++ ["api-extractor.json"]) (.text apiExtractorTemplate)
  .ok { s with tree := t }

/-- Step `setupNpmConfig`: write the fixed `.npmignore`. -/
def setupNpmConfig (s : MigState) (o : NormalizedSchema) : Except Err MigState :=
  .ok { s with tree := FsTree.writePath s.tree o.npmConfigPath (.text npmIgnoreTemplate) }

/-- Step `updateNxWorkspace`: set `sourceRoot` to `<root>/src` and add the
`vNext` sentinel and platform tags to the project's record, deduplicated. -/
def updateNxWorkspace (s : MigState) (o : NormalizedSchema) : Except Err MigState :=
  let updatedConfig : ProjectConfig :=
    { o.projectConfig with
      sourceRoot := some (o.projectConfig.root ++ ["src"])
      tags := some (uniqueArray ((o.projectConfig.tags.getD []) ++ ["vNext", "platform:web"])) }
  .ok { s with registry := setKey s.registry o.name updatedConfig }

/-! ## Orchestration -/

/-- `runMigrationOnProject`: the fixed transform-step sequence for one
project, in source order. -/
def runMigrationOnProject (s : MigState) (name : String) : Except Err MigState := do
  let o ← normalizeOptions s name
  let s ← updatedLocalTsConfig s o
  let s ← updatedBaseTsConfig s o
  let s ← updateLocalJestConfig s o
  let s ← updateRootJestConfig s o
  let s ← setupStorybook s o
  let s ← moveStorybookFromReactExamples s o
  let s ← removeMigratedPackageFromReactExamples s o
  let s ← updateNpmScripts s o
  let s ← updateApiExtractorForLocalBuilds s o
  let s ← setupNpmConfig s o
  updateNxWorkspace s o

/-- The warning-free skip message `runBatchMigration` logs for an ineligible
project. -/
def skipMessage (projectName : String) : String :=
  projectName ++ " is not converged package. Skipping migration..."

/-- The loop body of `runBatchMigration` over the registry snapshot: an
ineligible project appends one `error`-severity log entry and is skipped; an
eligible project runs the full migration; a hard failure aborts the batch. -/
def runBatchMigrationGo : MigState → List (String × ProjectConfig) → Except Err MigState
  | s, [] => .ok s
  | s, (projectName, project) :: rest =>
    match isPackageConverged s.tree project with
    | .error e => .error e
    | .ok false =>
      runBatchMigrationGo
        { s with log := s.log ++ [⟨.error, skipMessage projectName⟩] } rest
    | .ok true =>
      match runMigrationOnProject s projectName with
      | .error e => .error e
      | .ok s' => runBatchMigrationGo s' rest

/-- `runBatchMigration`: iterate the registry snapshot in registration
order. -/
def runBatchMigration (s : MigState) : Except Err MigState :=
  runBatchMigrationGo s s.registry

/-- The generator's default export: validate, then dispatch on the (at most
one) selected mode.  `formatFiles` only normalizes formatting and is modelled
as the identity on the abstract tree; the returned log-flushing callback has
no tree effect. -/
def generatorDefault (env : PromptEnv) (s : MigState) (sch : MigrateSchema) :
    Except Err MigState :=
  match validateSchema env s sch with
  | .error e => .error e
  | .ok validated =>
    if validated.stats then
      match printStats s with
      | .error e => .error e
      | .ok (s', _) => .ok s'
    else
      match (if validated.all then runBatchMigration s else .ok s) with
      | .error e => .error e
      | .ok s1 =>
        match (if nameTruthy validated then runMigrationOnProject s1 (validated.name.getD "")
               else .ok s1) with
        | .error e => .error e
        | .ok s2 => .ok s2

/-! ## Lemmas: JavaScript object maps -/

theorem getKey_cons {α : Type} (e : String × α) (rest : List (String × α)) (k : String) :
    getKey (e :: rest) k = if e.1 = k then some e.2 else getKey rest k := by
  by_cases h : e.1 = k
  · simp [getKey, List.find?_cons_of_pos, h]
  · simp [getKey, List.find?_cons_of_neg, h]

theorem getKey_setKey_self {α : Type} (m : List (String × α)) (k : String) (v : α) :
    getKey (setKey m k v) k = some v := by
  induction m with
  | nil => simp [getKey, setKey, List.find?]
  | cons e rest ih =>
    by_cases h : e.1 = k
    · simp [setKey, h, getKey_cons]
    · simp [setKey, h, getKey_cons, ih]

theorem getKey_setKey_ne {α : Type} (m : List (String × α)) (k k' : String) (v : α)
    (h : k' ≠ k) : getKey (setKey m k v) k' = getKey m k' := by
  induction m with
  | nil =>
    have hb : (k == k') = false := by simpa using Ne.symm h
    simp [getKey, setKey, List.find?, hb]
  | cons e rest ih =>
    by_cases he : e.1 = k
    · have hne : e.1 ≠ k' := by rw [he]; exact Ne.symm h
      simp [setKey, he, getKey_cons, Ne.symm h, hne]
    · simp [setKey, he, getKey_cons, ih]

theorem setKey_eq_self {α : Type} {m : List (String × α)} {k : String} {v : α}
    (h : getKey m k = some v) : setKey m k v = m := by
  induction m with
  | nil => simp [getKey, List.find?] at h
  | cons e rest ih =>
    by_cases he : e.1 = k
    · rw [getKey_cons, if_pos he] at h
      cases e
      simp only [Option.some.injEq] at h
      simp_all [setKey]
    · rw [getKey_cons, if_neg he] at h
      simp [setKey, he, ih h]

theorem getKey_delKey_self {α : Type} (m : List (String × α)) (k : String) :
    getKey (delKey m k) k = none := by
  induction m with
  | nil => simp [getKey, delKey, List.find?]
  | cons e rest ih =>
    by_cases he : e.1 = k
    · simpa [delKey, he] using ih
    · simpa [delKey, he, getKey_cons] using ih

theorem getKey_delKey_ne {α : Type} (m : List (String × α)) (k k' : String)
    (h : k' ≠ k) : getKey (delKey m k) k' = getKey m k' := by
  induction m with
  | nil => simp [delKey]
  | cons e rest ih =>
    by_cases he : e.1 = k
    · have hne : e.1 ≠ k' := by rw [he]; exact Ne.symm h
      have h1 : delKey (e :: rest) k = delKey rest k := by simp [delKey, he]
      rw [h1, ih, getKey_cons, if_neg hne]
    · have h1 : delKey (e :: rest) k = e :: delKey rest k := by simp [delKey, he]
      rw [h1, getKey_cons, getKey_cons, ih]

theorem getKey_eq_none_iff {α : Type} (m : List (String × α)) (k : String) :
    getKey m k = none ↔ ∀ e ∈ m, e.1 ≠ k := by
  induction m with
  | nil => simp [getKey, List.find?]
  | cons e rest ih =>
    by_cases he : e.1 = k
    · simp [getKey_cons, he]
    · simp [getKey_cons, he, ih]

theorem delKey_eq_self {α : Type} {m : List (String × α)} {k : String}
    (h : getKey m k = none) : delKey m k = m := by
  rw [getKey_eq_none_iff] at h
  simpa [delKey, List.filter_eq_self] using h

theorem getKey_foldl_setKey {α : Type} (f : String → α) (ds : List String)
    (m : List (String × α)) (k : String) :
    getKey (ds.foldl (fun m d => setKey m d (f d)) m) k
      = if k ∈ ds then some (f k) else getKey m k := by
  induction ds generalizing m with
  | nil => simp
  | cons d ds ih =>
    simp only [List.foldl_cons, ih, List.mem_cons]
    by_cases hds : k ∈ ds
    · simp [hds]
    · by_cases hk : k = d
      · simp [hk, hds, getKey_setKey_self]
      · simp [hk, hds, getKey_setKey_ne _ _ _ _ hk]

theorem foldl_setKey_eq_self {α : Type} {f : String → α} {ds : List String}
    {m : List (String × α)} (h : ∀ d ∈ ds, getKey m d = some (f d)) :
    ds.foldl (fun m d => setKey m d (f d)) m = m := by
  induction ds with
  | nil => rfl
  | cons d ds ih =>
    have h1 : setKey m d (f d) = m := setKey_eq_self (h d (by simp))
    simp only [List.foldl_cons, h1]
    exact ih fun d' hd' => h d' (by simp [hd'])

/-! ## Lemmas: the project tree -/

instance : Inhabited FileContent := ⟨.text ""⟩

theorem isPrefixOf_eq_false_iff (l₁ l₂ : List String) :
    l₁.isPrefixOf l₂ = false ↔ ¬ l₁ <+: l₂ := by
  rw [← List.isPrefixOf_iff_prefix]
  cases h : l₁.isPrefixOf l₂ <;> simp

theorem readPath_cons (e : FsPath × FileContent) (rest : FsTree) (p : FsPath) :
    FsTree.readPath (e :: rest) p = if e.1 = p then some e.2 else FsTree.readPath rest p := by
  by_cases h : e.1 = p
  · simp [FsTree.readPath, List.find?_cons_of_pos, h]
  · simp [FsTree.readPath, List.find?_cons_of_neg, h]

theorem readPath_writePath_self (t : FsTree) (p : FsPath) (c : FileContent) :
    FsTree.readPath (FsTree.writePath t p c) p = some c := by
  induction t with
  | nil => simp [FsTree.readPath, FsTree.writePath, List.find?]
  | cons e rest ih =>
    by_cases h : e.1 = p
    · simp [FsTree.writePath, h, readPath_cons]
    · simp [FsTree.writePath, h, readPath_cons, ih]

theorem readPath_writePath_ne (t : FsTree) (p q : FsPath) (c : FileContent)
    (h : q ≠ p) : FsTree.readPath (FsTree.writePath t p c) q = FsTree.readPath t q := by
  induction t with
  | nil =>
    have hb : (p == q) = false := by simpa using Ne.symm h
    simp [FsTree.readPath, FsTree.writePath, List.find?, hb]
  | cons e rest ih =>
    by_cases he : e.1 = p
    · have hne : e.1 ≠ q := by rw [he]; exact Ne.symm h
      simp [FsTree.writePath, he, readPath_cons, Ne.symm h, hne]
    · simp [FsTree.writePath, he, readPath_cons, ih]

theorem writePath_eq_self {t : FsTree} {p : FsPath} {c : FileContent}
    (h : FsTree.readPath t p = some c) : FsTree.writePath t p c = t := by
  induction t with
  | nil => simp [FsTree.readPath, List.find?] at h
  | cons e rest ih =>
    by_cases he : e.1 = p
    · rw [readPath_cons, if_pos he] at h
      cases e
      simp only [Option.some.injEq] at h
      simp_all [FsTree.writePath]
    · rw [readPath_cons, if_neg he] at h
      simp [FsTree.writePath, he, ih h]

theorem mem_writePath {t : FsTree} {p : FsPath} {c : FileContent}
    {e : FsPath × FileContent} (h : e ∈ FsTree.writePath t p c) :
    e = (p, c) ∨ e ∈ t := by
  induction t with
  | nil => simpa [FsTree.writePath] using h
  | cons e' rest ih =>
    by_cases he : e'.1 = p
    · rw [FsTree.writePath, if_pos (by simpa using he)] at h
      rcases List.mem_cons.mp h with h | h
      · exact .inl h
      · exact .inr (List.mem_cons_of_mem _ h)
    · rw [FsTree.writePath, if_neg (by simpa using he)] at h
      rcases List.mem_cons.mp h with h | h
      · exact .inr (h ▸ List.mem_cons_self _ _)
      · rcases ih h with h | h
        · exact .inl h
        · exact .inr (List.mem_cons_of_mem _ h)

theorem mem_deletePath {t : FsTree} {p : FsPath} {e : FsPath × FileContent} :
    e ∈ FsTree.deletePath t p ↔ e ∈ t ∧ ¬ p <+: e.1 := by
  simp [FsTree.deletePath, List.mem_filter, isPrefixOf_eq_false_iff]

theorem readPath_deletePath (t : FsTree) (p q : FsPath) :
    FsTree.readPath (FsTree.deletePath t p) q
      = if p <+: q then none else FsTree.readPath t q := by
  induction t with
  | nil => simp [FsTree.readPath, FsTree.deletePath, List.find?]
  | cons e rest ih =>
    by_cases hpe : p <+: e.1
    · have h1 : FsTree.deletePath (e :: rest) p = FsTree.deletePath rest p := by
        simp [FsTree.deletePath, List.isPrefixOf_iff_prefix, hpe]
      rw [h1, ih]
      by_cases hpq : p <+: q
      · simp [hpq]
      · have hne : e.1 ≠ q := fun h => hpq (h ▸ hpe)
        simp [hpq, readPath_cons, hne]
    · have hb : (!List.isPrefixOf p e.1) = true := by
        rw [Bool.not_eq_true', isPrefixOf_eq_false_iff]
        exact hpe
      have h1 : FsTree.deletePath (e :: rest) p = e :: FsTree.deletePath rest p := by
        simp [FsTree.deletePath, List.filter_cons, hb]
      rw [h1, readPath_cons, ih, readPath_cons]
      by_cases heq : e.1 = q
      · have hpq : ¬ p <+: q := fun h => hpe (heq ▸ h)
        simp [heq, hpq]
      · simp [heq]

theorem existsPath_iff (t : FsTree) (p : FsPath) :
    FsTree.existsPath t p = true ↔ ∃ e ∈ t, p <+: e.1 := by
  simp [FsTree.existsPath, List.any_eq_true, List.isPrefixOf_iff_prefix]

theorem existsPath_eq_false_iff (t : FsTree) (p : FsPath) :
    FsTree.existsPath t p = false ↔ ∀ e ∈ t, ¬ p <+: e.1 := by
  simp [FsTree.existsPath, List.any_eq_false, List.isPrefixOf_iff_prefix]

theorem filesUnder_eq_nil_iff (t : FsTree) (p : FsPath) :
    FsTree.filesUnder t p = [] ↔ ∀ e ∈ t, ¬ p <+: e.1 := by
  simp [FsTree.filesUnder, List.filter_eq_nil_iff, List.isPrefixOf_iff_prefix]

theorem mem_filesUnder {t : FsTree} {p : FsPath} {e : FsPath × FileContent} :
    e ∈ FsTree.filesUnder t p ↔ e ∈ t ∧ p <+: e.1 := by
  simp [FsTree.filesUnder, List.mem_filter, List.isPrefixOf_iff_prefix]

theorem readPath_isSome_of_mem {t : FsTree} {e : FsPath × FileContent}
    (h : e ∈ t) : (FsTree.readPath t e.1).isSome := by
  induction t with
  | nil => simp at h
  | cons e' rest ih =>
    rcases List.mem_cons.mp h with h | h
    · simp [readPath_cons, h]
    · rw [readPath_cons]
      by_cases he : e'.1 = e.1
      · simp [he]
      · simp only [he, if_false]
        exact ih h

theorem readPath_eq_some_of_mem_nodup {t : FsTree} {e : FsPath × FileContent}
    (hn : (t.map (·.1)).Nodup) (h : e ∈ t) : FsTree.readPath t e.1 = some e.2 := by
  induction t with
  | nil => simp at h
  | cons e' rest ih =>
    rw [List.map_cons, List.nodup_cons] at hn
    rcases List.mem_cons.mp h with h | h
    · subst h
      simp [readPath_cons]
    · have hne : e'.1 ≠ e.1 := by
        intro hcontra
        exact hn.1 (hcontra ▸ List.mem_map_of_mem (·.1) h)
      rw [readPath_cons, if_neg hne]
      exact ih hn.2 h

/-! ## Lemmas: `uniqueArray` -/

theorem mem_jsUniqueGo (x : String) (seen l : List String) :
    x ∈ jsUniqueGo seen l ↔ x ∈ l ∧ x ∉ seen := by
  induction l generalizing seen with
  | nil => simp [jsUniqueGo]
  | cons a l ih =>
    by_cases ha : a ∈ seen
    · rw [jsUniqueGo, if_pos ha, ih]
      constructor
      · rintro ⟨h1, h2⟩
        exact ⟨List.mem_cons_of_mem _ h1, h2⟩
      · rintro ⟨h1, h2⟩
        rcases List.mem_cons.mp h1 with h | h
        · exact absurd (h ▸ ha) h2
        · exact ⟨h, h2⟩
    · rw [jsUniqueGo, if_neg ha]
      by_cases hx : x = a
      · subst hx
        simp [ha]
      · simp only [List.mem_cons, hx, false_or]
        rw [ih]
        simp [hx, List.mem_cons]

theorem mem_uniqueArray (x : String) (l : List String) :
    x ∈ uniqueArray l ↔ x ∈ l := by
  simp [uniqueArray, mem_jsUniqueGo]

theorem jsUniqueGo_eq_nil {seen m : List String} (h : ∀ x ∈ m, x ∈ seen) :
    jsUniqueGo seen m = [] := by
  induction m with
  | nil => rfl
  | cons a m ih =>
    rw [jsUniqueGo, if_pos (h a (by simp))]
    exact ih fun x hx => h x (by simp [hx])

theorem jsUniqueGo_append {seen l m : List String}
    (h : ∀ x ∈ m, x ∈ l ∨ x ∈ seen) :
    jsUniqueGo seen (l ++ m) = jsUniqueGo seen l := by
  induction l generalizing seen with
  | nil =>
    have : ∀ x ∈ m, x ∈ seen := by
      intro x hx
      rcases h x hx with h' | h'
      · simp at h'
      · exact h'
    simp [jsUniqueGo_eq_nil this, jsUniqueGo]
  | cons a l ih =>
    by_cases ha : a ∈ seen
    · rw [List.cons_append, jsUniqueGo, if_pos ha, jsUniqueGo, if_pos ha]
      refine ih fun x hx => ?_
      rcases h x hx with h' | h'
      · rcases List.mem_cons.mp h' with h'' | h''
        · exact .inr (h'' ▸ ha)
        · exact .inl h''
      · exact .inr h'
    · rw [List.cons_append, jsUniqueGo, if_neg ha, jsUniqueGo, if_neg ha]
      congr 1
      refine ih fun x hx => ?_
      rcases h x hx with h' | h'
      · rcases List.mem_cons.mp h' with h'' | h''
        · exact .inr (by simp [h''])
        · exact .inl h''
      · exact .inr (by simp [h'])

theorem uniqueArray_append {l m : List String} (h : ∀ x ∈ m, x ∈ l) :
    uniqueArray (l ++ m) = uniqueArray l :=
  jsUniqueGo_append fun x hx => .inl (h x hx)

theorem jsUniqueGo_idem (seen l : List String) :
    jsUniqueGo seen (jsUniqueGo seen l) = jsUniqueGo seen l := by
  induction l generalizing seen with
  | nil => rfl
  | cons a l ih =>
    by_cases ha : a ∈ seen
    · rw [jsUniqueGo, if_pos ha, ih]
    · rw [jsUniqueGo, if_neg ha]
      rw [jsUniqueGo, if_neg ha]
      congr 1
      exact ih (a :: seen)

theorem uniqueArray_idem (l : List String) :
    uniqueArray (uniqueArray l) = uniqueArray l :=
  jsUniqueGo_idem [] l

/-! ## Lemmas: strings and paths -/

theorem jsStartsWith_iff (s p : String) :
    jsStartsWith s p = true ↔ p.data <+: s.data := by
  simp [jsStartsWith, List.isPrefixOf_iff_prefix]

theorem not_prefix_append {sub r : FsPath} (h1 : ¬ sub <+: r) (h2 : ¬ r <+: sub)
    (rest : FsPath) : ¬ sub <+: (r ++ rest) := by
  intro h
  rcases le_total sub.length r.length with hle | hle
  · exact h1 (List.prefix_of_prefix_length_le h (List.prefix_append r rest) hle)
  · exact h2 (List.prefix_of_prefix_length_le (List.prefix_append r rest) h hle)

theorem not_prefix_of_length_lt {sub q : FsPath} (h : q.length < sub.length) :
    ¬ sub <+: q := fun hp => absurd hp.length_le (by omega)

/-! ## Claim C4 — `isPackageConverged` -/

/-- C4: for every project configuration whose manifest is readable,
`isPackageConverged` returns exactly the test "the manifest's version string
starts with the literal prefix `\"9.\"`", and that test holds iff the version
string's first two characters are `'9'` and `'.'`. -/
theorem C4_isPackageConverged_iff (t : FsTree) (project : ProjectConfig) (pj : PackageJson)
    (h : readPackageJson t (project.root ++ ["package.json"]) = some pj) :
    isPackageConverged t project = .ok (jsStartsWith pj.version "9.")
      ∧ (jsStartsWith pj.version "9." = true ↔ pj.version.data.take 2 = ['9', '.']) := by
  constructor
  · simp [isPackageConverged, h]
  · have h92 : ("9." : String).data = ['9', '.'] := rfl
    rw [jsStartsWith_iff, h92, List.prefix_iff_eq_take]
    constructor
    · intro hp
      simpa using hp.symm
    · intro hp
      simpa using hp.symm

def c4Project : ProjectConfig := { root := ["packages", "pkg-a"] }

def c4Manifest (v : String) : PackageJson :=
  { version := v, scripts := none, dependencies := none, rest := "" }

def c4Tree (v : String) : FsTree :=
  [(["packages", "pkg-a", "package.json"], .packageJson (c4Manifest v))]

theorem C4_isPackageConverged_iff_witness :
    isPackageConverged (c4Tree "8.2.7") c4Project = .ok false
      ∧ isPackageConverged (c4Tree "9.0.0-alpha.30") c4Project = .ok true := by
  constructor
  · have h := (C4_isPackageConverged_iff (c4Tree "8.2.7") c4Project (c4Manifest "8.2.7")
      (by rfl)).1
    rw [h]
    decide
  · have h := (C4_isPackageConverged_iff (c4Tree "9.0.0-alpha.30") c4Project
      (c4Manifest "9.0.0-alpha.30") (by rfl)).1
    rw [h]
    decide

/-! ## Claim C8 — conflicting-mode validation -/

/-- The number of truthy flags among `{name, all, stats}`. -/
def countTruthyModes (sch : MigrateSchema) : Nat :=
  (if nameTruthy sch then 1 else 0) + (if sch.all then 1 else 0) + (if sch.stats then 1 else 0)

/-- C8: whenever more than one of the flags `{name, all, stats}` is truthy,
the schema validator throws one of the three explicitly checked pairwise
conflicting-mode errors (before touching the tree); with at most one truthy
flag the conflicting-mode check passes. -/
theorem C8_conflicting_modes (env : PromptEnv) (s : MigState) (sch : MigrateSchema) :
    (2 ≤ countTruthyModes sch →
        checkConflictingModes sch ≠ none
          ∧ validateSchema env s sch = .error ((checkConflictingModes sch).getD "", s.tree))
      ∧ (countTruthyModes sch ≤ 1 → checkConflictingModes sch = none) := by
  cases hn : nameTruthy sch <;> cases ha : sch.all <;> cases hs : sch.stats <;>
    simp [countTruthyModes, checkConflictingModes, validateSchema, hn, ha, hs]

def c8State : MigState :=
  { tree := [], registry := [], npmScope := "scope", tmplTypes := tsconfigTemplateTypes, log := [] }

def c8Env : PromptEnv := { promptsEnabled := false, promptAnswer := "" }

def c8SchemaConflicting : MigrateSchema :=
  { name := some "@scope/a", all := false, stats := true }

def c8SchemaSingleMode : MigrateSchema :=
  { name := some "@scope/a", all := false, stats := false }

theorem C8_conflicting_modes_witness :
    validateSchema c8Env c8State c8SchemaConflicting
        = .error ("--name and --stats are mutually exclusive", c8State.tree)
      ∧ checkConflictingModes c8SchemaSingleMode = none := by
  constructor
  · have h := (C8_conflicting_modes c8Env c8State c8SchemaConflicting).1 (by decide)
    rw [h.2]
    decide
  · exact (C8_conflicting_modes c8Env c8State c8SchemaSingleMode).2 (by decide)

/-! ## Claim C6 — `updateNpmScripts` -/

/-- C6: for every manifest with a scripts map, the rewrite deletes the three
legacy keys, sets exactly the five fixed keys (`build:local` embedding the
normalized package name), leaves every other entry unchanged, and writes the
manifest back with only its `scripts` field replaced. -/
theorem C6_updateNpmScripts (s : MigState) (o : NormalizedSchema) (pj : PackageJson)
    (scripts : List (String × String))
    (hpj : readPackageJson s.tree o.packageJsonPath = some pj)
    (hs : pj.scripts = some scripts) :
    updateNpmScripts s o = .ok { s with tree := (FsTree.writePath s.tree o.packageJsonPath
        (.packageJson { pj with scripts := some (rewrittenScripts o.normalizedPkgName scripts) })) }
      ∧ getKey (rewrittenScripts o.normalizedPkgName scripts) "update-snapshots" = none
      ∧ getKey (rewrittenScripts o.normalizedPkgName scripts) "start-test" = none
      ∧ getKey (rewrittenScripts o.normalizedPkgName scripts) "test:watch" = none
      ∧ getKey (rewrittenScripts o.normalizedPkgName scripts) "docs" = some docsScriptCmd
      ∧ getKey (rewrittenScripts o.normalizedPkgName scripts) "build:local"
          = some (buildLocalScriptCmd o.normalizedPkgName)
      ∧ getKey (rewrittenScripts o.normalizedPkgName scripts) "storybook" = some "start-storybook"
      ∧ getKey (rewrittenScripts o.normalizedPkgName scripts) "start" = some "yarn storybook"
      ∧ getKey (rewrittenScripts o.normalizedPkgName scripts) "test" = some "jest"
      ∧ ∀ k, k ∉ (["update-snapshots", "start-test", "test:watch",
            "docs", "build:local", "storybook", "start", "test"] : List String) →
          getKey (rewrittenScripts o.normalizedPkgName scripts) k = getKey scripts k := by
  refine ⟨by simp [updateNpmScripts, hpj, hs], ?_, ?_, ?_, ?_, ?_, ?_, ?_, ?_, ?_⟩
  · simp [rewrittenScripts, getKey_setKey_ne, getKey_delKey_ne, getKey_delKey_self]
  · simp [rewrittenScripts, getKey_setKey_ne, getKey_delKey_ne, getKey_delKey_self]
  · simp [rewrittenScripts, getKey_setKey_ne, getKey_delKey_ne, getKey_delKey_self]
  · simp [rewrittenScripts, getKey_setKey_ne, getKey_setKey_self]
  · simp [rewrittenScripts, getKey_setKey_ne, getKey_setKey_self]
  · simp [rewrittenScripts, getKey_setKey_ne, getKey_setKey_self]
  · simp [rewrittenScripts, getKey_setKey_ne, getKey_setKey_self]
  · simp [rewrittenScripts, getKey_setKey_self]
  · intro k hk
    simp only [List.mem_cons, not_or] at hk
    obtain ⟨h1, h2, h3, h4, h5, h6, h7, h8, -⟩ := hk
    rw [rewrittenScripts]
    rw [getKey_setKey_ne _ _ _ _ h8, getKey_setKey_ne _ _ _ _ h7,
      getKey_setKey_ne _ _ _ _ h6, getKey_setKey_ne _ _ _ _ h5,
      getKey_setKey_ne _ _ _ _ h4, getKey_delKey_ne _ _ _ h3,
      getKey_delKey_ne _ _ _ h2, getKey_delKey_ne _ _ _ h1]

def c6Scripts : List (String × String) :=
  [("update-snapshots", "legacy1"), ("start-test", "legacy2"),
   ("test:watch", "legacy3"), ("other", "keep-me")]

def c6Manifest : PackageJson :=
  { version := "9.0.0", scripts := some c6Scripts, dependencies := none, rest := "r" }

def c6State : MigState :=
  { tree := [(["packages", "pkg-a", "package.json"], .packageJson c6Manifest)]
    registry := [("@scope/pkg-a", c4Project)]
    npmScope := "scope", tmplTypes := tsconfigTemplateTypes, log := [] }

def c6Options : NormalizedSchema :=
  { name := "@scope/pkg-a"
    projectConfig := c4Project
    normalizedPkgName := "pkg-a"
    configRoot := ["packages", "pkg-a", "config"]
    packageJsonPath := ["packages", "pkg-a", "package.json"]
    tsconfigPath := ["packages", "pkg-a", "tsconfig.json"]
    jestConfigPath := ["packages", "pkg-a", "jest.config.js"]
    npmConfigPath := ["packages", "pkg-a", ".npmignore"]
    rootTsconfigPath := ["tsconfig.base.json"]
    rootJestConfigPath := ["jest.config.js"]
    storybookTsconfigPath := ["packages", "pkg-a", ".storybook", "tsconfig.json"]
    storybookMainPath := ["packages", "pkg-a", ".storybook", "main.js"]
    storybookPreviewPath := ["packages", "pkg-a", ".storybook", "preview.js"] }

theorem C6_updateNpmScripts_witness :
    getKey (rewrittenScripts "pkg-a" c6Scripts) "update-snapshots" = none
      ∧ getKey (rewrittenScripts "pkg-a" c6Scripts) "start-test" = none
      ∧ getKey (rewrittenScripts "pkg-a" c6Scripts) "test:watch" = none
      ∧ getKey (rewrittenScripts "pkg-a" c6Scripts) "other" = some "keep-me"
      ∧ getKey (rewrittenScripts "pkg-a" c6Scripts) "docs" = some docsScriptCmd
      ∧ getKey (rewrittenScripts "pkg-a" c6Scripts) "test" = some "jest" := by
  have h := C6_updateNpmScripts c6State c6Options c6Manifest c6Scripts (by decide) (by decide)
  refine ⟨h.2.1, h.2.2.1, h.2.2.2.1, ?_, h.2.2.2.2.1, h.2.2.2.2.2.2.2.2.1⟩
  have hother := h.2.2.2.2.2.2.2.2.2 "other" (by decide)
  exact hother.trans (by decide)

/-! ## Claim C5 — path-alias registration -/

/-- C5: after `updatedBaseTsConfig`, the root config's `paths` map binds the
project's name to `<root>/src/index.ts`, binds every workspace-scoped
dependency to that dependency's project root joined with `src/index.ts`, and
leaves every other key unchanged (in particular, dependencies outside the
workspace scope add no entry). -/
theorem C5_updatedBaseTsConfig (s : MigState) (name : String) (o : NormalizedSchema)
    (pj : PackageJson) (pathsOpt : Option (List (String × List String))) (baseRest : String)
    (hno : normalizeOptions s name = .ok o)
    (hpj : readPackageJson s.tree o.packageJsonPath = some pj)
    (hbase : FsTree.readPath s.tree o.rootTsconfigPath = some (.baseTsConfig pathsOpt baseRest)) :
    updatedBaseTsConfig s o = .ok { s with tree := (FsTree.writePath s.tree o.rootTsconfigPath
        (.baseTsConfig (some (updatedPathsMap s o pj (pathsOpt.getD []))) baseRest)) }
      ∧ getKey (updatedPathsMap s o pj (pathsOpt.getD [])) o.name
          = some [pathToString o.projectConfig.root ++ "/src/index.ts"]
      ∧ (∀ d ∈ scopedDependencies s.npmScope pj, ∀ c, getKey s.registry d = some c →
          getKey (updatedPathsMap s o pj (pathsOpt.getD [])) d
            = some [pathToString c.root ++ "/src/index.ts"])
      ∧ (∀ k, k ≠ o.name → k ∉ scopedDependencies s.npmScope pj →
          getKey (updatedPathsMap s o pj (pathsOpt.getD [])) k
            = getKey (pathsOpt.getD []) k) := by
  have hreg : getKey s.registry o.name = some o.projectConfig := by
    rw [normalizeOptions, readProjectConfiguration] at hno
    cases hg : getKey s.registry name with
    | none => rw [hg] at hno; exact absurd hno (by simp)
    | some cfg =>
      rw [hg] at hno
      simp only [Except.ok.injEq] at hno
      rw [← hno]
      exact hg
  refine ⟨by simp [updatedBaseTsConfig, hpj, hbase], ?_, ?_, ?_⟩
  · rw [updatedPathsMap, getKey_foldl_setKey]
    by_cases hmem : o.name ∈ scopedDependencies s.npmScope pj
    · simp [hmem, aliasEntry, hreg]
    · simp [hmem, getKey_setKey_self]
  · intro d hd c hc
    rw [updatedPathsMap, getKey_foldl_setKey, if_pos hd, aliasEntry, hc]
  · intro k hk hkd
    rw [updatedPathsMap, getKey_foldl_setKey, if_neg hkd, getKey_setKey_ne _ _ _ _ hk]

def c5RegY : ProjectConfig := { root := ["packages", "y"] }

def c5RegX : ProjectConfig := { root := ["packages", "x"] }

def c5ManifestY : PackageJson :=
  { version := "9.0.0"
    scripts := none
    dependencies := some [("@scope/x", "^9.0.0"), ("tslib", "^2.1.0")]
    rest := "" }

def c5State : MigState :=
  { tree :=
      [(["packages", "y", "package.json"], .packageJson c5ManifestY),
       (["tsconfig.base.json"],
         .baseTsConfig (some [("@scope/x", ["old-alias"]), ("unrelated", ["keep"])]) "base")]
    registry := [("@scope/y", c5RegY), ("@scope/x", c5RegX)]
    npmScope := "scope", tmplTypes := tsconfigTemplateTypes, log := [] }

theorem C5_updatedBaseTsConfig_witness :
    getKey (updatedPathsMap c5State
        ((normalizeOptions c5State "@scope/y").toOption.getD c6Options) c5ManifestY
        [("@scope/x", ["old-alias"]), ("unrelated", ["keep"])]) "@scope/y"
      = some ["packages/y/src/index.ts"]
    ∧ getKey (updatedPathsMap c5State
        ((normalizeOptions c5State "@scope/y").toOption.getD c6Options) c5ManifestY
        [("@scope/x", ["old-alias"]), ("unrelated", ["keep"])]) "@scope/x"
      = some ["packages/x/src/index.ts"]
    ∧ getKey (updatedPathsMap c5State
        ((normalizeOptions c5State "@scope/y").toOption.getD c6Options) c5ManifestY
        [("@scope/x", ["old-alias"]), ("unrelated", ["keep"])]) "unrelated"
      = some ["keep"]
    ∧ getKey (updatedPathsMap c5State
        ((normalizeOptions c5State "@scope/y").toOption.getD c6Options) c5ManifestY
        [("@scope/x", ["old-alias"]), ("unrelated", ["keep"])]) "tslib"
      = none := by
  have hno : normalizeOptions c5State "@scope/y"
      = .ok ((normalizeOptions c5State "@scope/y").toOption.getD c6Options) := by decide
  have h := C5_updatedBaseTsConfig c5State "@scope/y"
    ((normalizeOptions c5State "@scope/y").toOption.getD c6Options) c5ManifestY
    (some [("@scope/x", ["old-alias"]), ("unrelated", ["keep"])]) "base"
    hno (by decide) (by decide)
  refine ⟨h.2.1.trans (by decide), ?_, ?_, ?_⟩
  · exact (h.2.2.1 "@scope/x" (by decide) c5RegX (by decide)).trans (by decide)
  · exact (h.2.2.2 "unrelated" (by decide) (by decide)).trans (by decide)
  · exact (h.2.2.2 "tslib" (by decide) (by decide)).trans (by decide)

/-! ## Claim C9 — stats mode -/

/-- The converged test as a partial observation of the tree (`none` when the
manifest is unreadable). -/
def convergedAt (t : FsTree) (project : ProjectConfig) : Option Bool :=
  (readPackageJson t (project.root ++ ["package.json"])).map
    (fun pj => jsStartsWith pj.version "9.")

theorem printStatsGo_partition (t : FsTree) (reg : Registry)
    (h : ∀ e ∈ reg, ∃ pj, readPackageJson t (e.2.root ++ ["package.json"]) = some pj) :
    printStatsGo t reg
      = .ok (reg.filter (fun e => convergedAt t e.2 == some true && isProjectMigrated e.2),
             reg.filter (fun e => convergedAt t e.2 == some true && !isProjectMigrated e.2)) := by
  induction reg with
  | nil => simp [printStatsGo]
  | cons e rest ih =>
    obtain ⟨pj, hpj⟩ := h e (by simp)
    have hrest := ih fun e' he' => h e' (by simp [he'])
    obtain ⟨n, c⟩ := e
    have hconv : isPackageConverged t c = .ok (jsStartsWith pj.version "9.") := by
      simp [isPackageConverged, hpj]
    have hca : convergedAt t c = some (jsStartsWith pj.version "9.") := by
      simp [convergedAt, hpj]
    cases h9 : jsStartsWith pj.version "9." with
    | false =>
      rw [printStatsGo, hconv, h9, hrest]
      simp [List.filter_cons, hca, h9]
    | true =>
      rw [printStatsGo, hconv, h9, hrest]
      cases hm : isProjectMigrated c <;>
        simp [List.filter_cons, hca, h9, hm]

/-- C9: stats mode performs zero tree writes (the returned state is the input
state) and partitions exactly the converged projects into migrated versus
not-migrated by `isProjectMigrated`, excluding non-converged projects from
both lists. -/
theorem C9_printStats (s : MigState)
    (h : ∀ e ∈ s.registry, ∃ pj, readPackageJson s.tree (e.2.root ++ ["package.json"]) = some pj) :
    printStats s
      = .ok (s,
          (s.registry.filter (fun e => convergedAt s.tree e.2 == some true && isProjectMigrated e.2),
           s.registry.filter (fun e => convergedAt s.tree e.2 == some true && !isProjectMigrated e.2))) := by
  rw [printStats, printStatsGo_partition s.tree s.registry h]

def c9CfgA : ProjectConfig :=
  { root := ["packages", "a"], sourceRoot := some ["packages", "a", "src"]
    tags := some ["vNext", "platform:web"] }

def c9CfgB : ProjectConfig :=
  { root := ["packages", "b"], sourceRoot := some ["packages", "b", "src"]
    tags := some ["vNext"] }

def c9CfgC : ProjectConfig := { root := ["packages", "c"] }

def c9CfgD : ProjectConfig := { root := ["packages", "d"] }

def c9Manifest (v : String) : PackageJson :=
  { version := v, scripts := none, dependencies := none, rest := "" }

def c9State : MigState :=
  { tree :=
      [(["packages", "a", "package.json"], .packageJson (c9Manifest "9.0.0")),
       (["packages", "b", "package.json"], .packageJson (c9Manifest "9.0.0-alpha.30")),
       (["packages", "c", "package.json"], .packageJson (c9Manifest "9.1.2")),
       (["packages", "d", "package.json"], .packageJson (c9Manifest "8.2.7"))]
    registry := [("@scope/a", c9CfgA), ("@scope/b", c9CfgB), ("@scope/c", c9CfgC),
                 ("@scope/d", c9CfgD)]
    npmScope := "scope", tmplTypes := tsconfigTemplateTypes, log := [] }

theorem C9_printStats_witness :
    printStats c9State
      = .ok (c9State,
          ([("@scope/a", c9CfgA), ("@scope/b", c9CfgB)], [("@scope/c", c9CfgC)])) := by
  have hread : ∀ e ∈ c9State.registry,
      ∃ pj, readPackageJson c9State.tree (e.2.root ++ ["package.json"]) = some pj := by
    intro e he
    simp only [c9State, List.mem_cons, List.not_mem_nil, or_false] at he
    rcases he with rfl | rfl | rfl | rfl
    · exact ⟨c9Manifest "9.0.0", by decide⟩
    · exact ⟨c9Manifest "9.0.0-alpha.30", by decide⟩
    · exact ⟨c9Manifest "9.1.2", by decide⟩
    · exact ⟨c9Manifest "8.2.7", by decide⟩
  have h := C9_printStats c9State hread
  exact h.trans (by decide)

/-! ## Claim C7 — validation failures abort before any mutation -/

/-- The message of the error a generator run throws (or `""` on success). -/
def thrownMessage (env : PromptEnv) (s : MigState) (sch : MigrateSchema) : String :=
  match generatorDefault env s sch with
  | .error e => e.1
  | .ok _ => ""

theorem resolvedSchema_all (env : PromptEnv) (sch : MigrateSchema) :
    (resolvedSchema env sch).all = sch.all := by
  unfold resolvedSchema
  split <;> rfl

theorem resolvedSchema_stats (env : PromptEnv) (sch : MigrateSchema) :
    (resolvedSchema env sch).stats = sch.stats := by
  unfold resolvedSchema
  split <;> rfl

/-- C7: if validation fails — more than one mode flag truthy, or no name
resolvable after optional prompting with neither batch nor stats mode chosen,
or the named project not a converged package — the generator throws before
any tree mutation: the error carries exactly the input tree. -/
theorem C7_validation_aborts_untouched (env : PromptEnv) (s : MigState) (sch : MigrateSchema)
    (h : 2 ≤ countTruthyModes sch
        ∨ (nameTruthy (resolvedSchema env sch) = false ∧ sch.all = false ∧ sch.stats = false)
        ∨ (sch.all = false ∧ sch.stats = false
            ∧ ∃ n, sch.name = some n ∧ n ≠ ""
            ∧ ∃ cfg, getKey s.registry n = some cfg
            ∧ ∃ pj, readPackageJson s.tree (cfg.root ++ ["package.json"]) = some pj
              ∧ jsStartsWith pj.version "9." = false)) :
    generatorDefault env s sch = .error (thrownMessage env s sch, s.tree) := by
  have key : ∃ m, validateSchema env s sch = .error (m, s.tree) := by
    rcases h with h1 | ⟨h2a, h2b, h2c⟩ | ⟨h3a, h3b, n, hn, hne, cfg, hcfg, pj, hpj, h9⟩
    · refine ⟨(checkConflictingModes sch).getD "", ?_⟩
      cases hnt : nameTruthy sch <;> cases ha : sch.all <;> cases hs : sch.stats <;>
        simp [countTruthyModes, hnt, ha, hs] at h1 <;>
        simp [validateSchema, checkConflictingModes, hnt, ha, hs]
    · have hcheck : checkConflictingModes sch = none := by
        simp [checkConflictingModes, h2b, h2c]
      have hsv : shouldValidateNameInput (resolvedSchema env sch) = true := by
        simp [shouldValidateNameInput, h2a, resolvedSchema_all, resolvedSchema_stats, h2b, h2c]
      refine ⟨"--name cannot be empty. Please provide name of the package.", ?_⟩
      rw [validateSchema, hcheck]
      simp only [hsv, if_true]
    · have hnt : nameTruthy sch = true := by simp [nameTruthy, hn, hne]
      have hcheck : checkConflictingModes sch = none := by
        simp [checkConflictingModes, h3a, h3b]
      have hres : resolvedSchema env sch = sch := by
        unfold resolvedSchema
        simp [shouldValidateNameInput, hnt]
      have hsv : shouldValidateNameInput sch = false := by
        simp [shouldValidateNameInput, hnt]
      refine ⟨n ++ " is not converged package. Make sure to run the migration on packages with version 9.x.x", ?_⟩
      rw [validateSchema, hcheck]
      simp only [hres, hsv, Bool.false_eq_true, if_false, hnt, if_true]
      have hname : sch.name.getD "" = n := by rw [hn]; rfl
      rw [hname, readProjectConfiguration, hcfg]
      simp only [isPackageConverged, hpj, h9]
  obtain ⟨m, hm⟩ := key
  have hgen : generatorDefault env s sch = .error (m, s.tree) := by
    rw [generatorDefault, hm]
  rw [hgen, thrownMessage, hgen]

def c7Schema : MigrateSchema := { name := some "@scope/a", all := true, stats := false }

theorem C7_validation_aborts_untouched_witness :
    generatorDefault c8Env c8State c7Schema
      = .error (thrownMessage c8Env c8State c7Schema, c8State.tree)
      ∧ thrownMessage c8Env c8State c7Schema = "--name and --all are mutually exclusive" := by
  refine ⟨C7_validation_aborts_untouched c8Env c8State c7Schema (.inl (by decide)), by decide⟩

/-! ## Claims C1 and C10 — story relocation -/

/-- The destination of a relocated story file: the project's `src` directory
plus the origin's base name (the directory structure is flattened). -/
def storyDest (o : NormalizedSchema) (p : FsPath) : FsPath :=
  o.projectConfig.root ++ ["src", lastSegment p]

/-- The content written for a relocated story of original content `c`. -/
def storyValue (o : NormalizedSchema) (c : FileContent) (p : FsPath) : FileContent :=
  .text (storyTransformed c.asString o.name (stripStoriesExt (lastSegment p)))

/-- The last story path in visit order that writes to destination `q`. -/
def lastWriter (o : NormalizedSchema) (ps : List FsPath) (q : FsPath) : Option FsPath :=
  (ps.filter (fun p => storyDest o p == q)).getLast?

theorem getLast?_cons_of_some {α : Type} {l : List α} {x : α} (a : α)
    (h : l.getLast? = some x) : (a :: l).getLast? = some x := by
  cases l with
  | nil => simp at h
  | cons b l => rw [List.getLast?_cons_cons]; exact h

/-- Full characterization of the relocation loop: it succeeds when every
origin is readable with non-empty content and no destination collides with a
pending origin, and afterwards every path reads as the value written by its
last writer (for destinations), everything else being untouched. -/
theorem moveStoriesGo_spec (o : NormalizedSchema) (ps : List FsPath) :
    ∀ s : MigState,
    (∀ p ∈ ps, ∀ q ∈ ps, storyDest o q ≠ p) →
    (∀ p ∈ ps, ∃ c, FsTree.readPath s.tree p = some c ∧ c.asString ≠ "") →
    ∃ t', moveStoriesGo o s ps = .ok { s with tree := t' }
      ∧ ∀ q, FsTree.readPath t' q
          = match lastWriter o ps q with
            | some pw => (FsTree.readPath s.tree pw).map (fun c => storyValue o c pw)
            | none => FsTree.readPath s.tree q := by
  induction ps with
  | nil =>
    intro s _ _
    exact ⟨s.tree, rfl, fun q => by simp [lastWriter]⟩
  | cons p rest ih =>
    intro s hdest hread
    obtain ⟨c, hc, hcne⟩ := hread p (by simp)
    have hdest' : ∀ p' ∈ rest, ∀ q ∈ rest, storyDest o q ≠ p' := fun p' hp' q hq =>
      hdest p' (by simp [hp']) q (by simp [hq])
    have hstep : moveStoriesGo o s (p :: rest)
        = moveStoriesGo o
            { s with tree := FsTree.writePath s.tree (storyDest o p) (storyValue o c p) }
            rest := by
      simp only [moveStoriesGo, hc, hcne, if_false]
      rfl
    have hread' : ∀ p' ∈ rest,
        ∃ c', FsTree.readPath (FsTree.writePath s.tree (storyDest o p) (storyValue o c p)) p'
            = some c' ∧ c'.asString ≠ "" := by
      intro p' hp'
      obtain ⟨c', hc', hc'ne⟩ := hread p' (by simp [hp'])
      refine ⟨c', ?_, hc'ne⟩
      rw [readPath_writePath_ne s.tree (storyDest o p) p' (storyValue o c p)
        (Ne.symm (hdest p' (by simp [hp']) p (by simp)))]
      exact hc'
    obtain ⟨t', hrun, hreads⟩ :=
      ih { s with tree := FsTree.writePath s.tree (storyDest o p) (storyValue o c p) }
        hdest' hread'
    refine ⟨t', by rw [hstep, hrun], ?_⟩
    intro q
    rw [hreads q]
    cases hlw : lastWriter o rest q with
    | some pw =>
      have h1 := hlw
      rw [lastWriter] at h1
      have hpw : pw ∈ rest := List.mem_of_mem_filter (List.mem_of_mem_getLast? h1)
      have hlw2 : lastWriter o (p :: rest) q = some pw := by
        rw [lastWriter, List.filter_cons]
        split
        · exact getLast?_cons_of_some _ h1
        · exact h1
      have hstable : FsTree.readPath
          (FsTree.writePath s.tree (storyDest o p) (storyValue o c p)) pw
            = FsTree.readPath s.tree pw :=
        readPath_writePath_ne s.tree (storyDest o p) pw (storyValue o c p)
          (Ne.symm (hdest pw (by simp [hpw]) p (by simp)))
      simp only [hlw, hlw2, hstable]
    | none =>
      have hfil : rest.filter (fun p' => storyDest o p' == q) = [] := by
        have h1 := hlw
        rw [lastWriter] at h1
        exact List.getLast?_eq_none_iff.mp h1
      by_cases hq : storyDest o p = q
      · have hlw2 : lastWriter o (p :: rest) q = some p := by
          rw [lastWriter, List.filter_cons, if_pos (by simp [hq]), hfil]
          rfl
        subst hq
        simp only [hlw, hlw2, readPath_writePath_self, hc]
        rfl
      · have hlw2 : lastWriter o (p :: rest) q = none := by
          rw [lastWriter, List.filter_cons, if_neg (by simp [hq]), hfil]
          rfl
        simp only [hlw, hlw2,
          readPath_writePath_ne s.tree (storyDest o p) q (storyValue o c p) (Ne.symm hq)]

theorem mem_storyPathsOf {s : MigState} {subdir p : FsPath} :
    p ∈ storyPathsOf s subdir
      ↔ (∃ c, (p, c) ∈ s.tree) ∧ subdir <+: p
          ∧ strContains (pathToString p) ".stories." = true := by
  simp only [storyPathsOf, List.mem_filter, List.mem_map]
  constructor
  · rintro ⟨⟨e, he, rfl⟩, hc⟩
    rw [mem_filesUnder] at he
    exact ⟨⟨e.2, he.1⟩, he.2, hc⟩
  · rintro ⟨⟨c, hc⟩, hpre, hcont⟩
    exact ⟨⟨(p, c), mem_filesUnder.mpr ⟨hc, hpre⟩, rfl⟩, hcont⟩

theorem storyPathsOf_nodup {s : MigState} {subdir : FsPath}
    (hnodup : (s.tree.map (·.1)).Nodup) : (storyPathsOf s subdir).Nodup := by
  have h1 : ((FsTree.filesUnder s.tree subdir).map (·.1)).Sublist (s.tree.map (·.1)) :=
    (List.filter_sublist s.tree).map (·.1)
  exact (hnodup.sublist h1).filter _

theorem storyDest_eq_iff (o : NormalizedSchema) (p q : FsPath) :
    storyDest o p = storyDest o q ↔ lastSegment p = lastSegment q := by
  rw [storyDest, storyDest, List.append_right_inj]
  constructor
  · intro h
    have h2 : [lastSegment p] = [lastSegment q] := (List.cons.injEq _ _ _ _ ▸ h).right
    exact (List.cons.injEq _ _ _ _ ▸ h2).left
  · intro h
    rw [h]

theorem filter_eq_singleton_of_unique {α : Type} {l : List α} {a : α} {p : α → Bool}
    (hnd : l.Nodup) (ha : a ∈ l) (hp : ∀ x ∈ l, (p x = true ↔ x = a)) :
    l.filter p = [a] := by
  induction l with
  | nil => simp at ha
  | cons b rest ih =>
    rw [List.nodup_cons] at hnd
    rcases List.mem_cons.mp ha with rfl | hmem
    · have hb : p a = true := (hp a (List.mem_cons_self a rest)).mpr rfl
      rw [List.filter_cons, if_pos hb]
      have hnil : rest.filter p = [] := by
        rw [List.filter_eq_nil_iff]
        intro x hx hpx
        have hxa : x = a := (hp x (List.mem_cons_of_mem a hx)).mp hpx
        exact hnd.1 (hxa ▸ hx)
      rw [hnil]
    · have hb : p b = false := by
        cases hpb : p b with
        | false => rfl
        | true =>
          have hba : b = a := (hp b (List.mem_cons_self b rest)).mp hpb
          exact absurd (hba.symm ▸ hmem) hnd.1
      rw [List.filter_cons, if_neg (by simp [hb])]
      exact ih hnd.2 hmem fun x hx => hp x (List.mem_cons_of_mem b hx)

theorem lastWriter_self (o : NormalizedSchema) {ps : List FsPath} {p : FsPath}
    (hnd : ps.Nodup)
    (hinj : ∀ x ∈ ps, ∀ y ∈ ps, lastSegment x = lastSegment y → x = y)
    (hp : p ∈ ps) : lastWriter o ps (storyDest o p) = some p := by
  rw [lastWriter, filter_eq_singleton_of_unique hnd hp ?_]
  · rfl
  · intro x hx
    rw [beq_iff_eq, storyDest_eq_iff]
    constructor
    · intro h
      exact hinj x hx p hp h
    · intro h
      rw [h]

/-- C1 (amended): for every story file under the examples project's package
subdirectory, the relocation reads its content, replaces the first occurrence
of the full package name with `./index`, appends the default-export block
naming the component (the file name with a trailing `.stories.tsx`/`.stories.ts`
stripped), and writes the result to the destination project's `src` directory
under the same file name. -/
theorem C1_story_relocation_amended (s : MigState) (name : String) (o : NormalizedSchema)
    (ec : ProjectConfig)
    (hno : normalizeOptions s name = .ok o)
    (hec : getReactExamplesProjectConfig s = some ec)
    (hnodup : (s.tree.map (·.1)).Nodup)
    (hsep1 : ¬ storiesSubdir ec.root o.normalizedPkgName <+: o.projectConfig.root)
    (hsep2 : ¬ o.projectConfig.root <+: storiesSubdir ec.root o.normalizedPkgName)
    (hcontents : ∀ e ∈ s.tree, storiesSubdir ec.root o.normalizedPkgName <+: e.1 →
        strContains (pathToString e.1) ".stories." = true → e.2.asString ≠ "")
    (hbasenames :
      ((storyPathsOf s (storiesSubdir ec.root o.normalizedPkgName)).map lastSegment).Nodup) :
    ∃ s', moveStorybookFromReactExamples s o = .ok s'
      ∧ ∀ e ∈ s.tree, storiesSubdir ec.root o.normalizedPkgName <+: e.1 →
          strContains (pathToString e.1) ".stories." = true →
          FsTree.readPath s'.tree (o.projectConfig.root ++ ["src", lastSegment e.1])
            = some (.text (storyTransformed e.2.asString o.name
                (stripStoriesExt (lastSegment e.1)))) := by
  have hmemPs : ∀ e : FsPath × FileContent, e ∈ s.tree →
      storiesSubdir ec.root o.normalizedPkgName <+: e.1 →
      strContains (pathToString e.1) ".stories." = true →
      e.1 ∈ storyPathsOf s (storiesSubdir ec.root o.normalizedPkgName) := by
    intro e he hpre hcont
    exact mem_storyPathsOf.mpr ⟨⟨e.2, he⟩, hpre, hcont⟩
  by_cases hlen :
      (storyPathsOf s (storiesSubdir ec.root o.normalizedPkgName)).length = 0
  · have hempty : storyPathsOf s (storiesSubdir ec.root o.normalizedPkgName) = [] :=
      List.length_eq_zero.mp hlen
    refine ⟨{ s with log := s.log ++ [⟨.warn, noStoriesMessage⟩] }, ?_, ?_⟩
    · simp only [moveStorybookFromReactExamples, hec, hlen, if_pos]
    · intro e he hpre hcont
      have := hmemPs e he hpre hcont
      rw [hempty] at this
      simp at this
  · have hdest : ∀ p ∈ storyPathsOf s (storiesSubdir ec.root o.normalizedPkgName),
        ∀ q ∈ storyPathsOf s (storiesSubdir ec.root o.normalizedPkgName),
        storyDest o q ≠ p := by
      intro p hp q _ heq
      have hpre : storiesSubdir ec.root o.normalizedPkgName <+: p :=
        (mem_storyPathsOf.mp hp).2.1
      rw [← heq] at hpre
      exact not_prefix_append hsep1 hsep2 ["src", lastSegment q] hpre
    have hread : ∀ p ∈ storyPathsOf s (storiesSubdir ec.root o.normalizedPkgName),
        ∃ c, FsTree.readPath s.tree p = some c ∧ c.asString ≠ "" := by
      intro p hp
      obtain ⟨⟨c, hc⟩, hpre, hcont⟩ := mem_storyPathsOf.mp hp
      refine ⟨c, readPath_eq_some_of_mem_nodup hnodup hc, ?_⟩
      exact hcontents (p, c) hc hpre hcont
    obtain ⟨t', hrun, hreads⟩ := moveStoriesGo_spec o
      (storyPathsOf s (storiesSubdir ec.root o.normalizedPkgName)) s hdest hread
    refine ⟨{ s with tree := t' }, ?_, ?_⟩
    · rw [moveStorybookFromReactExamples]
      simp only [hec, hlen, if_false]
      exact hrun
    · intro e he hpre hcont
      have hpmem := hmemPs e he hpre hcont
      have hinj := List.inj_on_of_nodup_map hbasenames
      have hlww : lastWriter o (storyPathsOf s (storiesSubdir ec.root o.normalizedPkgName))
          (storyDest o e.1) = some e.1 :=
        lastWriter_self o (storyPathsOf_nodup hnodup)
          (fun x hx y hy h => hinj hx hy h) hpmem
      have hgoal := hreads (storyDest o e.1)
      rw [hlww] at hgoal
      have hre : FsTree.readPath s.tree e.1 = some e.2 :=
        readPath_eq_some_of_mem_nodup hnodup he
      simp only [hre, Option.map_some'] at hgoal
      exact hgoal

def c1ExamplesCfg : ProjectConfig := { root := ["packages", "react-examples"] }

def c1StoryContent : String :=
  "import \x7b Button \x7d from '@scope/y';\nexport const A = () => render('@scope/y');"

def c1State : MigState :=
  { tree := [(["packages", "react-examples", "src", "y", "Button.stories.tsx"],
      .text c1StoryContent)]
    registry := [("@scope/y", c5RegY), ("@scope/react-examples", c1ExamplesCfg)]
    npmScope := "scope", tmplTypes := tsconfigTemplateTypes, log := [] }

def c1Options : NormalizedSchema :=
  { name := "@scope/y"
    projectConfig := c5RegY
    normalizedPkgName := "y"
    configRoot := ["packages", "y", "config"]
    packageJsonPath := ["packages", "y", "package.json"]
    tsconfigPath := ["packages", "y", "tsconfig.json"]
    jestConfigPath := ["packages", "y", "jest.config.js"]
    npmConfigPath := ["packages", "y", ".npmignore"]
    rootTsconfigPath := ["tsconfig.base.json"]
    rootJestConfigPath := ["jest.config.js"]
    storybookTsconfigPath := ["packages", "y", ".storybook", "tsconfig.json"]
    storybookMainPath := ["packages", "y", ".storybook", "main.js"]
    storybookPreviewPath := ["packages", "y", ".storybook", "preview.js"] }

/-- The relocated `Button.stories.tsx` as stored in the destination project
after running story relocation on `c1State`. -/
def c1Result : Option FileContent :=
  match moveStorybookFromReactExamples c1State c1Options with
  | .ok s' => FsTree.readPath s'.tree ["packages", "y", "src", "Button.stories.tsx"]
  | .error _ => none

/-- C1 counterexample: the claim says every occurrence of the full package
name is replaced by `./index`, but `String.prototype.replace` with a string
pattern replaces only the first occurrence: on a story containing `@scope/y`
twice, the relocated file still contains `@scope/y` (while the first
occurrence did become `./index`). -/
theorem C1_story_relocation_counterexample :
    normalizeOptions c1State "@scope/y" = .ok c1Options
      ∧ c1Result.map (fun c => strContains c.asString "@scope/y") = some true
      ∧ c1Result.map (fun c => strContains c.asString "./index") = some true := by
  refine ⟨by decide, by decide, by decide⟩

theorem C1_story_relocation_amended_witness :
    c1Result = some (.text (storyTransformed c1StoryContent "@scope/y" "Button")) := by
  obtain ⟨s', hrun, hface⟩ := C1_story_relocation_amended c1State "@scope/y" c1Options
    c1ExamplesCfg (by decide) (by decide) (by decide) (by decide) (by decide)
    (by decide) (by decide)
  have h := hface (["packages", "react-examples", "src", "y", "Button.stories.tsx"],
    .text c1StoryContent) (by decide) (by decide) (by decide)
  rw [c1Result, hrun]
  exact h

theorem storyDest_eq_append_iff (o : NormalizedSchema) (p : FsPath) (f : String) :
    storyDest o p = o.projectConfig.root ++ ["src", f] ↔ lastSegment p = f := by
  rw [storyDest, List.append_right_inj]
  constructor
  · intro h
    have h2 : [lastSegment p] = [f] := (List.cons.injEq _ _ _ _ ▸ h).right
    exact (List.cons.injEq _ _ _ _ ▸ h2).left
  · intro h
    rw [h]

/-- C10: story relocation flattens the directory structure — every matched
story file, at any nesting depth, is written to `<project root>/src/<base
name>`; two matched story files with the same base name therefore share one
destination, and the later-visited file's content wins. -/
theorem C10_story_flattening (s : MigState) (o : NormalizedSchema) (ec : ProjectConfig)
    (f : String) (p1 p2 : FsPath) (c2 : FileContent)
    (hec : getReactExamplesProjectConfig s = some ec)
    (hnodup : (s.tree.map (·.1)).Nodup)
    (hsep1 : ¬ storiesSubdir ec.root o.normalizedPkgName <+: o.projectConfig.root)
    (hsep2 : ¬ o.projectConfig.root <+: storiesSubdir ec.root o.normalizedPkgName)
    (hcontents : ∀ e ∈ s.tree, storiesSubdir ec.root o.normalizedPkgName <+: e.1 →
        strContains (pathToString e.1) ".stories." = true → e.2.asString ≠ "")
    (hfil : (storyPathsOf s (storiesSubdir ec.root o.normalizedPkgName)).filter
        (fun p => lastSegment p == f) = [p1, p2])
    (hc2 : FsTree.readPath s.tree p2 = some c2) :
    ∃ s', moveStorybookFromReactExamples s o = .ok s'
      ∧ (∀ p ∈ storyPathsOf s (storiesSubdir ec.root o.normalizedPkgName),
          (FsTree.readPath s'.tree (storyDest o p)).isSome)
      ∧ FsTree.readPath s'.tree (o.projectConfig.root ++ ["src", f])
          = some (.text (storyTransformed c2.asString o.name (stripStoriesExt f))) := by
  have hp2mem : p2 ∈ storyPathsOf s (storiesSubdir ec.root o.normalizedPkgName) := by
    have : p2 ∈ (storyPathsOf s (storiesSubdir ec.root o.normalizedPkgName)).filter
        (fun p => lastSegment p == f) := by
      rw [hfil]
      simp
    exact List.mem_of_mem_filter this
  have hp2f : lastSegment p2 = f := by
    have : p2 ∈ (storyPathsOf s (storiesSubdir ec.root o.normalizedPkgName)).filter
        (fun p => lastSegment p == f) := by
      rw [hfil]
      simp
    have := List.of_mem_filter this
    simpa using this
  have hlen : ¬ (storyPathsOf s (storiesSubdir ec.root o.normalizedPkgName)).length = 0 := by
    intro h0
    rw [List.length_eq_zero.mp h0] at hfil
    simp at hfil
  have hdest : ∀ p ∈ storyPathsOf s (storiesSubdir ec.root o.normalizedPkgName),
      ∀ q ∈ storyPathsOf s (storiesSubdir ec.root o.normalizedPkgName),
      storyDest o q ≠ p := by
    intro p hp q _ heq
    have hpre : storiesSubdir ec.root o.normalizedPkgName <+: p :=
      (mem_storyPathsOf.mp hp).2.1
    rw [← heq] at hpre
    exact not_prefix_append hsep1 hsep2 ["src", lastSegment q] hpre
  have hread : ∀ p ∈ storyPathsOf s (storiesSubdir ec.root o.normalizedPkgName),
      ∃ c, FsTree.readPath s.tree p = some c ∧ c.asString ≠ "" := by
    intro p hp
    obtain ⟨⟨c, hc⟩, hpre, hcont⟩ := mem_storyPathsOf.mp hp
    refine ⟨c, readPath_eq_some_of_mem_nodup hnodup hc, ?_⟩
    exact hcontents (p, c) hc hpre hcont
  obtain ⟨t', hrun, hreads⟩ := moveStoriesGo_spec o
    (storyPathsOf s (storiesSubdir ec.root o.normalizedPkgName)) s hdest hread
  refine ⟨{ s with tree := t' }, ?_, ?_, ?_⟩
  · rw [moveStorybookFromReactExamples]
    simp only [hec, hlen, if_false]
    exact hrun
  · intro p hp
    have hgoal := hreads (storyDest o p)
    have hself : p ∈ (storyPathsOf s (storiesSubdir ec.root o.normalizedPkgName)).filter
        (fun q => storyDest o q == storyDest o p) := by
      rw [List.mem_filter]
      exact ⟨hp, by simp⟩
    cases hlw : lastWriter o (storyPathsOf s (storiesSubdir ec.root o.normalizedPkgName))
        (storyDest o p) with
    | none =>
      rw [lastWriter, List.getLast?_eq_none_iff] at hlw
      rw [hlw] at hself
      simp at hself
    | some pw =>
      rw [hlw] at hgoal
      have hpwmem : pw ∈ storyPathsOf s (storiesSubdir ec.root o.normalizedPkgName) := by
        rw [lastWriter] at hlw
        exact List.mem_of_mem_filter (List.mem_of_mem_getLast? hlw)
      obtain ⟨cw, hcw, _⟩ := hread pw hpwmem
      simp only [hcw, Option.map_some'] at hgoal
      rw [hgoal]
      rfl
  · have hfil2 : (storyPathsOf s (storiesSubdir ec.root o.normalizedPkgName)).filter
        (fun p => storyDest o p == o.projectConfig.root ++ ["src", f]) = [p1, p2] := by
      rw [← hfil]
      apply List.filter_congr
      intro x _
      cases h : decide (lastSegment x = f) with
      | true =>
        have hx : lastSegment x = f := of_decide_eq_true h
        simp [storyDest_eq_append_iff, hx]
      | false =>
        have hx : ¬ lastSegment x = f := of_decide_eq_false h
        simp [storyDest_eq_append_iff, hx]
    have hlw : lastWriter o (storyPathsOf s (storiesSubdir ec.root o.normalizedPkgName))
        (o.projectConfig.root ++ ["src", f]) = some p2 := by
      rw [lastWriter, hfil2]
      rfl
    have hgoal := hreads (o.projectConfig.root ++ ["src", f])
    rw [hlw] at hgoal
    simp only [hc2, Option.map_some'] at hgoal
    rw [hgoal, storyValue, hp2f]

def c10StoryA : String := "import \x7b Button \x7d from '@scope/y'; // variant A"

def c10StoryB : String := "import \x7b Button \x7d from '@scope/y'; // variant B"

def c10State : MigState :=
  { tree :=
      [(["packages", "react-examples", "src", "y", "alpha", "Button.stories.tsx"],
          .text c10StoryA),
       (["packages", "react-examples", "src", "y", "beta", "Button.stories.tsx"],
          .text c10StoryB)]
    registry := [("@scope/y", c5RegY), ("@scope/react-examples", c1ExamplesCfg)]
    npmScope := "scope", tmplTypes := tsconfigTemplateTypes, log := [] }

/-- The destination file after relocating `c10State`, where two nested story
files share the base name `Button.stories.tsx`. -/
def c10Result : Option FileContent :=
  match moveStorybookFromReactExamples c10State c1Options with
  | .ok s' => FsTree.readPath s'.tree ["packages", "y", "src", "Button.stories.tsx"]
  | .error _ => none

theorem C10_story_flattening_witness :
    c10Result = some (.text (storyTransformed c10StoryB "@scope/y" "Button")) := by
  obtain ⟨s', hrun, _, hlast⟩ := C10_story_flattening c10State c1Options c1ExamplesCfg
    "Button.stories.tsx"
    ["packages", "react-examples", "src", "y", "alpha", "Button.stories.tsx"]
    ["packages", "react-examples", "src", "y", "beta", "Button.stories.tsx"]
    (.text c10StoryB)
    (by decide) (by decide) (by decide) (by decide) (by decide) (by decide) (by decide)
  rw [c10Result, hrun]
  exact hlast

/-! ## Inversion lemmas for the transform steps -/

theorem normalizeOptions_ok {s : MigState} {name : String} {o : NormalizedSchema}
    (h : normalizeOptions s name = .ok o) :
    ∃ cfg, getKey s.registry name = some cfg ∧ o = mkNormalizedOptions s.npmScope name cfg := by
  rw [normalizeOptions, readProjectConfiguration] at h
  cases hg : getKey s.registry name with
  | none => rw [hg] at h; exact absurd h (by simp)
  | some cfg =>
    rw [hg] at h
    simp only [Except.ok.injEq] at h
    exact ⟨cfg, rfl, h.symm⟩

theorem updatedLocalTsConfig_ok {s s' : MigState} {o : NormalizedSchema}
    (h : updatedLocalTsConfig s o = .ok s') :
    ∃ types rest, FsTree.readPath s.tree o.tsconfigPath = some (.localTsConfig types rest)
      ∧ s' = { s with
          tree := (FsTree.writePath s.tree o.tsconfigPath
            (.localTsConfig (some (uniqueArray (s.tmplTypes ++ types.getD [])))
              tsconfigTemplateRest))
          tmplTypes := uniqueArray (s.tmplTypes ++ types.getD []) } := by
  rw [updatedLocalTsConfig] at h
  cases hr : FsTree.readPath s.tree o.tsconfigPath with
  | none => rw [hr] at h; exact absurd h (by simp)
  | some c =>
    rw [hr] at h
    cases c with
    | localTsConfig types rest =>
      simp only [Except.ok.injEq] at h
      exact ⟨types, rest, rfl, h.symm⟩
    | text a => exact absurd h (by simp)
    | packageJson a => exact absurd h (by simp)
    | baseTsConfig a b => exact absurd h (by simp)
    | rootJestConfig a => exact absurd h (by simp)

theorem updatedBaseTsConfig_ok {s s' : MigState} {o : NormalizedSchema}
    (h : updatedBaseTsConfig s o = .ok s') :
    ∃ pj pathsOpt rest, readPackageJson s.tree o.packageJsonPath = some pj
      ∧ FsTree.readPath s.tree o.rootTsconfigPath = some (.baseTsConfig pathsOpt rest)
      ∧ s' = { s with tree := (FsTree.writePath s.tree o.rootTsconfigPath
          (.baseTsConfig (some (updatedPathsMap s o pj (pathsOpt.getD []))) rest)) } := by
  rw [updatedBaseTsConfig] at h
  cases hp : readPackageJson s.tree o.packageJsonPath with
  | none => rw [hp] at h; exact absurd h (by simp)
  | some pj =>
    rw [hp] at h
    cases hr : FsTree.readPath s.tree o.rootTsconfigPath with
    | none => rw [hr] at h; exact absurd h (by simp)
    | some c =>
      rw [hr] at h
      cases c with
      | baseTsConfig pathsOpt rest =>
        simp only [Except.ok.injEq] at h
        exact ⟨pj, pathsOpt, rest, rfl, rfl, h.symm⟩
      | text a => exact absurd h (by simp)
      | packageJson a => exact absurd h (by simp)
      | localTsConfig a b => exact absurd h (by simp)
      | rootJestConfig a => exact absurd h (by simp)

theorem updateLocalJestConfig_ok {s s' : MigState} {o : NormalizedSchema}
    (h : updateLocalJestConfig s o = .ok s') :
    ∃ pj, readPackageJson s.tree o.packageJsonPath = some pj
      ∧ s' = { s with tree := localJestTree s o pj } := by
  rw [updateLocalJestConfig] at h
  cases hp : readPackageJson s.tree o.packageJsonPath with
  | none => rw [hp] at h; exact absurd h (by simp)
  | some pj =>
    rw [hp] at h
    simp only [Except.ok.injEq] at h
    exact ⟨pj, rfl, h.symm⟩

theorem updateRootJestConfig_ok {s s' : MigState} {o : NormalizedSchema}
    (h : updateRootJestConfig s o = .ok s') :
    ∃ projects, FsTree.readPath s.tree ["jest.config.js"] = some (.rootJestConfig projects)
      ∧ s' = { s with tree := (FsTree.writePath s.tree ["jest.config.js"]
          (.rootJestConfig (if projects.contains o.name then projects
                            else projects ++ [o.name]))) } := by
  rw [updateRootJestConfig, updateJestConfigUtil] at h
  cases hr : FsTree.readPath s.tree ["jest.config.js"] with
  | none => rw [hr] at h; exact absurd h (by simp)
  | some c =>
    rw [hr] at h
    cases c with
    | rootJestConfig projects =>
      simp only [Except.ok.injEq] at h
      exact ⟨projects, rfl, h.symm⟩
    | text a => exact absurd h (by simp)
    | packageJson a => exact absurd h (by simp)
    | localTsConfig a b => exact absurd h (by simp)
    | baseTsConfig a b => exact absurd h (by simp)

theorem updateNpmScripts_ok {s s' : MigState} {o : NormalizedSchema}
    (h : updateNpmScripts s o = .ok s') :
    ∃ pj scripts, readPackageJson s.tree o.packageJsonPath = some pj
      ∧ pj.scripts = some scripts
      ∧ s' = { s with tree := (FsTree.writePath s.tree o.packageJsonPath
          (.packageJson { pj with
            scripts := some (rewrittenScripts o.normalizedPkgName scripts) })) } := by
  rw [updateNpmScripts] at h
  split at h
  · exact absurd h (by simp)
  · rename_i pj hp
    split at h
    · exact absurd h (by simp)
    · rename_i scripts hs
      simp only [Except.ok.injEq] at h
      exact ⟨pj, scripts, hp, hs, h.symm⟩

theorem setupStorybook_ok {s s' : MigState} {o : NormalizedSchema}
    (h : setupStorybook s o = .ok s') :
    s' = { s with tree :=
      (FsTree.writePath
        (FsTree.writePath
          (FsTree.writePath s.tree o.storybookTsconfigPath (.text storybookTsconfigTemplate))
          o.storybookMainPath (.text storybookMainTemplate))
        o.storybookPreviewPath (.text storybookPreviewTemplate)) } := by
  rw [setupStorybook] at h
  simp only [Except.ok.injEq] at h
  exact h.symm

theorem updateApiExtractorForLocalBuilds_ok {s s' : MigState} {o : NormalizedSchema}
    (h : updateApiExtractorForLocalBuilds s o = .ok s') :
    s' = { s with tree :=
      (FsTree.writePath
        (FsTree.writePath s.tree (o.configRoot ++ ["api-extractor.local.json"])
          (.text apiExtractorLocalTemplate))
        (o.configRoot ++ ["api-extractor.json"]) (.text apiExtractorTemplate)) } := by
  rw [updateApiExtractorForLocalBuilds] at h
  simp only [Except.ok.injEq] at h
  exact h.symm

theorem setupNpmConfig_ok {s s' : MigState} {o : NormalizedSchema}
    (h : setupNpmConfig s o = .ok s') :
    s' = { s with tree := FsTree.writePath s.tree o.npmConfigPath (.text npmIgnoreTemplate) } := by
  rw [setupNpmConfig] at h
  simp only [Except.ok.injEq] at h
  exact h.symm

theorem updateNxWorkspace_ok {s s' : MigState} {o : NormalizedSchema}
    (h : updateNxWorkspace s o = .ok s') :
    s' = { s with registry := (setKey s.registry o.name
      { o.projectConfig with
        sourceRoot := some (o.projectConfig.root ++ ["src"])
        tags := some (uniqueArray ((o.projectConfig.tags.getD [])
          ++ ["vNext", "platform:web"])) }) } := by
  rw [updateNxWorkspace] at h
  simp only [Except.ok.injEq] at h
  exact h.symm

/-! ## Frame lemmas: story relocation and examples cleanup -/

/-- The version recorded in the manifest at `<r>/package.json`. -/
def versionAt (t : FsTree) (r : FsPath) : Option String :=
  (readPackageJson t (r ++ ["package.json"])).map (·.version)

theorem convergedAt_eq_versionAt (t : FsTree) (c : ProjectConfig) :
    convergedAt t c = (versionAt t c.root).map (fun v => jsStartsWith v "9.") := by
  rw [convergedAt, versionAt, Option.map_map]
  rfl

theorem isPackageConverged_eq_ok_iff (t : FsTree) (c : ProjectConfig) (b : Bool) :
    isPackageConverged t c = .ok b ↔ convergedAt t c = some b := by
  rw [isPackageConverged, convergedAt]
  cases readPackageJson t (c.root ++ ["package.json"]) <;> simp

theorem moveStoriesGo_frame (o : NormalizedSchema) (ps : List FsPath) :
    ∀ s s' : MigState, moveStoriesGo o s ps = .ok s' →
      s'.registry = s.registry ∧ s'.npmScope = s.npmScope ∧ s'.tmplTypes = s.tmplTypes
        ∧ s'.log = s.log
        ∧ ∀ q, ¬ (o.projectConfig.root ++ ["src"]) <+: q →
            FsTree.readPath s'.tree q = FsTree.readPath s.tree q := by
  induction ps with
  | nil =>
    intro s s' h
    rw [moveStoriesGo] at h
    simp only [Except.ok.injEq] at h
    subst h
    exact ⟨rfl, rfl, rfl, rfl, fun q _ => rfl⟩
  | cons p rest ih =>
    intro s s' h
    rw [moveStoriesGo] at h
    split at h
    · exact absurd h (by simp)
    · rename_i c hc
      dsimp only [] at h
      split at h
      · exact absurd h (by simp)
      · rename_i hne
        obtain ⟨h1, h2, h3, h4, h5⟩ := ih _ _ h
        refine ⟨h1, h2, h3, h4, fun q hq => ?_⟩
        rw [h5 q hq]
        apply readPath_writePath_ne
        intro heq
        apply hq
        rw [heq]
        have hsplit : o.projectConfig.root ++ ["src", lastSegment p]
            = (o.projectConfig.root ++ ["src"]) ++ [lastSegment p] := by
          simp
        rw [hsplit]
        exact List.prefix_append _ _

theorem moveStorybook_ok_spec {s s' : MigState} {o : NormalizedSchema}
    (h : moveStorybookFromReactExamples s o = .ok s') :
    ∃ ec, getReactExamplesProjectConfig s = some ec
      ∧ s'.registry = s.registry ∧ s'.npmScope = s.npmScope ∧ s'.tmplTypes = s.tmplTypes
      ∧ (∃ dl, s'.log = s.log ++ dl ∧ ∀ e ∈ dl, e.type = .warn)
      ∧ ∀ q, ¬ (o.projectConfig.root ++ ["src"]) <+: q →
          FsTree.readPath s'.tree q = FsTree.readPath s.tree q := by
  rw [moveStorybookFromReactExamples] at h
  cases hec : getReactExamplesProjectConfig s with
  | none => rw [hec] at h; exact absurd h (by simp)
  | some ec =>
    rw [hec] at h
    dsimp only [] at h
    split at h
    · simp only [Except.ok.injEq] at h
      subst h
      exact ⟨ec, rfl, rfl, rfl, rfl, ⟨[⟨.warn, noStoriesMessage⟩], rfl, by simp⟩,
        fun q _ => rfl⟩
    · obtain ⟨h1, h2, h3, h4, h5⟩ := moveStoriesGo_frame o _ _ _ h
      exact ⟨ec, rfl, h1, h2, h3, ⟨[], by simp [h4], by simp⟩, h5⟩

theorem subdir_not_prefix_own_manifest (er : FsPath) (pkg : String) :
    ¬ storiesSubdir er pkg <+: er ++ ["package.json"] := by
  intro h
  rw [storiesSubdir] at h
  have := h.length_le
  simp [List.length_append] at this

theorem removeMigrated_ok_spec {s s' : MigState} {o : NormalizedSchema}
    (h : removeMigratedPackageFromReactExamples s o = .ok s') :
    ∃ ec, getReactExamplesProjectConfig s = some ec
      ∧ s'.registry = s.registry ∧ s'.npmScope = s.npmScope ∧ s'.tmplTypes = s.tmplTypes
      ∧ (∃ dl, s'.log = s.log ++ dl ∧ ∀ e ∈ dl, e.type = .warn)
      ∧ (∀ r, ¬ storiesSubdir ec.root o.normalizedPkgName <+: (r ++ ["package.json"]) →
          versionAt s'.tree r = versionAt s.tree r)
      ∧ (∀ q, ¬ storiesSubdir ec.root o.normalizedPkgName <+: q →
          q ≠ ec.root ++ ["package.json"] →
          FsTree.readPath s'.tree q = FsTree.readPath s.tree q) := by
  rw [removeMigratedPackageFromReactExamples] at h
  cases hec : getReactExamplesProjectConfig s with
  | none => rw [hec] at h; exact absurd h (by simp)
  | some ec =>
    rw [hec] at h
    dsimp only [] at h
    split at h
    · split at h
      · exact absurd h (by simp)
      · rename_i pj hpj
        simp only [Except.ok.injEq] at h
        subst h
        refine ⟨ec, rfl, rfl, rfl, rfl, ⟨_, rfl, by simp⟩, ?_, ?_⟩
        · intro r hr
          rw [versionAt, versionAt, readPackageJson, readPackageJson]
          by_cases hre : r ++ ["package.json"] = ec.root ++ ["package.json"]
          · rw [hre, readPath_writePath_self]
            rw [readPackageJson] at hpj
            have hdel := readPath_deletePath s.tree
              (storiesSubdir ec.root o.normalizedPkgName) (ec.root ++ ["package.json"])
            rw [if_neg (subdir_not_prefix_own_manifest ec.root o.normalizedPkgName)] at hdel
            rw [hdel] at hpj
            cases hread : FsTree.readPath s.tree (ec.root ++ ["package.json"]) with
            | none => rw [hread] at hpj; exact absurd hpj (by simp)
            | some c =>
              rw [hread] at hpj
              cases c with
              | packageJson pj0 =>
                simp only [Option.some.injEq] at hpj
                subst hpj
                simp
              | text a => exact absurd hpj (by simp)
              | localTsConfig a b => exact absurd hpj (by simp)
              | baseTsConfig a b => exact absurd hpj (by simp)
              | rootJestConfig a => exact absurd hpj (by simp)
          · rw [readPath_writePath_ne _ _ _ _ hre]
            have hdel := readPath_deletePath s.tree
              (storiesSubdir ec.root o.normalizedPkgName) (r ++ ["package.json"])
            rw [if_neg hr] at hdel
            rw [hdel]
        · intro q hq hqe
          rw [readPath_writePath_ne _ _ _ _ hqe]
          have hdel := readPath_deletePath s.tree
            (storiesSubdir ec.root o.normalizedPkgName) q
          rw [if_neg hq] at hdel
          rw [hdel]
    · simp only [Except.ok.injEq] at h
      subst h
      exact ⟨ec, rfl, rfl, rfl, rfl, ⟨[], by simp, by simp⟩, fun r _ => rfl, fun q _ _ => rfl⟩

/-! ## Path arithmetic helpers for the frame argument -/

theorem exceptBind_ok {ε α β : Type} {x : Except ε α} {f : α → Except ε β} {b : β}
    (h : (x >>= f) = .ok b) : ∃ a, x = .ok a ∧ f a = .ok b := by
  cases x with
  | error e => exact absurd h (by simp [Bind.bind, Except.bind])
  | ok a => exact ⟨a, rfl, by simpa [Bind.bind, Except.bind] using h⟩

theorem append_ne_manifest {R r rest : FsPath} (hnp : ¬ R <+: r) (hrest : rest ≠ []) :
    R ++ rest ≠ r ++ ["package.json"] := by
  intro h
  rcases le_or_lt R.length r.length with hle | hlt
  · apply hnp
    have hRq : R <+: r ++ ["package.json"] := h ▸ List.prefix_append R rest
    exact List.prefix_of_prefix_length_le hRq (List.prefix_append r _) hle
  · have hlen := congrArg List.length h
    have h1 : 1 ≤ rest.length := List.length_pos.mpr hrest
    simp [List.length_append] at hlen
    omega

theorem manifest_ne_singleton {r : FsPath} {x : String} (hx : x ≠ "package.json") :
    ([x] : FsPath) ≠ r ++ ["package.json"] := by
  intro h
  cases r with
  | nil => simp at h; exact hx h
  | cons a l =>
    have := congrArg List.length h
    simp [List.length_append] at this

theorem append_cons_not_prefix_manifest {R r : FsPath} (a : String) (suffix : FsPath)
    (hnp : ¬ R <+: r) : ¬ (R ++ (a :: suffix)) <+: (r ++ ["package.json"]) := by
  intro h
  have hR : R <+: r ++ ["package.json"] := (List.prefix_append R (a :: suffix)).trans h
  have hlen := h.length_le
  simp [List.length_append] at hlen
  exact hnp (List.prefix_of_prefix_length_le hR (List.prefix_append r _) (by omega))

theorem manifest_ne_manifest {a r : FsPath} (hnp : ¬ a <+: r) :
    a ++ ["package.json"] ≠ r ++ ["package.json"] := by
  intro h
  obtain ⟨h1, -⟩ := List.append_inj' h rfl
  exact hnp (h1 ▸ List.prefix_refl r)

/-- `versionAt` is untouched by a write to any non-manifest path. -/
theorem versionAt_writePath_ne (t : FsTree) (p : FsPath) (c : FileContent) (r : FsPath)
    (h : p ≠ r ++ ["package.json"]) :
    versionAt (FsTree.writePath t p c) r = versionAt t r := by
  rw [versionAt, versionAt, readPackageJson, readPackageJson,
    readPath_writePath_ne _ _ _ _ (Ne.symm h)]

theorem versionAt_congr {t1 t2 : FsTree} {r : FsPath}
    (h : FsTree.readPath t1 (r ++ ["package.json"]) = FsTree.readPath t2 (r ++ ["package.json"])) :
    versionAt t1 r = versionAt t2 r := by
  rw [versionAt, versionAt, readPackageJson, readPackageJson, h]

theorem versionAt_localJestTree (s : MigState) (o : NormalizedSchema) (pj : PackageJson)
    (r : FsPath)
    (h1 : o.jestConfigPath ≠ r ++ ["package.json"])
    (h2 : o.configRoot ++ ["tests.js"] ≠ r ++ ["package.json"]) :
    versionAt (localJestTree s o pj) r = versionAt s.tree r := by
  rw [localJestTree]
  split
  · exact versionAt_writePath_ne _ _ _ _ h1
  · rw [versionAt_writePath_ne _ _ _ _ h2, versionAt_writePath_ne _ _ _ _ h1]

/-- Everything a successful single-project migration guarantees about state
components other than the written files: the workspace scope is unchanged,
registry entries keep their roots, the user log only gains warning entries,
and the manifest version of any project that is not nested inside the
migrated project's root (and is either unrelated to or exactly the examples
project) is untouched. -/
theorem runMigration_ok_spec {s s' : MigState} {n : String}
    (h : runMigrationOnProject s n = .ok s') :
    s'.npmScope = s.npmScope
      ∧ (∀ m, (getKey s'.registry m).map (·.root) = (getKey s.registry m).map (·.root))
      ∧ (∃ dl, s'.log = s.log ++ dl ∧ ∀ e ∈ dl, e.type = .warn)
      ∧ ∀ r : FsPath,
          (∀ cfg, getKey s.registry n = some cfg → ¬ cfg.root <+: r) →
          (∀ cfg, getKey s.registry ("@" ++ s.npmScope ++ "/react-examples") = some cfg →
            ¬ cfg.root <+: r ∨ cfg.root = r) →
          versionAt s'.tree r = versionAt s.tree r := by
  rw [runMigrationOnProject] at h
  obtain ⟨o, ho, h⟩ := exceptBind_ok h
  obtain ⟨s1, h1, h⟩ := exceptBind_ok h
  obtain ⟨s2, h2, h⟩ := exceptBind_ok h
  obtain ⟨s3, h3, h⟩ := exceptBind_ok h
  obtain ⟨s4, h4, h⟩ := exceptBind_ok h
  obtain ⟨s5, h5, h⟩ := exceptBind_ok h
  obtain ⟨s6, h6, h⟩ := exceptBind_ok h
  obtain ⟨s7, h7, h⟩ := exceptBind_ok h
  obtain ⟨s8, h8, h⟩ := exceptBind_ok h
  obtain ⟨s9, h9, h⟩ := exceptBind_ok h
  obtain ⟨s10, h10, h11⟩ := exceptBind_ok h
  obtain ⟨cfg, hcfg, rfl⟩ := normalizeOptions_ok ho
  obtain ⟨types1, rest1, hread1, hs1⟩ := updatedLocalTsConfig_ok h1
  obtain ⟨pj2, paths2, rest2, hread2a, hread2b, hs2⟩ := updatedBaseTsConfig_ok h2
  obtain ⟨pj3, hread3, hs3⟩ := updateLocalJestConfig_ok h3
  obtain ⟨projs4, hread4, hs4⟩ := updateRootJestConfig_ok h4
  have hs5 := setupStorybook_ok h5
  obtain ⟨ec6, hec6, hreg6, hscope6, htmpl6, ⟨dl6, hlog6, hdl6⟩, hframe6⟩ :=
    moveStorybook_ok_spec h6
  obtain ⟨ec7, hec7, hreg7, hscope7, htmpl7, ⟨dl7, hlog7, hdl7⟩, hver7, hframe7⟩ :=
    removeMigrated_ok_spec h7
  obtain ⟨pj8, scr8, hread8a, hread8b, hs8⟩ := updateNpmScripts_ok h8
  have hs9 := updateApiExtractorForLocalBuilds_ok h9
  have hs10 := setupNpmConfig_ok h10
  have hs11 := updateNxWorkspace_ok h11
  have hreg1 : s1.registry = s.registry := by rw [hs1]
  have hreg2 : s2.registry = s1.registry := by rw [hs2]
  have hreg3 : s3.registry = s2.registry := by rw [hs3]
  have hreg4 : s4.registry = s3.registry := by rw [hs4]
  have hreg5 : s5.registry = s4.registry := by rw [hs5]
  have hreg8 : s8.registry = s7.registry := by rw [hs8]
  have hreg9 : s9.registry = s8.registry := by rw [hs9]
  have hreg10 : s10.registry = s9.registry := by rw [hs10]
  have hregAll : s10.registry = s.registry := by
    rw [hreg10, hreg9, hreg8, hreg7, hreg6, hreg5, hreg4, hreg3, hreg2, hreg1]
  have hscope1 : s1.npmScope = s.npmScope := by rw [hs1]
  have hscope2 : s2.npmScope = s1.npmScope := by rw [hs2]
  have hscope3 : s3.npmScope = s2.npmScope := by rw [hs3]
  have hscope4 : s4.npmScope = s3.npmScope := by rw [hs4]
  have hscope5 : s5.npmScope = s4.npmScope := by rw [hs5]
  have hscope8 : s8.npmScope = s7.npmScope := by rw [hs8]
  have hscope9 : s9.npmScope = s8.npmScope := by rw [hs9]
  have hscope10 : s10.npmScope = s9.npmScope := by rw [hs10]
  have hscopeAll : s10.npmScope = s.npmScope := by
    rw [hscope10, hscope9, hscope8, hscope7, hscope6, hscope5, hscope4, hscope3,
      hscope2, hscope1]
  have hscopeFin : s'.npmScope = s.npmScope := by
    rw [hs11]
    exact hscopeAll
  have hlog1 : s1.log = s.log := by rw [hs1]
  have hlog2 : s2.log = s1.log := by rw [hs2]
  have hlog3 : s3.log = s2.log := by rw [hs3]
  have hlog4 : s4.log = s3.log := by rw [hs4]
  have hlog5 : s5.log = s4.log := by rw [hs5]
  have hlog8 : s8.log = s7.log := by rw [hs8]
  have hlog9 : s9.log = s8.log := by rw [hs9]
  have hlog10 : s10.log = s9.log := by rw [hs10]
  refine ⟨hscopeFin, ?_, ?_, ?_⟩
  · intro m
    rw [hs11]
    simp only [mkNormalizedOptions]
    by_cases hm : m = n
    · subst hm
      rw [hregAll]
      rw [getKey_setKey_self, hcfg]
      rfl
    · rw [hregAll, getKey_setKey_ne _ _ _ _ hm]
  · refine ⟨dl6 ++ dl7, ?_, ?_⟩
    · rw [hs11]
      show s10.log = _
      rw [hlog10, hlog9, hlog8, hlog7, hlog6, hlog5, hlog4, hlog3, hlog2, hlog1,
        List.append_assoc]
    · intro e he
      rcases List.mem_append.mp he with he | he
      · exact hdl6 e he
      · exact hdl7 e he
  · intro r hP hE
    have hnp : ¬ cfg.root <+: r := hP cfg hcfg
    have hnpc : ¬ (cfg.root ++ ["config"]) <+: r := fun hcontra =>
      hnp ((List.prefix_append cfg.root ["config"]).trans hcontra)
    have hne1 : cfg.root ++ ["tsconfig.json"] ≠ r ++ ["package.json"] :=
      append_ne_manifest hnp (by simp)
    have hne2 : (["tsconfig.base.json"] : FsPath) ≠ r ++ ["package.json"] :=
      manifest_ne_singleton (by decide)
    have hne3a : cfg.root ++ ["jest.config.js"] ≠ r ++ ["package.json"] :=
      append_ne_manifest hnp (by simp)
    have hne3b : (cfg.root ++ ["config"]) ++ ["tests.js"] ≠ r ++ ["package.json"] :=
      append_ne_manifest hnpc (by simp)
    have hne4 : (["jest.config.js"] : FsPath) ≠ r ++ ["package.json"] :=
      manifest_ne_singleton (by decide)
    have hne5a : cfg.root ++ [".storybook", "tsconfig.json"] ≠ r ++ ["package.json"] :=
      append_ne_manifest hnp (by simp)
    have hne5b : cfg.root ++ [".storybook", "main.js"] ≠ r ++ ["package.json"] :=
      append_ne_manifest hnp (by simp)
    have hne5c : cfg.root ++ [".storybook", "preview.js"] ≠ r ++ ["package.json"] :=
      append_ne_manifest hnp (by simp)
    have hne8 : cfg.root ++ ["package.json"] ≠ r ++ ["package.json"] :=
      manifest_ne_manifest hnp
    have hne9a : (cfg.root ++ ["config"]) ++ ["api-extractor.local.json"]
        ≠ r ++ ["package.json"] := append_ne_manifest hnpc (by simp)
    have hne9b : (cfg.root ++ ["config"]) ++ ["api-extractor.json"]
        ≠ r ++ ["package.json"] := append_ne_manifest hnpc (by simp)
    have hne10 : cfg.root ++ [".npmignore"] ≠ r ++ ["package.json"] :=
      append_ne_manifest hnp (by simp)
    have hv1 : versionAt s1.tree r = versionAt s.tree r := by
      rw [hs1]
      exact versionAt_writePath_ne _ _ _ _ hne1
    have hv2 : versionAt s2.tree r = versionAt s1.tree r := by
      rw [hs2]
      exact versionAt_writePath_ne _ _ _ _ hne2
    have hv3 : versionAt s3.tree r = versionAt s2.tree r := by
      rw [hs3]
      exact versionAt_localJestTree _ _ _ _ hne3a hne3b
    have hv4 : versionAt s4.tree r = versionAt s3.tree r := by
      rw [hs4]
      exact versionAt_writePath_ne _ _ _ _ hne4
    have hv5 : versionAt s5.tree r = versionAt s4.tree r := by
      rw [hs5]
      exact (versionAt_writePath_ne _ _ _ _ hne5c).trans
        ((versionAt_writePath_ne _ _ _ _ hne5b).trans (versionAt_writePath_ne _ _ _ _ hne5a))
    have hv6 : versionAt s6.tree r = versionAt s5.tree r := by
      refine versionAt_congr (hframe6 _ ?_)
      exact append_cons_not_prefix_manifest "src" [] hnp
    have hv7 : versionAt s7.tree r = versionAt s6.tree r := by
      apply hver7
      have hecS : getKey s.registry ("@" ++ s.npmScope ++ "/react-examples") = some ec7 := by
        rw [← hec7, getReactExamplesProjectConfig]
        rw [hreg6, hreg5, hreg4, hreg3, hreg2, hreg1]
        rw [hscope6, hscope5, hscope4, hscope3, hscope2, hscope1]
      rcases hE ec7 hecS with hcase | hcase
      · exact append_cons_not_prefix_manifest "src"
          [(mkNormalizedOptions s.npmScope n cfg).normalizedPkgName] hcase
      · rw [← hcase]
        exact subdir_not_prefix_own_manifest ec7.root _
    have hv8 : versionAt s8.tree r = versionAt s7.tree r := by
      rw [hs8]
      exact versionAt_writePath_ne _ _ _ _ hne8
    have hv9 : versionAt s9.tree r = versionAt s8.tree r := by
      rw [hs9]
      exact (versionAt_writePath_ne _ _ _ _ hne9b).trans (versionAt_writePath_ne _ _ _ _ hne9a)
    have hv10 : versionAt s10.tree r = versionAt s9.tree r := by
      rw [hs10]
      exact versionAt_writePath_ne _ _ _ _ hne10
    have hv11 : versionAt s'.tree r = versionAt s10.tree r := by
      rw [hs11]
    rw [hv11, hv10, hv9, hv8, hv7, hv6, hv5, hv4, hv3, hv2, hv1]


/-! ## Claim C3 — batch behavior -/

theorem mem_of_getKey {α : Type} {m : List (String × α)} {k : String} {v : α}
    (h : getKey m k = some v) : (k, v) ∈ m := by
  induction m with
  | nil => simp [getKey, List.find?] at h
  | cons e rest ih =>
    rw [getKey_cons] at h
    by_cases he : e.1 = k
    · rw [if_pos he] at h
      simp only [Option.some.injEq] at h
      have hkv : (k, v) = e := by rw [← he, ← h]
      rw [hkv]
      exact List.mem_cons_self _ _
    · rw [if_neg he] at h
      exact List.mem_cons_of_mem _ (ih h)

theorem getKey_eq_some_of_mem_nodup {α : Type} {m : List (String × α)} {k : String} {v : α}
    (hn : (m.map (·.1)).Nodup) (h : (k, v) ∈ m) : getKey m k = some v := by
  induction m with
  | nil => simp at h
  | cons e rest ih =>
    rw [List.map_cons, List.nodup_cons] at hn
    rcases List.mem_cons.mp h with h | h
    · rw [← h, getKey_cons, if_pos rfl]
    · have hne : e.1 ≠ k := by
        intro hcontra
        exact hn.1 (hcontra ▸ List.mem_map_of_mem (·.1) h)
      rw [getKey_cons, if_neg hne]
      exact ih hn.2 h

/-- The batch behaviour the (amended) claim describes, with the eligibility
of each project decided against the initial tree `t0`: an ineligible project
appends exactly one `error`-severity log entry and is skipped, the batch
continues, and every eligible project runs the full migration sequence. -/
def expectedBatchGo (t0 : FsTree) : MigState → List (String × ProjectConfig) → Except Err MigState
  | s, [] => .ok s
  | s, (projectName, project) :: rest =>
    if convergedAt t0 project == some true then
      match runMigrationOnProject s projectName with
      | .error e => .error e
      | .ok s1 => expectedBatchGo t0 s1 rest
    else
      expectedBatchGo t0 { s with log := s.log ++ [⟨.error, skipMessage projectName⟩] } rest

theorem runBatchGo_eq_expected (s0 : MigState)
    (hnames0 : (s0.registry.map (·.1)).Nodup)
    (hnest : ∀ e1 ∈ s0.registry, ∀ e2 ∈ s0.registry, e1.1 ≠ e2.1 →
      ¬ e1.2.root <+: e2.2.root) :
    ∀ (snap : List (String × ProjectConfig)) (s : MigState),
    (∀ e ∈ snap, e ∈ s0.registry) →
    ((snap.map (·.1)).Nodup) →
    (∀ e ∈ snap, convergedAt s0.tree e.2 ≠ none) →
    (s.npmScope = s0.npmScope) →
    (∀ m, (getKey s.registry m).map (·.root) = (getKey s0.registry m).map (·.root)) →
    (∀ e ∈ snap, versionAt s.tree e.2.root = versionAt s0.tree e.2.root) →
    runBatchMigrationGo s snap = expectedBatchGo s0.tree s snap := by
  intro snap
  induction snap with
  | nil => intro s _ _ _ _ _ _; rfl
  | cons e rest ih =>
    obtain ⟨n, c⟩ := e
    intro s hsub hnames hreadable hscope hroots hv
    have hcA : convergedAt s.tree c = convergedAt s0.tree c := by
      rw [convergedAt_eq_versionAt, convergedAt_eq_versionAt, hv (n, c) (by simp)]
    have hcne : convergedAt s0.tree c ≠ none := hreadable (n, c) (by simp)
    rw [runBatchMigrationGo, expectedBatchGo]
    cases hconv : convergedAt s0.tree c with
    | none => exact absurd hconv hcne
    | some b =>
      have hipc : isPackageConverged s.tree c = .ok b :=
        (isPackageConverged_eq_ok_iff _ _ _).mpr (hcA.trans hconv)
      rw [hipc]
      cases b with
      | false =>
        have hfalse : ((some false : Option Bool) == some true) = false := rfl
        rw [hfalse]
        simp only [Bool.false_eq_true, if_false]
        exact ih _ (fun e' he' => hsub e' (by simp [he']))
          (by simpa using hnames.of_cons)
          (fun e' he' => hreadable e' (by simp [he'])) hscope hroots
          (fun e' he' => hv e' (by simp [he']))
      | true =>
        have htrue : ((some true : Option Bool) == some true) = true := rfl
        rw [htrue]
        rw [if_pos rfl]
        cases hmig : runMigrationOnProject s n with
        | error e => rfl
        | ok s1 =>
          obtain ⟨hscope1, hroots1, -, hver1⟩ := runMigration_ok_spec hmig
          refine ih s1 (fun e' he' => hsub e' (by simp [he']))
            (by simpa using hnames.of_cons)
            (fun e' he' => hreadable e' (by simp [he']))
            (hscope1.trans hscope)
            (fun m => (hroots1 m).trans (hroots m))
            (fun e' he' => ?_)
          have hnmem : n ∉ rest.map (·.1) := by
            rw [List.map_cons, List.nodup_cons] at hnames
            exact hnames.1
          have hne' : n ≠ e'.1 := by
            intro hcontra
            exact hnmem (hcontra ▸ List.mem_map_of_mem (·.1) he')
          have he'0 : e' ∈ s0.registry := hsub e' (by simp [he'])
          have hP : ∀ cfg, getKey s.registry n = some cfg → ¬ cfg.root <+: e'.2.root := by
            intro cfg hc
            have hr := hroots n
            rw [hc] at hr
            cases hc0 : getKey s0.registry n with
            | none => rw [hc0] at hr; exact absurd hr (by simp)
            | some c0 =>
              rw [hc0] at hr
              simp only [Option.map_some', Option.some.injEq] at hr
              have hmem0 : (n, c0) ∈ s0.registry := mem_of_getKey hc0
              have := hnest (n, c0) hmem0 e' he'0 hne'
              rw [hr]
              exact this
          have hE : ∀ cfg, getKey s.registry ("@" ++ s.npmScope ++ "/react-examples") = some cfg →
              ¬ cfg.root <+: e'.2.root ∨ cfg.root = e'.2.root := by
            intro cfg hc
            have hr := hroots ("@" ++ s.npmScope ++ "/react-examples")
            rw [hc] at hr
            cases hc0 : getKey s0.registry ("@" ++ s.npmScope ++ "/react-examples") with
            | none => rw [hc0] at hr; exact absurd hr (by simp)
            | some c0 =>
              rw [hc0] at hr
              simp only [Option.map_some', Option.some.injEq] at hr
              have hmem0 : ("@" ++ s.npmScope ++ "/react-examples", c0) ∈ s0.registry :=
                mem_of_getKey hc0
              by_cases hname : "@" ++ s.npmScope ++ "/react-examples" = e'.1
              · right
                have he'entry : (e'.1, e'.2) ∈ s0.registry := he'0
                have hgk := getKey_eq_some_of_mem_nodup hnames0 he'entry
                rw [hname] at hc0
                rw [hc0] at hgk
                simp only [Option.some.injEq] at hgk
                rw [hr, hgk]
              · left
                rw [hr]
                exact hnest _ hmem0 e' he'0 hname
          exact ((hver1 e'.2.root hP hE).trans (hv e' (by simp [he'])))

/-- C3 (amended): in a batch run, every project whose manifest version does
not pass the converged test is skipped with exactly one `error`-severity log
entry (the source logs the skip at `error`, not `warn`, severity), the batch
continues, and every eligible project runs the full transform-step sequence;
moreover migrations themselves only add `warn`-severity entries, so the skip
entries are exactly the error-severity entries added by the batch. -/
theorem C3_batch_skips_and_continues (s0 : MigState)
    (hnames0 : (s0.registry.map (·.1)).Nodup)
    (hnest : ∀ e1 ∈ s0.registry, ∀ e2 ∈ s0.registry, e1.1 ≠ e2.1 →
      ¬ e1.2.root <+: e2.2.root)
    (hreadable : ∀ e ∈ s0.registry, convergedAt s0.tree e.2 ≠ none) :
    runBatchMigration s0 = expectedBatchGo s0.tree s0 s0.registry
      ∧ ∀ (s1 s2 : MigState) (n : String), runMigrationOnProject s1 n = .ok s2 →
          ∃ dl, s2.log = s1.log ++ dl ∧ ∀ e ∈ dl, e.type = .warn := by
  constructor
  · rw [runBatchMigration]
    exact runBatchGo_eq_expected s0 hnames0 hnest s0.registry s0 (fun e he => he) hnames0
      hreadable rfl (fun m => rfl) (fun e he => rfl)
  · intro s1 s2 n h
    exact (runMigration_ok_spec h).2.2.1

def c3Manifest (v : String) : PackageJson :=
  { version := v, scripts := none, dependencies := none, rest := "" }

/-- A batch state with a single registered project whose manifest version
`8.2.7` fails the converged test. -/
def c3CEState : MigState :=
  { tree := [(["packages", "b", "package.json"], .packageJson (c3Manifest "8.2.7"))]
    registry := [("@scope/b", { root := ["packages", "b"] })]
    npmScope := "scope", tmplTypes := tsconfigTemplateTypes, log := [] }

/-- C3 counterexample: the claim says an ineligible project is skipped with a
*warning* appended to the log, but the source pushes the skip entry with
`type: 'error'`: on a batch whose only project has version `8.2.7`, the run
succeeds (the batch continues) with exactly one log entry, and that entry has
`error` severity, not `warn`. -/
theorem C3_batch_skips_counterexample :
    (runBatchMigration c3CEState).map
        (fun s' => s'.log.map (fun e => (e.type, e.message)))
      = .ok [(LogType.error, skipMessage "@scope/b")] := by
  decide

/-- A two-project batch state: `@scope/a` is converged (`9.0.0`) and
`@scope/b` is not (`8.2.7`). -/
def c3WState : MigState :=
  { tree :=
      [(["packages", "a", "package.json"], .packageJson (c3Manifest "9.0.0")),
       (["packages", "b", "package.json"], .packageJson (c3Manifest "8.2.7"))]
    registry := [("@scope/a", { root := ["packages", "a"] }),
                 ("@scope/b", { root := ["packages", "b"] })]
    npmScope := "scope", tmplTypes := tsconfigTemplateTypes, log := [] }

theorem C3_batch_skips_and_continues_witness :
    runBatchMigration c3WState = expectedBatchGo c3WState.tree c3WState c3WState.registry
      ∧ ∀ (s1 s2 : MigState) (n : String), runMigrationOnProject s1 n = .ok s2 →
          ∃ dl, s2.log = s1.log ++ dl ∧ ∀ e ∈ dl, e.type = .warn :=
  C3_batch_skips_and_continues c3WState (by decide) (by decide) (by decide)

/-! ## Claim C2 — helper lemmas: path arithmetic -/

theorem appendRight_ne {R l l' : FsPath} (h : l ≠ l') : R ++ l ≠ R ++ l' :=
  fun hc => h (List.append_cancel_left hc)

theorem lastOf_append_ne {l₁ l₂ : FsPath} {a b : String} (h : a ≠ b) :
    l₁ ++ [a] ≠ l₂ ++ [b] := by
  intro hc
  have := congrArg List.getLast? hc
  simp [List.getLast?_concat] at this
  exact h this

theorem appendSingleton_eq_singleton {R : FsPath} {a b : String}
    (h : R ++ [a] = [b]) : a = b := by
  cases R with
  | nil => simpa using h
  | cons x xs =>
    have := congrArg List.length h
    simp [List.length_append] at this

theorem long_ne_singleton {l : FsPath} {c : String} (h : 2 ≤ l.length) : l ≠ [c] := by
  intro hc
  rw [hc] at h
  simp at h

theorem prefix_disjoint {a b p : FsPath} (hab : ¬ a <+: b) (hba : ¬ b <+: a)
    (hap : a <+: p) : ¬ b <+: p := by
  intro hbp
  rcases le_or_lt a.length b.length with hle | hlt
  · exact hab (List.prefix_of_prefix_length_le hap hbp hle)
  · exact hba (List.prefix_of_prefix_length_le hbp hap (Nat.le_of_lt hlt))

theorem not_appendSingleton_prefix_append_cons {R : FsPath} {a b : String} {rest : List String}
    (h : a ≠ b) : ¬ (R ++ [a]) <+: (R ++ (b :: rest)) := by
  intro hc
  obtain ⟨t, ht⟩ := hc
  rw [List.append_assoc] at ht
  have := List.append_cancel_left ht
  simp at this
  exact h this.1

theorem appendSingleton_prefix_singleton {R : FsPath} {a b : String}
    (h : (R ++ [a]) <+: [b]) : a = b := by
  have hlen := h.length_le
  simp [List.length_append] at hlen
  cases R with
  | nil => simpa using h.eq_of_length_le (by simp)
  | cons x xs => simp at hlen

theorem not_long_prefix_singleton {l : FsPath} {c : String} (h : 2 ≤ l.length) :
    ¬ l <+: [c] := by
  intro hc
  have := hc.length_le
  simp at this
  omega

/-! ## Claim C2 — helper lemmas: repeated updates are fixed points -/

theorem uniqueArray_appSelf (l : List String) :
    uniqueArray (uniqueArray l ++ uniqueArray l) = uniqueArray l := by
  rw [uniqueArray_append (fun x hx => hx), uniqueArray_idem]

/-- The project record `updateNxWorkspace` writes into the registry. -/
def updCfg (cfg : ProjectConfig) : ProjectConfig :=
  { cfg with
    sourceRoot := some (cfg.root ++ ["src"])
    tags := some (uniqueArray ((cfg.tags.getD []) ++ ["vNext", "platform:web"])) }

theorem updCfg_idem (cfg : ProjectConfig) : updCfg (updCfg cfg) = updCfg cfg := by
  rw [updCfg, updCfg]
  simp only [ProjectConfig.mk.injEq, true_and, Option.getD_some, Option.some.injEq]
  have hmem : ∀ x ∈ ["vNext", "platform:web"],
      x ∈ uniqueArray (cfg.tags.getD [] ++ ["vNext", "platform:web"]) := by
    intro x hx
    rw [mem_uniqueArray]
    exact List.mem_append_right _ hx
  rw [uniqueArray_append hmem, uniqueArray_idem]

theorem updateNxWorkspace_eq (s : MigState) (o : NormalizedSchema) :
    updateNxWorkspace s o = .ok { s with registry := setKey s.registry o.name (updCfg o.projectConfig) } := rfl

theorem rewrittenScripts_getKey_docs (pkg : String) (m : List (String × String)) :
    getKey (rewrittenScripts pkg m) "docs" = some docsScriptCmd := by
  rw [rewrittenScripts]
  rw [getKey_setKey_ne _ _ _ _ (by decide), getKey_setKey_ne _ _ _ _ (by decide),
    getKey_setKey_ne _ _ _ _ (by decide), getKey_setKey_ne _ _ _ _ (by decide),
    getKey_setKey_self]

theorem rewrittenScripts_getKey_del (pkg : String) (m : List (String × String))
    (k : String) (hk : k = "update-snapshots" ∨ k = "start-test" ∨ k = "test:watch") :
    getKey (rewrittenScripts pkg m) k = none := by
  have h1 : k ≠ "test" := by rcases hk with rfl | rfl | rfl <;> decide
  have h2 : k ≠ "start" := by rcases hk with rfl | rfl | rfl <;> decide
  have h3 : k ≠ "storybook" := by rcases hk with rfl | rfl | rfl <;> decide
  have h4 : k ≠ "build:local" := by rcases hk with rfl | rfl | rfl <;> decide
  have h5 : k ≠ "docs" := by rcases hk with rfl | rfl | rfl <;> decide
  rw [rewrittenScripts]
  rw [getKey_setKey_ne _ _ _ _ h1, getKey_setKey_ne _ _ _ _ h2,
    getKey_setKey_ne _ _ _ _ h3, getKey_setKey_ne _ _ _ _ h4,
    getKey_setKey_ne _ _ _ _ h5]
  rcases hk with rfl | rfl | rfl
  · rw [getKey_delKey_ne _ _ _ (by decide), getKey_delKey_ne _ _ _ (by decide),
      getKey_delKey_self]
  · rw [getKey_delKey_ne _ _ _ (by decide), getKey_delKey_self]
  · rw [getKey_delKey_self]

theorem rewrittenScripts_idem (pkg : String) (m : List (String × String)) :
    rewrittenScripts pkg (rewrittenScripts pkg m) = rewrittenScripts pkg m := by
  conv_lhs => rw [rewrittenScripts]
  rw [delKey_eq_self (rewrittenScripts_getKey_del pkg m _ (.inl rfl)),
    delKey_eq_self (rewrittenScripts_getKey_del pkg m _ (.inr (.inl rfl))),
    delKey_eq_self (rewrittenScripts_getKey_del pkg m _ (.inr (.inr rfl)))]
  rw [setKey_eq_self (rewrittenScripts_getKey_docs pkg m)]
  rw [setKey_eq_self (v := buildLocalScriptCmd pkg) (by
    rw [rewrittenScripts]
    rw [getKey_setKey_ne _ _ _ _ (by decide), getKey_setKey_ne _ _ _ _ (by decide),
      getKey_setKey_ne _ _ _ _ (by decide), getKey_setKey_self])]
  rw [setKey_eq_self (v := "start-storybook") (by
    rw [rewrittenScripts]
    rw [getKey_setKey_ne _ _ _ _ (by decide), getKey_setKey_ne _ _ _ _ (by decide),
      getKey_setKey_self])]
  rw [setKey_eq_self (v := "yarn storybook") (by
    rw [rewrittenScripts]
    rw [getKey_setKey_ne _ _ _ _ (by decide), getKey_setKey_self])]
  rw [setKey_eq_self (v := "jest") (by rw [rewrittenScripts]; rw [getKey_setKey_self])]

theorem aliasEntry_setKey_same_root {reg : Registry} {name : String} {cfg u : ProjectConfig}
    (hc : getKey reg name = some cfg) (hr : u.root = cfg.root) (d : String) :
    aliasEntry (setKey reg name u) d = aliasEntry reg d := by
  by_cases hd : d = name
  · subst hd
    rw [aliasEntry, aliasEntry, getKey_setKey_self, hc]
    show [pathToString u.root ++ "/src/index.ts"] = [pathToString cfg.root ++ "/src/index.ts"]
    rw [hr]
  · rw [aliasEntry, aliasEntry, getKey_setKey_ne _ _ _ _ hd]

theorem pj_set_scripts_eq_self {pj : PackageJson} {S : List (String × String)}
    (h : pj.scripts = some S) : ({ pj with scripts := some S } : PackageJson) = pj := by
  cases pj
  simp only at h
  simp [h]

theorem readPackageJson_congr {t t' : FsTree} {p p' : FsPath}
    (h : FsTree.readPath t p = FsTree.readPath t' p') :
    readPackageJson t p = readPackageJson t' p' := by
  rw [readPackageJson, readPackageJson, h]

theorem exceptBind_ok_intro {ε α β : Type} {x : Except ε α} {f : α → Except ε β}
    {a : α} {b : β} (hx : x = .ok a) (hf : f a = .ok b) : (x >>= f) = .ok b := by
  subst hx
  simpa [Bind.bind, Except.bind] using hf

/-! ## Claim C2 — helper lemmas: tree membership preservation -/

theorem contains_true_of_mem {l : List String} {a : String} (h : a ∈ l) :
    l.contains a = true := by
  simpa using h

theorem mem_writePath_self (t : FsTree) (p : FsPath) (c : FileContent) :
    (p, c) ∈ FsTree.writePath t p c := by
  induction t with
  | nil => simp [FsTree.writePath]
  | cons e rest ih =>
    rw [FsTree.writePath]
    by_cases h : e.1 = p
    · rw [if_pos (by simpa using h)]
      exact List.mem_cons_self _ _
    · rw [if_neg (by simpa using h)]
      exact List.mem_cons_of_mem _ ih

theorem mem_fst_writePath {t : FsTree} {P : FsPath} {c : FileContent}
    (h : (P, c) ∈ t) (q : FsPath) (c₀ : FileContent) :
    ∃ c', (P, c') ∈ FsTree.writePath t q c₀ := by
  induction t with
  | nil => simp at h
  | cons e rest ih =>
    rw [FsTree.writePath]
    by_cases he : e.1 = q
    · rw [if_pos (by simpa using he)]
      rcases List.mem_cons.mp h with h | h
      · have hP : P = q := by rw [← he, ← h]
        exact ⟨c₀, hP ▸ List.mem_cons_self _ _⟩
      · exact ⟨c, List.mem_cons_of_mem _ h⟩
    · rw [if_neg (by simpa using he)]
      rcases List.mem_cons.mp h with h | h
      · exact ⟨c, h ▸ List.mem_cons_self _ _⟩
      · obtain ⟨c', hc'⟩ := ih h
        exact ⟨c', List.mem_cons_of_mem _ hc'⟩

theorem existsPath_true_of_mem {t : FsTree} {e : FsPath × FileContent} {p : FsPath}
    (he : e ∈ t) (hp : p <+: e.1) : FsTree.existsPath t p = true :=
  (existsPath_iff t p).mpr ⟨e, he, hp⟩

theorem moveStoriesGo_pathMem (o : NormalizedSchema) (ps : List FsPath) :
    ∀ s s' : MigState, moveStoriesGo o s ps = .ok s' →
      ∀ P c, (P, c) ∈ s.tree → ∃ c', (P, c') ∈ s'.tree := by
  induction ps with
  | nil =>
    intro s s' h P c hm
    rw [moveStoriesGo] at h
    simp only [Except.ok.injEq] at h
    subst h
    exact ⟨c, hm⟩
  | cons p rest ih =>
    intro s s' h P c hm
    rw [moveStoriesGo] at h
    split at h
    · exact absurd h (by simp)
    · rename_i c₁ hc₁
      dsimp only [] at h
      split at h
      · exact absurd h (by simp)
      · obtain ⟨c', hc'⟩ := mem_fst_writePath hm
          (o.projectConfig.root ++ ["src", lastSegment p])
          (.text (storyTransformed c₁.asString o.name (stripStoriesExt (lastSegment p))))
        exact ih _ _ h P c' hc'

/-- Tree-level inversion of `removeMigratedPackageFromReactExamples`: either
the subdirectory did not exist and the tree is untouched, or it is deleted
and the examples manifest rewritten. -/
theorem removeMigrated_ok_tree {s s' : MigState} {o : NormalizedSchema}
    (h : removeMigratedPackageFromReactExamples s o = .ok s') :
    ∃ ec, getReactExamplesProjectConfig s = some ec
      ∧ ((FsTree.existsPath s.tree (storiesSubdir ec.root o.normalizedPkgName) = false
            ∧ s'.tree = s.tree)
        ∨ (∃ pj : PackageJson, s'.tree = FsTree.writePath
            (FsTree.deletePath s.tree (storiesSubdir ec.root o.normalizedPkgName))
            (ec.root ++ ["package.json"])
            (.packageJson { pj with
              dependencies := pj.dependencies.map (fun deps => delKey deps o.name) }))) := by
  rw [removeMigratedPackageFromReactExamples] at h
  cases hec : getReactExamplesProjectConfig s with
  | none => rw [hec] at h; exact absurd h (by simp)
  | some ec =>
    rw [hec] at h
    dsimp only [] at h
    split at h
    · rename_i hex
      split at h
      · exact absurd h (by simp)
      · rename_i pj hpj
        simp only [Except.ok.injEq] at h
        subst h
        exact ⟨ec, rfl, .inr ⟨pj, rfl⟩⟩
    · rename_i hex
      simp only [Except.ok.injEq] at h
      subst h
      exact ⟨ec, rfl, .inl ⟨by simpa using hex, rfl⟩⟩

theorem readPath_localJestTree_ne (s : MigState) (o : NormalizedSchema) (pj : PackageJson)
    (q : FsPath) (h1 : q ≠ o.jestConfigPath) (h2 : q ≠ o.configRoot ++ ["tests.js"]) :
    FsTree.readPath (localJestTree s o pj) q = FsTree.readPath s.tree q := by
  rw [localJestTree]
  split
  · exact readPath_writePath_ne _ _ _ _ h1
  · rw [readPath_writePath_ne _ _ _ _ h2, readPath_writePath_ne _ _ _ _ h1]

theorem readPath_localJestTree_self (s : MigState) (o : NormalizedSchema) (pj : PackageJson)
    (h : o.jestConfigPath ≠ o.configRoot ++ ["tests.js"]) :
    FsTree.readPath (localJestTree s o pj) o.jestConfigPath
      = some (.text (jestConfigTemplate o.normalizedPkgName
          (((pj.dependencies.getD []).map (·.1)).any
            (fun d => d == "@" ++ s.npmScope ++ "/react-make-styles"))
          ("./" ++ lastSegment o.configRoot ++ "/tests.js"))) := by
  rw [localJestTree]
  split
  · exact readPath_writePath_self _ _ _
  · rw [readPath_writePath_ne _ _ _ _ h, readPath_writePath_self]

theorem localJestTree_pathMem {s : MigState} {o : NormalizedSchema} {pj : PackageJson}
    {P : FsPath} {c : FileContent} (h : (P, c) ∈ s.tree) :
    ∃ c', (P, c') ∈ localJestTree s o pj := by
  rw [localJestTree]
  obtain ⟨c', hc'⟩ := mem_fst_writePath h o.jestConfigPath
    (.text (jestConfigTemplate o.normalizedPkgName
      (((pj.dependencies.getD []).map (·.1)).any
        (fun d => d == "@" ++ s.npmScope ++ "/react-make-styles"))
      ("./" ++ lastSegment o.configRoot ++ "/tests.js")))
  split
  · exact ⟨c', hc'⟩
  · exact mem_fst_writePath hc' _ _

theorem localJestTree_setup_exists (s : MigState) (o : NormalizedSchema) (pj : PackageJson) :
    ∃ P cP, (P, cP) ∈ localJestTree s o pj ∧ (o.configRoot ++ ["tests.js"]) <+: P := by
  rw [localJestTree]
  split
  · rename_i hex
    obtain ⟨e, he, hpe⟩ := (existsPath_iff _ _).mp hex
    exact ⟨e.1, e.2, he, hpe⟩
  · exact ⟨o.configRoot ++ ["tests.js"], .text jestSetupTemplate,
      mem_writePath_self _ _ _, List.prefix_refl _⟩

/-! ## Claim C2 — the second run of each step is a fixed point -/

theorem readPackageJson_eq_some {t : FsTree} {p : FsPath} {pj : PackageJson}
    (h : FsTree.readPath t p = some (.packageJson pj)) : readPackageJson t p = some pj := by
  rw [readPackageJson, h]

theorem normalizeOptions_eq_ok {s : MigState} {name : String} {cfg : ProjectConfig}
    (h : getKey s.registry name = some cfg) :
    normalizeOptions s name = .ok (mkNormalizedOptions s.npmScope name cfg) := by
  simp only [normalizeOptions, readProjectConfiguration, h]

theorem secondRun_localTsConfig {s : MigState} {o : NormalizedSchema}
    (hr : FsTree.readPath s.tree o.tsconfigPath
      = some (.localTsConfig (some s.tmplTypes) tsconfigTemplateRest))
    (hu : uniqueArray (s.tmplTypes ++ s.tmplTypes) = s.tmplTypes) :
    updatedLocalTsConfig s o = .ok s := by
  simp only [updatedLocalTsConfig, hr, Option.getD_some, hu]
  rw [writePath_eq_self hr]

theorem secondRun_baseTsConfig {s : MigState} {o : NormalizedSchema} {pj : PackageJson}
    {M : List (String × List String)} {rest : String}
    (hpj : FsTree.readPath s.tree o.packageJsonPath = some (.packageJson pj))
    (hrb : FsTree.readPath s.tree o.rootTsconfigPath = some (.baseTsConfig (some M) rest))
    (hM : updatedPathsMap s o pj M = M) :
    updatedBaseTsConfig s o = .ok s := by
  simp only [updatedBaseTsConfig, readPackageJson_eq_some hpj, hrb, Option.getD_some, hM]
  rw [writePath_eq_self hrb]

theorem secondRun_localJest {s : MigState} {o : NormalizedSchema} {pj : PackageJson}
    (hpj : FsTree.readPath s.tree o.packageJsonPath = some (.packageJson pj))
    (hjc : FsTree.readPath s.tree o.jestConfigPath
      = some (.text (jestConfigTemplate o.normalizedPkgName
          (((pj.dependencies.getD []).map (·.1)).any
            (fun d => d == "@" ++ s.npmScope ++ "/react-make-styles"))
          ("./" ++ lastSegment o.configRoot ++ "/tests.js"))))
    (hex : FsTree.existsPath s.tree (o.configRoot ++ ["tests.js"]) = true) :
    updateLocalJestConfig s o = .ok s := by
  simp only [updateLocalJestConfig, readPackageJson_eq_some hpj]
  have ht : localJestTree s o pj = s.tree := by
    rw [localJestTree]
    rw [writePath_eq_self hjc]
    simp only [hex, if_true]
  rw [ht]

theorem secondRun_rootJest {s : MigState} {o : NormalizedSchema} {P : List String}
    (hr : FsTree.readPath s.tree ["jest.config.js"] = some (.rootJestConfig P))
    (hmem : P.contains o.name = true) :
    updateRootJestConfig s o = .ok s := by
  simp only [updateRootJestConfig, updateJestConfigUtil, hr, hmem, if_true]
  rw [writePath_eq_self hr]

theorem secondRun_storybook {s : MigState} {o : NormalizedSchema}
    (h1 : FsTree.readPath s.tree o.storybookTsconfigPath
      = some (.text storybookTsconfigTemplate))
    (h2 : FsTree.readPath s.tree o.storybookMainPath = some (.text storybookMainTemplate))
    (h3 : FsTree.readPath s.tree o.storybookPreviewPath
      = some (.text storybookPreviewTemplate)) :
    setupStorybook s o = .ok s := by
  rw [setupStorybook]
  rw [writePath_eq_self h1, writePath_eq_self h2, writePath_eq_self h3]

theorem secondRun_moveStorybook {s : MigState} {o : NormalizedSchema} {ec : ProjectConfig}
    (hec : getReactExamplesProjectConfig s = some ec)
    (hempty : storyPathsOf s (storiesSubdir ec.root o.normalizedPkgName) = []) :
    moveStorybookFromReactExamples s o
      = .ok { s with log := s.log ++ [⟨.warn, noStoriesMessage⟩] } := by
  simp only [moveStorybookFromReactExamples, hec, hempty, List.length_nil, if_true]

theorem secondRun_removeMigrated {s : MigState} {o : NormalizedSchema} {ec : ProjectConfig}
    (hec : getReactExamplesProjectConfig s = some ec)
    (hex : FsTree.existsPath s.tree (storiesSubdir ec.root o.normalizedPkgName) = false) :
    removeMigratedPackageFromReactExamples s o = .ok s := by
  simp only [removeMigratedPackageFromReactExamples, hec, hex, Bool.false_eq_true, if_false]

theorem secondRun_npmScripts {s : MigState} {o : NormalizedSchema} {pj : PackageJson}
    {S : List (String × String)}
    (hpj : FsTree.readPath s.tree o.packageJsonPath = some (.packageJson pj))
    (hs : pj.scripts = some S)
    (hSS : rewrittenScripts o.normalizedPkgName S = S) :
    updateNpmScripts s o = .ok s := by
  simp only [updateNpmScripts, readPackageJson_eq_some hpj, hs, hSS]
  rw [pj_set_scripts_eq_self hs, writePath_eq_self hpj]

theorem secondRun_api {s : MigState} {o : NormalizedSchema}
    (hL : FsTree.readPath s.tree (o.configRoot ++ ["api-extractor.local.json"])
      = some (.text apiExtractorLocalTemplate))
    (hA : FsTree.readPath s.tree (o.configRoot ++ ["api-extractor.json"])
      = some (.text apiExtractorTemplate)) :
    updateApiExtractorForLocalBuilds s o = .ok s := by
  rw [updateApiExtractorForLocalBuilds]
  rw [writePath_eq_self hL, writePath_eq_self hA]

theorem secondRun_npmConfig {s : MigState} {o : NormalizedSchema}
    (h : FsTree.readPath s.tree o.npmConfigPath = some (.text npmIgnoreTemplate)) :
    setupNpmConfig s o = .ok s := by
  rw [setupNpmConfig, writePath_eq_self h]

theorem secondRun_nxWorkspace {s : MigState} {o : NormalizedSchema}
    (h : getKey s.registry o.name = some (updCfg o.projectConfig)) :
    updateNxWorkspace s o = .ok s := by
  rw [updateNxWorkspace_eq, setKey_eq_self h]

theorem singleton_ne_append_last {x b : String} {l : FsPath} (h : x ≠ b) :
    ([x] : FsPath) ≠ l ++ [b] := by
  intro hc
  have := congrArg List.getLast? hc
  simp [List.getLast?_concat] at this
  exact h this

theorem singleton_ne_append_two {x : String} {l : FsPath} {b c : String} :
    ([x] : FsPath) ≠ l ++ [b, c] := by
  intro hc
  have := congrArg List.length hc
  simp [List.length_append] at this

theorem append_two_ne_append_last {R S : FsPath} {b c e : String} (h : c ≠ e) :
    R ++ [b, c] ≠ S ++ [e] := by
  intro hc
  rw [show R ++ [b, c] = (R ++ [b]) ++ [c] by simp] at hc
  have := congrArg List.getLast? hc
  simp [List.getLast?_concat] at this
  exact h this

theorem moveStorybook_pathMem {s s' : MigState} {o : NormalizedSchema}
    (h : moveStorybookFromReactExamples s o = .ok s') {P : FsPath} {c : FileContent}
    (hm : (P, c) ∈ s.tree) : ∃ c', (P, c') ∈ s'.tree := by
  rw [moveStorybookFromReactExamples] at h
  cases hec : getReactExamplesProjectConfig s with
  | none => rw [hec] at h; exact absurd h (by simp)
  | some ec =>
    rw [hec] at h
    dsimp only [] at h
    split at h
    · simp only [Except.ok.injEq] at h
      subst h
      exact ⟨c, hm⟩
    · exact moveStoriesGo_pathMem o _ _ _ h P c hm

/-- C2: on a workspace where the migrated project and the examples project
live in separate directory subtrees, a second run of the full transform-step
sequence succeeds and changes nothing: the tree, registry, scope and mutated
template are all fixed points, and the only new log entry is the
`no package stories found` warning of the (now no-op) story-relocation
step. -/
theorem C2_transform_steps_idempotent (s₀ s₁ : MigState) (name : String)
    (cfg ec : ProjectConfig)
    (hcfg0 : getKey s₀.registry name = some cfg)
    (hec0 : getKey s₀.registry ("@" ++ s₀.npmScope ++ "/react-examples") = some ec)
    (hsep1 : ¬ cfg.root <+: storiesSubdir ec.root
      (jsReplaceFirst name ("@" ++ s₀.npmScope ++ "/") ""))
    (hsep2 : ¬ storiesSubdir ec.root
      (jsReplaceFirst name ("@" ++ s₀.npmScope ++ "/") "") <+: cfg.root)
    (hname : name ≠ "@" ++ s₀.npmScope ++ "/react-examples")
    (h : runMigrationOnProject s₀ name = .ok s₁) :
    ∃ s₂, runMigrationOnProject s₁ name = .ok s₂
      ∧ s₂.tree = s₁.tree ∧ s₂.registry = s₁.registry
      ∧ s₂.npmScope = s₁.npmScope ∧ s₂.tmplTypes = s₁.tmplTypes
      ∧ s₂.log = s₁.log ++ [⟨.warn, noStoriesMessage⟩] := by
  rw [runMigrationOnProject] at h
  obtain ⟨o, ho, h⟩ := exceptBind_ok h
  obtain ⟨a1, hs1, h⟩ := exceptBind_ok h
  obtain ⟨a2, hs2, h⟩ := exceptBind_ok h
  obtain ⟨a3, hs3, h⟩ := exceptBind_ok h
  obtain ⟨a4, hs4, h⟩ := exceptBind_ok h
  obtain ⟨a5, hs5, h⟩ := exceptBind_ok h
  obtain ⟨a6, hs6, h⟩ := exceptBind_ok h
  obtain ⟨a7, hs7, h⟩ := exceptBind_ok h
  obtain ⟨a8, hs8, h⟩ := exceptBind_ok h
  obtain ⟨a9, hs9, h⟩ := exceptBind_ok h
  obtain ⟨a10, hs10, hs11⟩ := exceptBind_ok h
  obtain ⟨cfgX, hcfgX, hoe⟩ := normalizeOptions_ok ho
  have hXc : cfgX = cfg := by
    have := hcfgX.symm.trans hcfg0
    simpa using this
  subst cfgX
  subst hoe
  obtain ⟨types₀, restL, hr1, he1⟩ := updatedLocalTsConfig_ok hs1
  obtain ⟨pj₀, paths₀, restB, hr2pj, hr2b, he2⟩ := updatedBaseTsConfig_ok hs2
  obtain ⟨pjJ, hr3, he3⟩ := updateLocalJestConfig_ok hs3
  obtain ⟨P₀, hr4, he4⟩ := updateRootJestConfig_ok hs4
  have he5 := setupStorybook_ok hs5
  obtain ⟨ecm, hec6, hreg6, hscope6, htmpl6, hlog6, hframe6⟩ := moveStorybook_ok_spec hs6
  obtain ⟨ec7a, hec7a, hreg7, hscope7, htmpl7, hlog7, hver7, hframe7⟩ :=
    removeMigrated_ok_spec hs7
  obtain ⟨ec7b, hec7b, htree7⟩ := removeMigrated_ok_tree hs7
  obtain ⟨pjE, scr₀, hrE, hscrE, he8⟩ := updateNpmScripts_ok hs8
  have he9 := updateApiExtractorForLocalBuilds_ok hs9
  have he10 := setupNpmConfig_ok hs10
  have he11 := updateNxWorkspace_ok hs11
  -- component equations for the explicit steps
  have ht1 : a1.tree = FsTree.writePath s₀.tree (cfg.root ++ ["tsconfig.json"])
      (.localTsConfig (some (uniqueArray (s₀.tmplTypes ++ types₀.getD [])))
        tsconfigTemplateRest) := by rw [he1]; rfl
  have htm1 : a1.tmplTypes = uniqueArray (s₀.tmplTypes ++ types₀.getD []) := by rw [he1]
  have hrg1 : a1.registry = s₀.registry := by rw [he1]
  have hsc1 : a1.npmScope = s₀.npmScope := by rw [he1]
  have ht2 : a2.tree = FsTree.writePath a1.tree ["tsconfig.base.json"]
      (.baseTsConfig (some (updatedPathsMap a1 (mkNormalizedOptions s₀.npmScope name cfg)
        pj₀ (paths₀.getD []))) restB) := by rw [he2]; rfl
  have htm2 : a2.tmplTypes = a1.tmplTypes := by rw [he2]
  have hrg2 : a2.registry = a1.registry := by rw [he2]
  have hsc2 : a2.npmScope = a1.npmScope := by rw [he2]
  have ht3 : a3.tree = localJestTree a2 (mkNormalizedOptions s₀.npmScope name cfg) pjJ := by
    rw [he3]
  have htm3 : a3.tmplTypes = a2.tmplTypes := by rw [he3]
  have hrg3 : a3.registry = a2.registry := by rw [he3]
  have hsc3 : a3.npmScope = a2.npmScope := by rw [he3]
  have ht4 : a4.tree = FsTree.writePath a3.tree ["jest.config.js"]
      (.rootJestConfig (if P₀.contains name then P₀ else P₀ ++ [name])) := by rw [he4]; rfl
  have htm4 : a4.tmplTypes = a3.tmplTypes := by rw [he4]
  have hrg4 : a4.registry = a3.registry := by rw [he4]
  have hsc4 : a4.npmScope = a3.npmScope := by rw [he4]
  have ht5 : a5.tree = FsTree.writePath (FsTree.writePath (FsTree.writePath a4.tree
      (cfg.root ++ [".storybook", "tsconfig.json"]) (.text storybookTsconfigTemplate))
      (cfg.root ++ [".storybook", "main.js"]) (.text storybookMainTemplate))
      (cfg.root ++ [".storybook", "preview.js"]) (.text storybookPreviewTemplate) := by
    rw [he5]; rfl
  have htm5 : a5.tmplTypes = a4.tmplTypes := by rw [he5]
  have hrg5 : a5.registry = a4.registry := by rw [he5]
  have hsc5 : a5.npmScope = a4.npmScope := by rw [he5]
  have ht8 : a8.tree = FsTree.writePath a7.tree (cfg.root ++ ["package.json"])
      (.packageJson { pjE with scripts := some (rewrittenScripts
        (jsReplaceFirst name ("@" ++ s₀.npmScope ++ "/") "") scr₀) }) := by rw [he8]; rfl
  have htm8 : a8.tmplTypes = a7.tmplTypes := by rw [he8]
  have hrg8 : a8.registry = a7.registry := by rw [he8]
  have hsc8 : a8.npmScope = a7.npmScope := by rw [he8]
  have ht9 : a9.tree = FsTree.writePath (FsTree.writePath a8.tree
      ((cfg.root ++ ["config"]) ++ ["api-extractor.local.json"])
      (.text apiExtractorLocalTemplate))
      ((cfg.root ++ ["config"]) ++ ["api-extractor.json"]) (.text apiExtractorTemplate) := by
    rw [he9]; rfl
  have htm9 : a9.tmplTypes = a8.tmplTypes := by rw [he9]
  have hrg9 : a9.registry = a8.registry := by rw [he9]
  have hsc9 : a9.npmScope = a8.npmScope := by rw [he9]
  have ht10 : a10.tree = FsTree.writePath a9.tree (cfg.root ++ [".npmignore"])
      (.text npmIgnoreTemplate) := by rw [he10]; rfl
  have htm10 : a10.tmplTypes = a9.tmplTypes := by rw [he10]
  have hrg10 : a10.registry = a9.registry := by rw [he10]
  have hsc10 : a10.npmScope = a9.npmScope := by rw [he10]
  have htS : s₁.tree = a10.tree := by rw [he11]
  have htmS : s₁.tmplTypes = a10.tmplTypes := by rw [he11]
  have hscS : s₁.npmScope = a10.npmScope := by rw [he11]
  have hrgS : s₁.registry = setKey a10.registry name (updCfg cfg) := by rw [he11]; rfl
  -- identify the examples configurations
  have hec6u : getKey a5.registry ("@" ++ a5.npmScope ++ "/react-examples") = some ecm := hec6
  rw [hrg5, hrg4, hrg3, hrg2, hrg1, hsc5, hsc4, hsc3, hsc2, hsc1] at hec6u
  have hecm : ecm = ec := by
    have := hec6u.symm.trans hec0
    simpa using this
  subst ecm
  have hec6a : getReactExamplesProjectConfig a6 = some ec := by
    have hu : getKey a6.registry ("@" ++ a6.npmScope ++ "/react-examples") = some ec := by
      rw [hreg6, hscope6]
      exact hec6
    exact hu
  have hec7aE : ec7a = ec := by
    have := hec7a.symm.trans hec6a
    simpa using this
  subst ec7a
  have hec7bE : ec7b = ec := by
    have := hec7b.symm.trans hec6a
    simpa using this
  subst ec7b
  -- global frame facts
  have hscope₁ : s₁.npmScope = s₀.npmScope := by
    rw [hscS, hsc10, hsc9, hsc8, hscope7, hscope6, hsc5, hsc4, hsc3, hsc2, hsc1]
  have htmpl₁ : s₁.tmplTypes = uniqueArray (s₀.tmplTypes ++ types₀.getD []) := by
    rw [htmS, htm10, htm9, htm8, htmpl7, htmpl6, htm5, htm4, htm3, htm2, htm1]
  have hreg₁ : s₁.registry = setKey s₀.registry name (updCfg cfg) := by
    rw [hrgS, hrg10, hrg9, hrg8, hreg7, hreg6, hrg5, hrg4, hrg3, hrg2, hrg1]
  have hRdisj : ∀ p, cfg.root <+: p → ¬ storiesSubdir ec.root
      (jsReplaceFirst name ("@" ++ s₀.npmScope ++ "/") "") <+: p :=
    fun p hp => prefix_disjoint hsep1 hsep2 hp
  -- read-back chains
  have hb10 : ∀ q, q ≠ cfg.root ++ ["tsconfig.json"] →
      FsTree.readPath a1.tree q = FsTree.readPath s₀.tree q := by
    intro q hq
    rw [ht1, readPath_writePath_ne _ _ _ _ hq]
  have hb21 : ∀ q, q ≠ (["tsconfig.base.json"] : FsPath) →
      FsTree.readPath a2.tree q = FsTree.readPath a1.tree q := by
    intro q hq
    rw [ht2, readPath_writePath_ne _ _ _ _ hq]
  have hb32 : ∀ q, q ≠ cfg.root ++ ["jest.config.js"] →
      q ≠ (cfg.root ++ ["config"]) ++ ["tests.js"] →
      FsTree.readPath a3.tree q = FsTree.readPath a2.tree q := by
    intro q h1 h2
    rw [ht3]
    exact readPath_localJestTree_ne a2 (mkNormalizedOptions s₀.npmScope name cfg) pjJ q h1 h2
  have hb43 : ∀ q, q ≠ (["jest.config.js"] : FsPath) →
      FsTree.readPath a4.tree q = FsTree.readPath a3.tree q := by
    intro q hq
    rw [ht4, readPath_writePath_ne _ _ _ _ hq]
  have hb54 : ∀ q, q ≠ cfg.root ++ [".storybook", "preview.js"] →
      q ≠ cfg.root ++ [".storybook", "main.js"] →
      q ≠ cfg.root ++ [".storybook", "tsconfig.json"] →
      FsTree.readPath a5.tree q = FsTree.readPath a4.tree q := by
    intro q h1 h2 h3
    rw [ht5, readPath_writePath_ne _ _ _ _ h1, readPath_writePath_ne _ _ _ _ h2,
      readPath_writePath_ne _ _ _ _ h3]
  have hbS7 : ∀ q, q ≠ cfg.root ++ [".npmignore"] →
      q ≠ (cfg.root ++ ["config"]) ++ ["api-extractor.json"] →
      q ≠ (cfg.root ++ ["config"]) ++ ["api-extractor.local.json"] →
      q ≠ cfg.root ++ ["package.json"] →
      FsTree.readPath s₁.tree q = FsTree.readPath a7.tree q := by
    intro q h1 h2 h3 h4
    rw [htS, ht10, readPath_writePath_ne _ _ _ _ h1, ht9,
      readPath_writePath_ne _ _ _ _ h2, readPath_writePath_ne _ _ _ _ h3, ht8,
      readPath_writePath_ne _ _ _ _ h4]
  have hb75 : ∀ q, ¬ storiesSubdir ec.root
        (jsReplaceFirst name ("@" ++ s₀.npmScope ++ "/") "") <+: q →
      q ≠ ec.root ++ ["package.json"] →
      ¬ (cfg.root ++ ["src"]) <+: q →
      FsTree.readPath a7.tree q = FsTree.readPath a5.tree q := by
    intro q h1 h2 h3
    exact (hframe7 q h1 h2).trans (hframe6 q h3)
  -- the files the second run reads, as stored in s₁
  have F1 : FsTree.readPath s₁.tree (cfg.root ++ ["tsconfig.json"])
      = some (.localTsConfig (some (uniqueArray (s₀.tmplTypes ++ types₀.getD [])))
          tsconfigTemplateRest) := by
    rw [hbS7 (cfg.root ++ ["tsconfig.json"]) (appendRight_ne (by decide))
      (lastOf_append_ne (by decide)) (lastOf_append_ne (by decide))
      (appendRight_ne (by decide))]
    rw [hb75 (cfg.root ++ ["tsconfig.json"]) (hRdisj _ (List.prefix_append _ _))
      (lastOf_append_ne (by decide)) (not_appendSingleton_prefix_append_cons (by decide))]
    rw [hb54 (cfg.root ++ ["tsconfig.json"]) (appendRight_ne (by decide))
      (appendRight_ne (by decide)) (appendRight_ne (by decide))]
    rw [hb43 (cfg.root ++ ["tsconfig.json"])
      (fun hc => absurd (appendSingleton_eq_singleton hc) (by decide))]
    rw [hb32 (cfg.root ++ ["tsconfig.json"]) (appendRight_ne (by decide))
      (lastOf_append_ne (by decide))]
    rw [hb21 (cfg.root ++ ["tsconfig.json"])
      (fun hc => absurd (appendSingleton_eq_singleton hc) (by decide))]
    rw [ht1]
    exact readPath_writePath_self _ _ _
  have F2 : FsTree.readPath s₁.tree (["tsconfig.base.json"] : FsPath)
      = some (.baseTsConfig (some (updatedPathsMap a1
          (mkNormalizedOptions s₀.npmScope name cfg) pj₀ (paths₀.getD []))) restB) := by
    rw [hbS7 ["tsconfig.base.json"] (singleton_ne_append_last (by decide))
      (singleton_ne_append_last (by decide)) (singleton_ne_append_last (by decide))
      (singleton_ne_append_last (by decide))]
    rw [hb75 ["tsconfig.base.json"] (not_long_prefix_singleton (by simp [storiesSubdir]))
      (singleton_ne_append_last (by decide))
      (fun hc => absurd (appendSingleton_prefix_singleton hc) (by decide))]
    rw [hb54 ["tsconfig.base.json"] singleton_ne_append_two
      singleton_ne_append_two singleton_ne_append_two]
    rw [hb43 ["tsconfig.base.json"] (by decide)]
    rw [hb32 ["tsconfig.base.json"] (singleton_ne_append_last (by decide))
      (singleton_ne_append_last (by decide))]
    rw [ht2]
    exact readPath_writePath_self _ _ _
  have F3 : FsTree.readPath s₁.tree (cfg.root ++ ["package.json"])
      = some (.packageJson { pjE with scripts := some (rewrittenScripts
          (jsReplaceFirst name ("@" ++ s₀.npmScope ++ "/") "") scr₀) }) := by
    rw [htS, ht10, readPath_writePath_ne _ _ _ _ (appendRight_ne (by decide)), ht9,
      readPath_writePath_ne _ _ _ _ (lastOf_append_ne (by decide)),
      readPath_writePath_ne _ _ _ _ (lastOf_append_ne (by decide)), ht8]
    exact readPath_writePath_self _ _ _
  have hcr_ec : ¬ cfg.root <+: ec.root := by
    intro hc
    exact hsep1 (hc.trans (List.prefix_append _ _))
  have F4 : FsTree.readPath s₁.tree (["jest.config.js"] : FsPath)
      = some (.rootJestConfig (if P₀.contains name then P₀ else P₀ ++ [name])) := by
    rw [hbS7 ["jest.config.js"] (singleton_ne_append_last (by decide))
      (singleton_ne_append_last (by decide)) (singleton_ne_append_last (by decide))
      (singleton_ne_append_last (by decide))]
    rw [hb75 ["jest.config.js"] (not_long_prefix_singleton (by simp [storiesSubdir]))
      (singleton_ne_append_last (by decide))
      (fun hc => absurd (appendSingleton_prefix_singleton hc) (by decide))]
    rw [hb54 ["jest.config.js"] singleton_ne_append_two
      singleton_ne_append_two singleton_ne_append_two]
    rw [ht4]
    exact readPath_writePath_self _ _ _
  have hJCne : cfg.root ++ ["jest.config.js"] ≠ (["jest.config.js"] : FsPath) := by
    intro hc
    have hnil : cfg.root = [] := by
      cases hR : cfg.root with
      | nil => rfl
      | cons x xs =>
        rw [hR] at hc
        have := congrArg List.length hc
        simp [List.length_append] at this
    have hself := readPath_localJestTree_self a2 (mkNormalizedOptions s₀.npmScope name cfg)
      pjJ (lastOf_append_ne (by decide))
    rw [← ht3] at hself
    have hr4' : FsTree.readPath a3.tree (cfg.root ++ ["jest.config.js"])
        = some (.rootJestConfig P₀) := by
      rw [hc]
      exact hr4
    have := hr4'.symm.trans hself
    simp at this
  have F6 : FsTree.readPath s₁.tree (cfg.root ++ ["jest.config.js"])
      = some (.text (jestConfigTemplate (jsReplaceFirst name ("@" ++ s₀.npmScope ++ "/") "")
          (((pjJ.dependencies.getD []).map (·.1)).any
            (fun d => d == "@" ++ s₀.npmScope ++ "/react-make-styles"))
          ("./" ++ lastSegment (cfg.root ++ ["config"]) ++ "/tests.js"))) := by
    rw [hbS7 (cfg.root ++ ["jest.config.js"]) (appendRight_ne (by decide))
      (lastOf_append_ne (by decide)) (lastOf_append_ne (by decide))
      (appendRight_ne (by decide))]
    rw [hb75 (cfg.root ++ ["jest.config.js"]) (hRdisj _ (List.prefix_append _ _))
      (lastOf_append_ne (by decide)) (not_appendSingleton_prefix_append_cons (by decide))]
    rw [hb54 (cfg.root ++ ["jest.config.js"]) (appendRight_ne (by decide))
      (appendRight_ne (by decide)) (appendRight_ne (by decide))]
    rw [hb43 (cfg.root ++ ["jest.config.js"]) hJCne]
    have hself : FsTree.readPath a3.tree (cfg.root ++ ["jest.config.js"])
        = some (.text (jestConfigTemplate (jsReplaceFirst name ("@" ++ s₀.npmScope ++ "/") "")
            (((pjJ.dependencies.getD []).map (·.1)).any
              (fun d => d == "@" ++ a2.npmScope ++ "/react-make-styles"))
            ("./" ++ lastSegment (cfg.root ++ ["config"]) ++ "/tests.js"))) := by
      rw [ht3]
      exact readPath_localJestTree_self a2 (mkNormalizedOptions s₀.npmScope name cfg) pjJ
        (lastOf_append_ne (by decide))
    rw [hself, hsc2, hsc1]
  have Fsb3 : FsTree.readPath s₁.tree (cfg.root ++ [".storybook", "preview.js"])
      = some (.text storybookPreviewTemplate) := by
    rw [hbS7 (cfg.root ++ [".storybook", "preview.js"]) (appendRight_ne (by decide))
      (append_two_ne_append_last (by decide)) (append_two_ne_append_last (by decide))
      (append_two_ne_append_last (by decide))]
    rw [hb75 (cfg.root ++ [".storybook", "preview.js"]) (hRdisj _ (List.prefix_append _ _))
      (append_two_ne_append_last (by decide))
      (not_appendSingleton_prefix_append_cons (by decide))]
    rw [ht5]
    exact readPath_writePath_self _ _ _
  have Fsb2 : FsTree.readPath s₁.tree (cfg.root ++ [".storybook", "main.js"])
      = some (.text storybookMainTemplate) := by
    rw [hbS7 (cfg.root ++ [".storybook", "main.js"]) (appendRight_ne (by decide))
      (append_two_ne_append_last (by decide)) (append_two_ne_append_last (by decide))
      (append_two_ne_append_last (by decide))]
    rw [hb75 (cfg.root ++ [".storybook", "main.js"]) (hRdisj _ (List.prefix_append _ _))
      (append_two_ne_append_last (by decide))
      (not_appendSingleton_prefix_append_cons (by decide))]
    rw [ht5, readPath_writePath_ne _ _ _ _ (appendRight_ne (by decide))]
    exact readPath_writePath_self _ _ _
  have Fsb1 : FsTree.readPath s₁.tree (cfg.root ++ [".storybook", "tsconfig.json"])
      = some (.text storybookTsconfigTemplate) := by
    rw [hbS7 (cfg.root ++ [".storybook", "tsconfig.json"]) (appendRight_ne (by decide))
      (append_two_ne_append_last (by decide)) (append_two_ne_append_last (by decide))
      (append_two_ne_append_last (by decide))]
    rw [hb75 (cfg.root ++ [".storybook", "tsconfig.json"]) (hRdisj _ (List.prefix_append _ _))
      (append_two_ne_append_last (by decide))
      (not_appendSingleton_prefix_append_cons (by decide))]
    rw [ht5, readPath_writePath_ne _ _ _ _ (appendRight_ne (by decide)),
      readPath_writePath_ne _ _ _ _ (appendRight_ne (by decide))]
    exact readPath_writePath_self _ _ _
  have FapiL : FsTree.readPath s₁.tree ((cfg.root ++ ["config"]) ++ ["api-extractor.local.json"])
      = some (.text apiExtractorLocalTemplate) := by
    rw [htS, ht10, readPath_writePath_ne _ _ _ _ (lastOf_append_ne (by decide)), ht9,
      readPath_writePath_ne _ _ _ _ (appendRight_ne (by decide))]
    exact readPath_writePath_self _ _ _
  have Fapi : FsTree.readPath s₁.tree ((cfg.root ++ ["config"]) ++ ["api-extractor.json"])
      = some (.text apiExtractorTemplate) := by
    rw [htS, ht10, readPath_writePath_ne _ _ _ _ (lastOf_append_ne (by decide)), ht9]
    exact readPath_writePath_self _ _ _
  have Fnpm : FsTree.readPath s₁.tree (cfg.root ++ [".npmignore"])
      = some (.text npmIgnoreTemplate) := by
    rw [htS, ht10]
    exact readPath_writePath_self _ _ _
  -- manifest identifications
  have hJpj : pjJ = pj₀ := by
    have hq := readPackageJson_congr
      (hb21 (cfg.root ++ ["package.json"])
        (fun hc => absurd (appendSingleton_eq_singleton hc) (by decide)))
    have hr3' : readPackageJson a2.tree (cfg.root ++ ["package.json"]) = some pjJ := hr3
    rw [hq] at hr3'
    have := hr3'.symm.trans hr2pj
    simpa using this
  have hEpj : pjE = pj₀ := by
    have hq1 := hb75 (cfg.root ++ ["package.json"]) (hRdisj _ (List.prefix_append _ _))
      (manifest_ne_manifest hcr_ec) (not_appendSingleton_prefix_append_cons (by decide))
    have hq2 := hb54 (cfg.root ++ ["package.json"]) (appendRight_ne (by decide))
      (appendRight_ne (by decide)) (appendRight_ne (by decide))
    have hq3 := hb43 (cfg.root ++ ["package.json"])
      (fun hc => absurd (appendSingleton_eq_singleton hc) (by decide))
    have hq4 := hb32 (cfg.root ++ ["package.json"]) (appendRight_ne (by decide))
      (lastOf_append_ne (by decide))
    have hq5 := hb21 (cfg.root ++ ["package.json"])
      (fun hc => absurd (appendSingleton_eq_singleton hc) (by decide))
    have hq := readPackageJson_congr (((hq1.trans hq2).trans hq3).trans (hq4.trans hq5))
    have hrE' : readPackageJson a7.tree (cfg.root ++ ["package.json"]) = some pjE := hrE
    rw [hq] at hrE'
    have := hrE'.symm.trans hr2pj
    simpa using this
  -- the tree that remains has nothing under the stories subdirectory
  have hclear : ∀ e ∈ s₁.tree, ¬ storiesSubdir ec.root
      (jsReplaceFirst name ("@" ++ s₀.npmScope ++ "/") "") <+: e.1 := by
    have hc7 : ∀ e ∈ a7.tree, ¬ storiesSubdir ec.root
        (jsReplaceFirst name ("@" ++ s₀.npmScope ++ "/") "") <+: e.1 := by
      rcases htree7 with ⟨hex, htr⟩ | ⟨pjx, htr⟩
      · intro e he
        rw [htr] at he
        exact (existsPath_eq_false_iff _ _).mp hex e he
      · intro e he
        rw [htr] at he
        rcases mem_writePath he with rfl | he'
        · exact subdir_not_prefix_own_manifest ec.root _
        · exact (mem_deletePath.mp he').2
    intro e he
    rw [htS, ht10] at he
    rcases mem_writePath he with rfl | he
    · exact hRdisj _ (List.prefix_append _ _)
    · rw [ht9] at he
      rcases mem_writePath he with rfl | he
      · exact hRdisj _ ((List.prefix_append _ _).trans (List.prefix_append _ _))
      · rcases mem_writePath he with rfl | he
        · exact hRdisj _ ((List.prefix_append _ _).trans (List.prefix_append _ _))
        · rw [ht8] at he
          rcases mem_writePath he with rfl | he
          · exact hRdisj _ (List.prefix_append _ _)
          · exact hc7 e he
  have hexF : FsTree.existsPath s₁.tree (storiesSubdir ec.root
      (jsReplaceFirst name ("@" ++ s₀.npmScope ++ "/") "")) = false :=
    (existsPath_eq_false_iff _ _).mpr hclear
  have hempty : storyPathsOf s₁ (storiesSubdir ec.root
      (jsReplaceFirst name ("@" ++ s₀.npmScope ++ "/") "")) = [] := by
    rw [storyPathsOf, (filesUnder_eq_nil_iff _ _).mpr hclear]
    rfl
  -- the jest setup file exists in s₁
  have hsetupEx : FsTree.existsPath s₁.tree ((cfg.root ++ ["config"]) ++ ["tests.js"]) = true := by
    obtain ⟨P, cP, hm3, hpre⟩ :=
      localJestTree_setup_exists a2 (mkNormalizedOptions s₀.npmScope name cfg) pjJ
    rw [← ht3] at hm3
    have hRP : cfg.root <+: P :=
      ((List.prefix_append _ _).trans (List.prefix_append _ _)).trans hpre
    have hnsub : ¬ storiesSubdir ec.root
        (jsReplaceFirst name ("@" ++ s₀.npmScope ++ "/") "") <+: P := hRdisj P hRP
    obtain ⟨c4, hm4⟩ : ∃ c', (P, c') ∈ a4.tree := by
      rw [ht4]
      exact mem_fst_writePath hm3 _ _
    obtain ⟨c5a, hm5a⟩ := mem_fst_writePath hm4 (cfg.root ++ [".storybook", "tsconfig.json"])
      (.text storybookTsconfigTemplate)
    obtain ⟨c5b, hm5b⟩ := mem_fst_writePath hm5a (cfg.root ++ [".storybook", "main.js"])
      (.text storybookMainTemplate)
    obtain ⟨c5, hm5⟩ : ∃ c', (P, c') ∈ a5.tree := by
      rw [ht5]
      exact mem_fst_writePath hm5b _ _
    obtain ⟨c6, hm6⟩ := moveStorybook_pathMem hs6 hm5
    obtain ⟨c7, hm7⟩ : ∃ c', (P, c') ∈ a7.tree := by
      rcases htree7 with ⟨hex, htr⟩ | ⟨pjx, htr⟩
      · rw [htr]
        exact ⟨c6, hm6⟩
      · rw [htr]
        exact mem_fst_writePath (mem_deletePath.mpr ⟨hm6, hnsub⟩) _ _
    obtain ⟨c8, hm8⟩ : ∃ c', (P, c') ∈ a8.tree := by
      rw [ht8]
      exact mem_fst_writePath hm7 _ _
    obtain ⟨c9a, hm9a⟩ := mem_fst_writePath hm8
      ((cfg.root ++ ["config"]) ++ ["api-extractor.local.json"]) (.text apiExtractorLocalTemplate)
    obtain ⟨c9, hm9⟩ : ∃ c', (P, c') ∈ a9.tree := by
      rw [ht9]
      exact mem_fst_writePath hm9a _ _
    obtain ⟨cS, hmS⟩ : ∃ c', (P, c') ∈ s₁.tree := by
      rw [htS, ht10]
      exact mem_fst_writePath hm9 _ _
    exact existsPath_true_of_mem hmS hpre
  -- registry facts for the second run
  have hsreg : getKey s₁.registry name = some (updCfg cfg) := by
    rw [hreg₁]
    exact getKey_setKey_self _ _ _
  have hregW : getKey s₁.registry name = some (updCfg (updCfg cfg)) := by
    rw [updCfg_idem]
    exact hsreg
  have hec₁ : getReactExamplesProjectConfig s₁ = some ec := by
    have : getKey s₁.registry ("@" ++ s₁.npmScope ++ "/react-examples") = some ec := by
      rw [hscope₁, hreg₁, getKey_setKey_ne _ _ _ _ (Ne.symm hname)]
      exact hec0
    exact this
  -- the second-run values are fixed points
  have hT : uniqueArray (s₁.tmplTypes ++ s₁.tmplTypes) = s₁.tmplTypes := by
    rw [htmpl₁]
    exact uniqueArray_appSelf _
  have F1' : FsTree.readPath s₁.tree (cfg.root ++ ["tsconfig.json"])
      = some (.localTsConfig (some s₁.tmplTypes) tsconfigTemplateRest) := by
    rw [htmpl₁]
    exact F1
  have hdep1 : ({ pjE with scripts := some (rewrittenScripts
      (jsReplaceFirst name ("@" ++ s₀.npmScope ++ "/") "") scr₀) } : PackageJson).dependencies
      = pj₀.dependencies := by
    show pjE.dependencies = pj₀.dependencies
    rw [hEpj]
  have hM1exp : updatedPathsMap a1 (mkNormalizedOptions s₀.npmScope name cfg) pj₀
      (paths₀.getD [])
      = (scopedDependencies s₀.npmScope pj₀).foldl
          (fun m d => setKey m d (aliasEntry s₀.registry d))
          (setKey (paths₀.getD []) name [pathToString cfg.root ++ "/src/index.ts"]) := by
    rw [updatedPathsMap, hsc1, hrg1]
    rfl
  have hkey : getKey (updatedPathsMap a1 (mkNormalizedOptions s₀.npmScope name cfg) pj₀
      (paths₀.getD [])) name = some [pathToString cfg.root ++ "/src/index.ts"] := by
    rw [hM1exp, getKey_foldl_setKey (fun d => aliasEntry s₀.registry d)]
    by_cases hmemn : name ∈ scopedDependencies s₀.npmScope pj₀
    · rw [if_pos hmemn, aliasEntry, hcfg0]
    · rw [if_neg hmemn, getKey_setKey_self]
  have hall : ∀ d ∈ scopedDependencies s₀.npmScope pj₀,
      getKey (updatedPathsMap a1 (mkNormalizedOptions s₀.npmScope name cfg) pj₀
        (paths₀.getD [])) d = some (aliasEntry s₀.registry d) := by
    intro d hd
    rw [hM1exp, getKey_foldl_setKey (fun d => aliasEntry s₀.registry d), if_pos hd]
  have hM₂ : updatedPathsMap s₁ (mkNormalizedOptions s₁.npmScope name (updCfg cfg))
      { pjE with scripts := some (rewrittenScripts
        (jsReplaceFirst name ("@" ++ s₀.npmScope ++ "/") "") scr₀) }
      (updatedPathsMap a1 (mkNormalizedOptions s₀.npmScope name cfg) pj₀ (paths₀.getD []))
      = updatedPathsMap a1 (mkNormalizedOptions s₀.npmScope name cfg) pj₀
          (paths₀.getD []) := by
    have hds : scopedDependencies s₁.npmScope { pjE with scripts := some (rewrittenScripts
        (jsReplaceFirst name ("@" ++ s₀.npmScope ++ "/") "") scr₀) }
        = scopedDependencies s₀.npmScope pj₀ := by
      rw [scopedDependencies, scopedDependencies, hscope₁, hdep1]
    have hA : ∀ d, aliasEntry s₁.registry d = aliasEntry s₀.registry d := by
      intro d
      rw [hreg₁]
      exact aliasEntry_setKey_same_root hcfg0 (rfl : (updCfg cfg).root = cfg.root) d
    have hgoal : (scopedDependencies s₀.npmScope pj₀).foldl
        (fun m d => setKey m d (aliasEntry s₀.registry d))
        (setKey (updatedPathsMap a1 (mkNormalizedOptions s₀.npmScope name cfg) pj₀
          (paths₀.getD [])) name [pathToString cfg.root ++ "/src/index.ts"])
        = updatedPathsMap a1 (mkNormalizedOptions s₀.npmScope name cfg) pj₀
            (paths₀.getD []) := by
      rw [setKey_eq_self hkey]
      exact foldl_setKey_eq_self hall
    rw [updatedPathsMap, hds]
    simp only [hA]
    exact hgoal
  have F6' : FsTree.readPath s₁.tree (cfg.root ++ ["jest.config.js"])
      = some (.text (jestConfigTemplate (jsReplaceFirst name ("@" ++ s₁.npmScope ++ "/") "")
          ((((({ pjE with scripts := some (rewrittenScripts
            (jsReplaceFirst name ("@" ++ s₀.npmScope ++ "/") "") scr₀) } : PackageJson)
            ).dependencies.getD []).map (·.1)).any
            (fun d => d == "@" ++ s₁.npmScope ++ "/react-make-styles"))
          ("./" ++ lastSegment (cfg.root ++ ["config"]) ++ "/tests.js"))) := by
    rw [hscope₁, hdep1, ← hJpj]
    exact F6
  have hSS : rewrittenScripts (jsReplaceFirst name ("@" ++ s₁.npmScope ++ "/") "")
      (rewrittenScripts (jsReplaceFirst name ("@" ++ s₀.npmScope ++ "/") "") scr₀)
      = rewrittenScripts (jsReplaceFirst name ("@" ++ s₀.npmScope ++ "/") "") scr₀ := by
    rw [hscope₁]
    exact rewrittenScripts_idem _ scr₀
  have hPm : (if P₀.contains name then P₀ else P₀ ++ [name]).contains name = true := by
    by_cases hc : P₀.contains name
    · rw [if_pos hc]
      exact hc
    · rw [if_neg hc]
      exact contains_true_of_mem (List.mem_append_right _ (List.mem_singleton.mpr rfl))
  have hempty₂ : storyPathsOf s₁ (storiesSubdir ec.root
      (jsReplaceFirst name ("@" ++ s₁.npmScope ++ "/") "")) = [] := by
    rw [hscope₁]
    exact hempty
  have hexF₂ : FsTree.existsPath s₁.tree (storiesSubdir ec.root
      (jsReplaceFirst name ("@" ++ s₁.npmScope ++ "/") "")) = false := by
    rw [hscope₁]
    exact hexF
  -- assemble the second run
  refine ⟨{ s₁ with log := s₁.log ++ [⟨.warn, noStoriesMessage⟩] }, ?_, rfl, rfl, rfl, rfl, rfl⟩
  rw [runMigrationOnProject]
  refine exceptBind_ok_intro (normalizeOptions_eq_ok hsreg) ?_
  refine exceptBind_ok_intro (secondRun_localTsConfig F1' hT) ?_
  refine exceptBind_ok_intro (secondRun_baseTsConfig F3 F2 hM₂) ?_
  refine exceptBind_ok_intro (secondRun_localJest F3 F6' hsetupEx) ?_
  refine exceptBind_ok_intro (secondRun_rootJest F4 hPm) ?_
  refine exceptBind_ok_intro (secondRun_storybook Fsb1 Fsb2 Fsb3) ?_
  refine exceptBind_ok_intro (secondRun_moveStorybook hec₁ hempty₂) ?_
  refine exceptBind_ok_intro (secondRun_removeMigrated hec₁ hexF₂) ?_
  refine exceptBind_ok_intro (secondRun_npmScripts F3 rfl hSS) ?_
  refine exceptBind_ok_intro (secondRun_api FapiL Fapi) ?_
  exact exceptBind_ok_intro (secondRun_npmConfig Fnpm) (secondRun_nxWorkspace hregW)

def c2Cfg : ProjectConfig := { root := ["packages", "y"] }

def c2ExCfg : ProjectConfig := { root := ["packages", "react-examples"] }

def c2Manifest : PackageJson :=
  { version := "9.0.0"
    scripts := some [("test", "old-test"), ("update-snapshots", "u")]
    dependencies := some [("@scope/x", "^9.0.0")], rest := "" }

def c2ExManifest : PackageJson :=
  { version := "8.0.0", scripts := none
    dependencies := some [("@scope/y", "9.0.0")], rest := "" }

/-- A complete workspace on which the full transform-step sequence succeeds. -/
def c2State : MigState :=
  { tree :=
      [(["packages", "y", "package.json"], .packageJson c2Manifest),
       (["packages", "y", "tsconfig.json"], .localTsConfig (some ["node"]) "old"),
       (["tsconfig.base.json"], .baseTsConfig (some []) "base"),
       (["jest.config.js"], .rootJestConfig []),
       (["packages", "react-examples", "package.json"], .packageJson c2ExManifest),
       (["packages", "react-examples", "src", "y", "Button.stories.tsx"],
         .text "import '@scope/y';")]
    registry := [("@scope/y", c2Cfg), ("@scope/react-examples", c2ExCfg)]
    npmScope := "scope", tmplTypes := tsconfigTemplateTypes, log := [] }

/-- The state after the first migration run on `c2State`. -/
def c2After : MigState :=
  match runMigrationOnProject c2State "@scope/y" with
  | .ok s => s
  | .error _ => c2State

set_option maxRecDepth 4000 in
theorem C2_transform_steps_idempotent_witness :
    ∃ s₂, runMigrationOnProject c2After "@scope/y" = .ok s₂
      ∧ s₂.tree = c2After.tree ∧ s₂.registry = c2After.registry
      ∧ s₂.npmScope = c2After.npmScope ∧ s₂.tmplTypes = c2After.tmplTypes
      ∧ s₂.log = c2After.log ++ [⟨.warn, noStoriesMessage⟩] :=
  C2_transform_steps_idempotent c2State c2After "@scope/y" c2Cfg c2ExCfg
    (by decide) (by decide) (by decide) (by decide) (by decide) (by decide)
